import Mathlib

/-! Distributed job scheduler: ingestion, queue writer, picker and worker.

A shallow embedding of the Go services under `cmd/` (ingestion, writer, picker,
worker).  Every service function becomes a pure function on a `World` (the
tables of the Job store, the dispatch queue, the run table, the user index and
the blob store, plus the ordered log of the calls made to external services).
Whatever the outside world decides (clock readings, fresh identifiers, whether
a store or bus call fails, what a shell command prints) is passed in as an
explicit environment record, so that a theorem quantified over the environment
covers every outcome.
-/

namespace Scheduler

/-! ## Strings, instants, JSON values -/

/-- A Go string: a sequence of bytes, one list element per byte, so that `len`
is the length of the list. -/
abbrev Str := List Char

/-- An instant, in nanoseconds since the Unix epoch (`time.Time.UnixNano`). -/
abbrev Time := Int

/-- The instant `t` with its sub-second part dropped. -/
def truncSec (t : Time) : Time := t / 1000000000 * 1000000000

/-- The zero value of `time.Time` (1 January of year 1, UTC), which is what
`time.Parse` leaves in its result when it returns an error. -/
def zeroTime : Time := -62135596800000000000

/-- The two calls of Go's `time` package with layout `time.RFC3339` that the
services use; the library is not part of the repository and is a parameter. -/
structure TimeLib where
  /-- Renders `t.Format(time.RFC3339)`. -/
  format : Time → Str
  /-- Renders `time.Parse(time.RFC3339, s)`; `none` is a parse error. -/
  parse : Str → Option Time

/-- Go's `strings.HasPrefix`. -/
def hasPrefix (s p : Str) : Bool := p.isPrefixOf s

/-- Go's `strings.TrimPrefix`. -/
def trimPrefix (s p : Str) : Str := if hasPrefix s p then s.drop p.length else s

/-- A JSON value as far as the services look at it. -/
inductive JVal where
  | str (s : Str)
  | num (n : Int)
  | null
  | other
  deriving DecidableEq, Repr

/-- A JSON object: its members, looked up by name. -/
abbrev JObj := List (Str × JVal)

/-- A body handed to `encoding/json`: text that does not begin with a JSON
value that decodes, a JSON object, or a JSON object followed by further text
that is not white space.  The last is not valid JSON as a whole:
`json.Unmarshal` reports an error for it, while `Decoder.Decode` reads the
object and leaves the rest of the input unread. -/
inductive Body where
  | invalid
  | object (o : JObj)
  | trailing (o : JObj)
  deriving DecidableEq, Repr

/-- Decoding a member into a Go `string` field: a missing or `null` member
leaves the zero value, a JSON string is copied, anything else is a type error
(`none`). -/
def decodeStr (o : JObj) (k : Str) : Option Str :=
  match o.lookup k with
  | none => some []
  | some .null => some []
  | some (.str s) => some s
  | some _ => none

/-- Decoding a member into a Go `int` field. -/
def decodeInt (o : JObj) (k : Str) : Option Int :=
  match o.lookup k with
  | none => some 0
  | some .null => some 0
  | some (.num n) => some n
  | some _ => none

/-! ## Tables -/

/-- A row of table `jobs`, primary key `job_id`. -/
structure Job where
  job_id : Str
  project_id : Str
  user_id : Str
  payload : Str
  cron_schedule : Str
  next_fire_at : Time
  status : Str
  created_at : Time
  updated_at : Time
  max_retries : Int
  retry_count : Int
  shard_id : Int
  deriving DecidableEq, Repr

/-- A row of table `user_jobs`, primary key `(user_id, created_at, job_id)`. -/
structure UserJob where
  user_id : Str
  created_at : Time
  job_id : Str
  status : Str
  next_fire_at : Time
  deriving DecidableEq, Repr

/-- A row of table `job_queue` (the dispatch queue B), primary key
`(shard_id, next_fire_at, job_id)`; `status` is `none` when the column was
never written. -/
structure QueueRow where
  shard_id : Int
  next_fire_at : Time
  job_id : Str
  status : Option Str
  deriving DecidableEq, Repr

/-- A row of table `job_runs`, primary key `(job_id, run_id)`. -/
structure Run where
  job_id : Str
  run_id : Str
  user_id : Str
  status : Str
  triggered_at : Time
  completed_at : Time
  output : Str
  worker_id : Str
  error_message : Str
  deriving DecidableEq, Repr

/-- The primary key of a queue row. -/
def QueueRow.key (r : QueueRow) : Int × Time × Str := (r.shard_id, r.next_fire_at, r.job_id)

/-- A call to an external service, with its arguments and whether it
succeeded. -/
inductive Effect where
  | s3Put (key body : Str) (ok : Bool)
  | s3Get (key : Str) (ok : Bool)
  | jobsInsert (j : Job) (ok : Bool)
  | jobsSelect (job_id : Str) (ok : Bool)
  | jobsUpdateStatus (job_id status : Str) (ok : Bool)
  | jobsReschedule (job_id : Str) (next_fire_at : Time) (shard_id : Int) (ok : Bool)
  | userJobsInsert (u : UserJob) (ok : Bool)
  | userJobsSelect (user_id job_id : Str) (ok : Bool)
  | userJobsUpdate (user_id : Str) (created_at : Time) (job_id status : Str) (ok : Bool)
  | queueInsert (shard_id : Int) (next_fire_at : Time) (job_id : Str) (status : Option Str)
      (ok : Bool)
  | queueDelete (shard_id : Int) (next_fire_at : Time) (job_id : Str) (ok : Bool)
  | runInsert (r : Run) (ok : Bool)
  | kafkaPublish (key : Str) (value : JObj) (ok : Bool)
  | sqsSend (event : JObj) (ok : Bool)
  | sqsDelete (receiptHandle : Str) (ok : Bool)
  | exec (command : Str)
  deriving DecidableEq, Repr

/-- The stores the services share, and the log of external calls in the order
they were made. -/
structure World where
  jobs : List Job
  userJobs : List UserJob
  queue : List QueueRow
  runs : List Run
  blobs : List (Str × Str)
  log : List Effect
  deriving DecidableEq, Repr

/-- Appends one call to the log. -/
def World.emit (w : World) (e : Effect) : World := { w with log := w.log ++ [e] }

/-- The statement `DELETE FROM job_queue WHERE shard_id = ? AND next_fire_at = ? AND job_id = ?`. -/
def deleteQueue (shard_id : Int) (next_fire_at : Time) (job_id : Str) (q : List QueueRow) :
    List QueueRow :=
  q.filter (fun r => !decide (r.key = (shard_id, next_fire_at, job_id)))

/-- An `INSERT INTO job_queue`: an upsert on the primary key.  A `status` that
the statement does not name keeps the value of an existing row. -/
def insertQueue (shard_id : Int) (next_fire_at : Time) (job_id : Str) (status : Option Str)
    (q : List QueueRow) : List QueueRow :=
  match q.find? (fun r => decide (r.key = (shard_id, next_fire_at, job_id))) with
  | none => q ++ [⟨shard_id, next_fire_at, job_id, status⟩]
  | some _ =>
    q.map (fun r =>
      if r.key = (shard_id, next_fire_at, job_id) then
        { r with status := if status.isSome then status else r.status }
      else r)

/-- The primary key of table `job_queue` holds: no two rows share a key. -/
def QueueKeyed (q : List QueueRow) : Prop := (q.map QueueRow.key).Nodup

instance (q : List QueueRow) : Decidable (QueueKeyed q) := by
  unfold QueueKeyed; infer_instance

/-- A full-row `INSERT INTO jobs`: an upsert on `job_id`. -/
def insertJob (j : Job) (jobs : List Job) : List Job :=
  jobs.filter (fun x => !decide (x.job_id = j.job_id)) ++ [j]

/-- A full-row `INSERT INTO user_jobs`: an upsert on `(user_id, created_at, job_id)`. -/
def insertUserJob (u : UserJob) (us : List UserJob) : List UserJob :=
  us.filter (fun x => !decide ((x.user_id, x.created_at, x.job_id) = (u.user_id, u.created_at, u.job_id)))
    ++ [u]

/-- A full-row `INSERT INTO job_runs`: an upsert on `(job_id, run_id)`. -/
def insertRun (r : Run) (rs : List Run) : List Run :=
  rs.filter (fun x => !decide ((x.job_id, x.run_id) = (r.job_id, r.run_id))) ++ [r]

/-- An `UPDATE jobs SET ... WHERE job_id = ?` that sets the columns `f` sets.
In CQL an update is an upsert: when no row has the key, one is created whose
other columns are unset (read back as zero values). -/
def updateJob (job_id : Str) (f : Job → Job) (jobs : List Job) : List Job :=
  if jobs.any (fun j => decide (j.job_id = job_id)) then
    jobs.map (fun j => if j.job_id = job_id then f j else j)
  else
    jobs ++ [f ⟨job_id, [], [], [], [], zeroTime, [], zeroTime, zeroTime, 0, 0, 0⟩]

/-- The statement `UPDATE user_jobs SET status = ? WHERE user_id = ? AND created_at = ? AND job_id = ?`,
an upsert like every CQL update. -/
def updateUserJobStatus (user_id : Str) (created_at : Time) (job_id status : Str)
    (us : List UserJob) : List UserJob :=
  if us.any (fun u => decide ((u.user_id, u.created_at, u.job_id) = (user_id, created_at, job_id))) then
    us.map (fun u =>
      if (u.user_id, u.created_at, u.job_id) = (user_id, created_at, job_id) then
        { u with status := status }
      else u)
  else
    us ++ [⟨user_id, created_at, job_id, status, zeroTime⟩]

/-- A `PutObject` into bucket `job-payloads`. -/
def putBlob (key body : Str) (blobs : List (Str × Str)) : List (Str × Str) :=
  (key, body) :: blobs.filter (fun kv => !decide (kv.1 = key))

/-! ## Ingestion service (`cmd/ingestion/main.go`) -/

namespace Ingestion

/-- The client submission. -/
structure JobRequest where
  ProjectID : Str
  Payload : Str
  CronSchedule : Str
  NextFireAt : Str
  MaxRetries : Int
  deriving DecidableEq, Repr

/-- The success response. -/
structure JobResponse where
  JobID : Str
  Status : Str
  Message : Str
  deriving DecidableEq, Repr

/-- The expression `json.NewDecoder(r.Body).Decode(&req)`: the decoder reads
the first JSON value of the stream and does not look at what follows it. -/
def decodeJobRequest : Body → Option JobRequest
  | .invalid => none
  | .object o | .trailing o => do
    let projectID ← decodeStr o "project_id".toList
    let payload ← decodeStr o "payload".toList
    let cronSchedule ← decodeStr o "cron_schedule".toList
    let nextFireAt ← decodeStr o "next_fire_at".toList
    let maxRetries ← decodeInt o "max_retries".toList
    pure ⟨projectID, payload, cronSchedule, nextFireAt, maxRetries⟩

/-- What `submitHandler` reads of the request. -/
structure HttpRequest where
  method : Str
  /-- The header `X-User-ID` (empty when absent). -/
  userID : Str
  body : Body
  deriving DecidableEq, Repr

/-- A response body: the text of `http.Error`, or the encoded `JobResponse`. -/
inductive RespBody where
  | text (s : Str)
  | job (r : JobResponse)
  deriving DecidableEq, Repr

/-- The status code and body written to the client. -/
structure HttpResponse where
  code : Nat
  body : RespBody
  deriving DecidableEq, Repr

/-- What the outside world decides during one call of `submitHandler`. -/
structure SubmitEnv where
  /-- The value of `uuid.New().String()`. -/
  jobID : Str
  /-- The reading `now := time.Now()`. -/
  now : Time
  /-- The later reading `time.Now()` used when `next_fire_at` is empty. -/
  fireNow : Time
  s3PutOk : Bool
  jobsInsertOk : Bool
  userJobsInsertOk : Bool
  kafkaOk : Bool

/-- The submission event published to Kafka. -/
def submissionEvent (tl : TimeLib) (jobID : Str) (req : JobRequest) (userID : Str)
    (nextFireAt now : Time) (shardID : Int) (payload : Str) : JObj :=
  [ ("job_id".toList, .str jobID),
    ("project_id".toList, .str req.ProjectID),
    ("user_id".toList, .str userID),
    ("next_fire_at".toList, .str (tl.format nextFireAt)),
    ("submitted_at".toList, .str (tl.format now)),
    ("shard_id".toList, .num shardID),
    ("payload".toList, .str payload),
    ("max_retries".toList, .num req.MaxRetries) ]

/-- Steps 1, 1.5 and 2 of `submitHandler`: the Job row, the user index row and
the Kafka publish, once the payload and the fire time are settled. -/
def persistAndPublish (tl : TimeLib) (env : SubmitEnv) (req : JobRequest) (userID payload : Str)
    (nextFireAt : Time) (w : World) : World × HttpResponse :=
  let jobID := env.jobID
  let now := env.now
  let shardID := Int.tmod now 1024
  let job : Job := ⟨jobID, req.ProjectID, userID, payload, req.CronSchedule, nextFireAt,
    "PENDING".toList, now, now, req.MaxRetries, 0, shardID⟩
  if !env.jobsInsertOk then
    (w.emit (.jobsInsert job false), ⟨500, .text "Internal Storage Error".toList⟩)
  else
    let w1 := { w with jobs := insertJob job w.jobs }.emit (.jobsInsert job true)
    let userRow : UserJob := ⟨userID, now, jobID, "PENDING".toList, nextFireAt⟩
    let w2 :=
      if userID ≠ [] then
        if env.userJobsInsertOk then
          { w1 with userJobs := insertUserJob userRow w1.userJobs }.emit (.userJobsInsert userRow true)
        else w1.emit (.userJobsInsert userRow false)
      else w1
    let event := submissionEvent tl jobID req userID nextFireAt now shardID payload
    if !env.kafkaOk then
      (w2.emit (.kafkaPublish jobID event false), ⟨500, .text "Internal Messaging Error".toList⟩)
    else
      (w2.emit (.kafkaPublish jobID event true),
        ⟨201, .job ⟨jobID, "Submitted".toList, "Job submitted successfully".toList⟩⟩)

/-- The section "Parse NextFireAt" of `submitHandler` and what follows it. -/
def parseAndPersist (tl : TimeLib) (env : SubmitEnv) (req : JobRequest) (userID payload : Str)
    (w : World) : World × HttpResponse :=
  if req.NextFireAt ≠ [] then
    match tl.parse req.NextFireAt with
    | none => (w, ⟨400, .text "Invalid next_fire_at format (RFC3339 required)".toList⟩)
    | some nextFireAt => persistAndPublish tl env req userID payload nextFireAt w
  else
    persistAndPublish tl env req userID payload env.fireNow w

/-- The handler of `POST /submit`. -/
def submitHandler (tl : TimeLib) (env : SubmitEnv) (r : HttpRequest) (w : World) :
    World × HttpResponse :=
  if r.method ≠ "POST".toList then
    (w, ⟨405, .text "Method not allowed".toList⟩)
  else
    match decodeJobRequest r.body with
    | none => (w, ⟨400, .text "Invalid JSON".toList⟩)
    | some req =>
      let jobID := env.jobID
      let userID := r.userID
      let payload := req.Payload
      if payload.length > 1024 then
        let key := "payloads/".toList ++ jobID
        if !env.s3PutOk then
          (w.emit (.s3Put key payload false), ⟨500, .text "Failed to store payload".toList⟩)
        else
          let w1 := { w with blobs := putBlob key payload w.blobs }.emit (.s3Put key payload true)
          parseAndPersist tl env req userID ("s3:".toList ++ key) w1
      else
        parseAndPersist tl env req userID payload w

end Ingestion

/-! ## Queue writer (`cmd/writer/main.go`) -/

namespace Writer

/-- The submission event as the writer decodes it. -/
structure JobSubmissionEvent where
  JobID : Str
  ProjectID : Str
  NextFireAt : Str
  ShardID : Int
  Payload : Str
  deriving DecidableEq, Repr

/-- The expression `json.Unmarshal(msg.Value, &event)`. -/
def decodeJobSubmissionEvent : Body → Option JobSubmissionEvent
  | .invalid | .trailing _ => none
  | .object o => do
    let jobID ← decodeStr o "job_id".toList
    let projectID ← decodeStr o "project_id".toList
    let nextFireAt ← decodeStr o "next_fire_at".toList
    let shardID ← decodeInt o "shard_id".toList
    let payload ← decodeStr o "payload".toList
    pure ⟨jobID, projectID, nextFireAt, shardID, payload⟩

/-- Whether the insert into `job_queue` succeeds. -/
structure WriterEnv where
  queueInsertOk : Bool

/-- The writer's `processMessage`, applied to the value of one Kafka message. -/
def processMessage (tl : TimeLib) (env : WriterEnv) (value : Body) (w : World) : World :=
  match decodeJobSubmissionEvent value with
  | none => w
  | some event =>
    match tl.parse event.NextFireAt with
    | none => w
    | some nextFireAt =>
      if !env.queueInsertOk then
        w.emit (.queueInsert event.ShardID nextFireAt event.JobID (some "PENDING".toList) false)
      else
        { w with queue := insertQueue event.ShardID nextFireAt event.JobID (some "PENDING".toList) w.queue }.emit
          (.queueInsert event.ShardID nextFireAt event.JobID (some "PENDING".toList) true)

end Writer

/-! ## Picker (`cmd/picker/main.go`) -/

namespace Picker

/-- A candidate read from `job_queue`: the two columns the scan selects. -/
structure Candidate where
  ID : Str
  FireAt : Time
  deriving DecidableEq, Repr

/-- What the outside world decides while one candidate is processed. -/
structure CandEnv where
  /-- Whether the query on table `jobs` itself succeeds. -/
  lookupOk : Bool
  /-- The value of `uuid.New().String()`. -/
  runID : Str
  /-- The reading `time.Now()` stamped into `executed_at`. -/
  stamp : Time
  sendOk : Bool
  deleteOk : Bool

/-- What the outside world decides during one call of `scanShard`. -/
structure ScanEnv where
  /-- The reading `now := time.Now()` at the start of the scan. -/
  now : Time
  /-- How many rows the iterator delivers before `iter.Scan` returns false; a
  number at least the count of due rows is a complete scan. -/
  scanned : Nat
  /-- The outcomes for the candidate at each position. -/
  cand : Nat → CandEnv

/-- The rows the scan query delivers: those of the shard that are due. -/
def dueRows (q : List QueueRow) (shardID : Int) (now : Time) (scanned : Nat) : List QueueRow :=
  (q.filter (fun r => decide (r.shard_id = shardID) && decide (r.next_fire_at ≤ now))).take scanned

/-- The candidate made of a delivered row. -/
def toCandidate (r : QueueRow) : Candidate := ⟨r.job_id, r.next_fire_at⟩

/-- The query on table `jobs` for one candidate; `none` is an error of `Scan`
(the query failed, or no row has the id). -/
def lookupJob (ce : CandEnv) (jobs : List Job) (cand : Candidate) : Option Job :=
  if ce.lookupOk then jobs.find? (fun j => decide (j.job_id = cand.ID)) else none

/-- The dispatch event published to SQS. -/
def dispatchEvent (tl : TimeLib) (cand : Candidate) (ce : CandEnv) (j : Job) : JObj :=
  [ ("job_id".toList, .str cand.ID),
    ("run_id".toList, .str ce.runID),
    ("status".toList, .str "STARTED".toList),
    ("executed_at".toList, .str (tl.format ce.stamp)),
    ("payload".toList, .str j.payload),
    ("project_id".toList, .str j.project_id),
    ("cron_schedule".toList, .str j.cron_schedule),
    ("user_id".toList, .str j.user_id),
    ("max_retries".toList, .num j.max_retries) ]

/-- The body of the loop "2. Process candidates" of `scanShard`. -/
def processCandidate (tl : TimeLib) (shardID : Int) (ce : CandEnv) (cand : Candidate)
    (w : World) : World :=
  match lookupJob ce w.jobs cand with
  | none => w.emit (.jobsSelect cand.ID false)
  | some j =>
    let w1 := w.emit (.jobsSelect cand.ID true)
    let event := dispatchEvent tl cand ce j
    if !ce.sendOk then
      w1.emit (.sqsSend event false)
    else
      let w2 := w1.emit (.sqsSend event true)
      if !ce.deleteOk then
        w2.emit (.queueDelete shardID cand.FireAt cand.ID false)
      else
        { w2 with queue := deleteQueue shardID cand.FireAt cand.ID w2.queue }.emit
          (.queueDelete shardID cand.FireAt cand.ID true)

/-- The loop over the candidates, the first of which sits at position `i`. -/
def processCandidates (tl : TimeLib) (shardID : Int) (cand : Nat → CandEnv) :
    Nat → List Candidate → World → World
  | _, [], w => w
  | i, c :: cs, w =>
    processCandidates tl shardID cand (i + 1) cs (processCandidate tl shardID (cand i) c w)

/-- One scan cycle of a shard. -/
def scanShard (tl : TimeLib) (env : ScanEnv) (shardID : Int) (w : World) : World :=
  let candidates := (dueRows w.queue shardID env.now env.scanned).map toCandidate
  processCandidates tl shardID env.cand 0 candidates w

end Picker

/-! ## Worker (`cmd/worker/main.go`) -/

namespace Worker

/-- The dispatch event as the worker decodes it. -/
structure JobExecutionEvent where
  JobID : Str
  RunID : Str
  Status : Str
  Payload : Str
  ProjectID : Str
  UserID : Str
  ExecutedAt : Str
  CronSchedule : Str
  deriving DecidableEq, Repr

/-- The expression `json.Unmarshal([]byte(*msg.Body), &event)`. -/
def decodeJobExecutionEvent : Body → Option JobExecutionEvent
  | .invalid | .trailing _ => none
  | .object o => do
    let jobID ← decodeStr o "job_id".toList
    let runID ← decodeStr o "run_id".toList
    let status ← decodeStr o "status".toList
    let payload ← decodeStr o "payload".toList
    let projectID ← decodeStr o "project_id".toList
    let userID ← decodeStr o "user_id".toList
    let executedAt ← decodeStr o "executed_at".toList
    let cronSchedule ← decodeStr o "cron_schedule".toList
    pure ⟨jobID, runID, status, payload, projectID, userID, executedAt, cronSchedule⟩

/-- An SQS message as `processMessage` reads it. -/
structure Message where
  /-- The field `msg.Body`, `none` when the pointer is nil. -/
  Body : Option Body
  ReceiptHandle : Str
  deriving DecidableEq, Repr

/-- What the outside world decides during one call of `processMessage`. -/
structure WorkerEnv where
  s3GetOk : Bool
  /-- Whether `io.ReadAll(out.Body)` succeeds. -/
  s3ReadOk : Bool
  /-- The result of `exec.Command("sh", "-c", cmdStr).CombinedOutput()`: the
  captured output and, when the command failed, the text of the error. -/
  shell : Str → Str × Option Str
  /-- The result of `os.Hostname()`, `none` on error. -/
  hostname : Option Str
  /-- The reading `now := time.Now()` when the run is recorded. -/
  now : Time
  runInsertOk : Bool
  /-- The cron library: `parser.Parse`, giving the `Next` of the schedule. -/
  cronParse : Str → Option (Time → Time)
  /-- The reading `time.Now()` in `handleReschedule`. -/
  cronNow : Time
  /-- The random source: `rand.Intn(n)` is `rand % n`. -/
  rand : Nat
  jobsUpdateOk : Bool
  queueInsertOk : Bool
  userSelectOk : Bool
  userUpdateOk : Bool
  sqsDeleteOk : Bool

/-- The function `updateJobStatus`. -/
def updateJobStatus (env : WorkerEnv) (jobID userID status : Str) (w : World) : World :=
  if !env.jobsUpdateOk then
    w.emit (.jobsUpdateStatus jobID status false)
  else
    let w1 := { w with jobs := updateJob jobID (fun j => { j with status := status }) w.jobs }.emit
      (.jobsUpdateStatus jobID status true)
    match (if env.userSelectOk then
        w1.userJobs.find? (fun u => decide (u.user_id = userID) && decide (u.job_id = jobID))
      else none) with
    | none => w1.emit (.userJobsSelect userID jobID false)
    | some u =>
      let createdAt := u.created_at
      let w2 := w1.emit (.userJobsSelect userID jobID true)
      if !env.userUpdateOk then
        w2.emit (.userJobsUpdate userID createdAt jobID status false)
      else
        { w2 with userJobs := updateUserJobStatus userID createdAt jobID status w2.userJobs }.emit
          (.userJobsUpdate userID createdAt jobID status true)

/-- The function `handleReschedule`. -/
def handleReschedule (env : WorkerEnv) (event : JobExecutionEvent) (w : World) : World :=
  match env.cronParse event.CronSchedule with
  | none => w
  | some next =>
    let nextFireAt := next env.cronNow
    let shardID : Int := ((env.rand % 1024 : Nat) : Int)
    if !env.jobsUpdateOk then
      w.emit (.jobsReschedule event.JobID nextFireAt shardID false)
    else
      let jobs := updateJob event.JobID
        (fun j => { j with next_fire_at := nextFireAt, shard_id := shardID, status := "PENDING".toList })
        w.jobs
      let w1 := { w with jobs := jobs }.emit (.jobsReschedule event.JobID nextFireAt shardID true)
      if !env.queueInsertOk then
        w1.emit (.queueInsert shardID nextFireAt event.JobID none false)
      else
        { w1 with queue := insertQueue shardID nextFireAt event.JobID none w1.queue }.emit
          (.queueInsert shardID nextFireAt event.JobID none true)

/-- The three variables `jobStatus`, `jobOutput`, `errorMessage` that the
execution of a payload sets. -/
structure Outcome where
  jobStatus : Str
  jobOutput : Str
  errorMessage : Str
  deriving DecidableEq, Repr

/-- The section "Command execution" of `processMessage`: the payload is
interpreted by its leading text.  Sleeping changes nothing that is recorded. -/
def execute (env : WorkerEnv) (payload : Str) : Outcome :=
  if hasPrefix payload "cmd:".toList then
    let cmdStr := trimPrefix payload "cmd:".toList
    match env.shell cmdStr with
    | (output, some err) => ⟨"FAILED".toList, output, "Command failed: ".toList ++ err⟩
    | (output, none) => ⟨"COMPLETED".toList, output, []⟩
  else if hasPrefix payload "sleep:".toList then
    ⟨"COMPLETED".toList, "Success: ".toList ++ payload, []⟩
  else
    ⟨"COMPLETED".toList, "Success: ".toList ++ payload, []⟩

/-- The shell command that `execute` runs for a payload, if any. -/
def execCalls (payload : Str) : List Effect :=
  if hasPrefix payload "cmd:".toList then [.exec (trimPrefix payload "cmd:".toList)] else []

/-- The run record written for an event and an outcome. -/
def runRecord (tl : TimeLib) (env : WorkerEnv) (event : JobExecutionEvent) (o : Outcome) : Run :=
  let workerID := env.hostname.getD "unknown-worker".toList
  let startedAt := (tl.parse event.ExecutedAt).getD zeroTime
  ⟨event.JobID, event.RunID, event.UserID, o.jobStatus, startedAt, env.now, o.jobOutput, workerID,
    o.errorMessage⟩

/-- The part of `processMessage` after the payload is resolved: execution, the
run record, the lifecycle update and the acknowledgement. -/
def executeAndRecord (tl : TimeLib) (env : WorkerEnv) (msg : Message) (event : JobExecutionEvent)
    (w : World) : World :=
  let o := execute env event.Payload
  let w1 := { w with log := w.log ++ execCalls event.Payload }
  let run := runRecord tl env event o
  if !env.runInsertOk then
    w1.emit (.runInsert run false)
  else
    let w2 := { w1 with runs := insertRun run w1.runs }.emit (.runInsert run true)
    let w3 :=
      if event.CronSchedule ≠ [] then handleReschedule env event w2
      else updateJobStatus env event.JobID event.UserID o.jobStatus w2
    w3.emit (.sqsDelete msg.ReceiptHandle env.sqsDeleteOk)

/-- The call `GetObject` on bucket `job-payloads`; `none` is an error (the call
failed, or no object has the key). -/
def getBlob (env : WorkerEnv) (blobs : List (Str × Str)) (key : Str) : Option Str :=
  if env.s3GetOk then blobs.lookup key else none

/-- The worker's `processMessage`. -/
def processMessage (tl : TimeLib) (env : WorkerEnv) (msg : Message) (w : World) : World :=
  match msg.Body with
  | none => w
  | some body =>
    match decodeJobExecutionEvent body with
    | none => w
    | some event =>
      if hasPrefix event.Payload "s3:".toList then
        let key := trimPrefix event.Payload "s3:".toList
        match getBlob env w.blobs key with
        | none => w.emit (.s3Get key false)
        | some blob =>
          let w1 := w.emit (.s3Get key true)
          if !env.s3ReadOk then w1
          else executeAndRecord tl env msg { event with Payload := blob } w1
      else
        executeAndRecord tl env msg event w

end Worker

/-! ## Auxiliary definitions used to state and prove the properties -/

/-- A small stand-in for the `time` library, used to evaluate the services on
concrete inputs: the text of an instant is the decimal count of its whole
seconds since the epoch.  Like the layout `time.RFC3339` it keeps whole seconds
only, so parsing a formatted instant gives the instant truncated to the
second. -/
def secondsCodec : TimeLib where
  format := fun t => Nat.toDigits 10 (t / 1000000000).toNat
  parse := fun s =>
    if s ≠ [] ∧ s.all Char.isDigit = true then
      some (((s.foldl (fun n c => 10 * n + (c.toNat - 48)) 0 : Nat) : Int) * 1000000000)
    else none

namespace Picker

/-- Whether processing a candidate ends in a successful delete of its row. -/
def stepDeletes (ce : CandEnv) (jobs : List Job) (cand : Candidate) : Bool :=
  (lookupJob ce jobs cand).isSome && ce.sendOk && ce.deleteOk

/-- The calls `processCandidate` makes for one candidate, in order. -/
def stepLog (tl : TimeLib) (shardID : Int) (ce : CandEnv) (jobs : List Job) (cand : Candidate) :
    List Effect :=
  match lookupJob ce jobs cand with
  | none => [.jobsSelect cand.ID false]
  | some j =>
    if !ce.sendOk then
      [.jobsSelect cand.ID true, .sqsSend (dispatchEvent tl cand ce j) false]
    else
      [.jobsSelect cand.ID true, .sqsSend (dispatchEvent tl cand ce j) true,
        .queueDelete shardID cand.FireAt cand.ID ce.deleteOk]

/-- The calls the candidate loop makes, in order. -/
def scanTrace (tl : TimeLib) (shardID : Int) (cand : Nat → CandEnv) (jobs : List Job) :
    Nat → List Candidate → List Effect
  | _, [] => []
  | i, c :: cs => stepLog tl shardID (cand i) jobs c ++ scanTrace tl shardID cand jobs (i + 1) cs

end Picker

/-! ## Example data, used to evaluate the services on concrete inputs -/

/-- A pending job `j1` with the inline payload `test`, due at second 1. -/
def exJob : Job :=
  ⟨"j1".toList, "p".toList, "u".toList, "test".toList, [], 1000000000, "PENDING".toList,
    0, 0, 0, 0, 0⟩

/-- A world whose queue holds a row for `j1` and a row for a job `j2` that the
Job store does not know. -/
def exWorld : World :=
  ⟨[exJob], [],
    [⟨0, 1000000000, "j1".toList, some "PENDING".toList⟩, ⟨0, 2000000000, "j2".toList, none⟩],
    [], [], []⟩

/-- A scan at second 5 in which every call to the outside succeeds. -/
def exScanEnv : Picker.ScanEnv :=
  ⟨5000000000, 10, fun _ => ⟨true, "r1".toList, 5000000000, true, true⟩⟩

/-- A scan that reads the clock at second 1 for its query and stamps its event
at second 0.9: the picker's clock was set back by more than a tenth of a second
between the two readings.  Every call to the outside succeeds. -/
def exStepBackEnv : Picker.ScanEnv :=
  ⟨1000000000, 10, fun _ => ⟨true, "r1".toList, 900000000, true, true⟩⟩

/-- A worker on host `w1` at second 9 for which every call to the outside
succeeds; commands print nothing and exit with code 0, and no cron expression
parses. -/
def exWorkerEnv : Worker.WorkerEnv where
  s3GetOk := true
  s3ReadOk := true
  shell := fun _ => ([], none)
  hostname := some "w1".toList
  now := 9000000000
  runInsertOk := true
  cronParse := fun _ => none
  cronNow := 9000000000
  rand := 7
  jobsUpdateOk := true
  queueInsertOk := true
  userSelectOk := true
  userUpdateOk := true
  sqsDeleteOk := true

/-- The worker of `exWorkerEnv` one second earlier, for which the final
`DeleteMessage` fails: the message stays on the bus and is delivered again. -/
def exWorkerEnvNoAck : Worker.WorkerEnv :=
  { exWorkerEnv with now := 8000000000, sqsDeleteOk := false }

/-- The message carrying the dispatch event that the scan of `exScanEnv`
publishes for `exJob`. -/
def exMessage : Worker.Message :=
  ⟨some (.object (Picker.dispatchEvent secondsCodec ⟨"j1".toList, 1000000000⟩
    (exScanEnv.cand 0) exJob)), "h1".toList⟩

namespace Ingestion

/-- The payload that `submitHandler` stores in the Job row and in the
submission event: the reference to the blob when the payload was offloaded. -/
def storedPayload (jobID payload : Str) : Str :=
  if payload.length > 1024 then "s3:".toList ++ ("payloads/".toList ++ jobID) else payload

/-- The fire time that `submitHandler` settles on; `none` is a parse error. -/
def fireTime (tl : TimeLib) (env : SubmitEnv) (req : JobRequest) : Option Time :=
  if req.NextFireAt ≠ [] then tl.parse req.NextFireAt else some env.fireNow

/-- The Job row that `submitHandler` inserts. -/
def jobRow (env : SubmitEnv) (req : JobRequest) (userID : Str) (nextFireAt : Time) : Job :=
  ⟨env.jobID, req.ProjectID, userID, storedPayload env.jobID req.Payload, req.CronSchedule,
    nextFireAt, "PENDING".toList, env.now, env.now, req.MaxRetries, 0, Int.tmod env.now 1024⟩

/-- The submission event that `submitHandler` publishes. -/
def publishedEvent (tl : TimeLib) (env : SubmitEnv) (req : JobRequest) (userID : Str)
    (nextFireAt : Time) : JObj :=
  submissionEvent tl env.jobID req userID nextFireAt env.now (Int.tmod env.now 1024)
    (storedPayload env.jobID req.Payload)

/-- The write to the user index that `submitHandler` attempts: none for an
empty user id. -/
def userIndexCalls (env : SubmitEnv) (userID : Str) (nextFireAt : Time) : List Effect :=
  if userID ≠ [] then
    [.userJobsInsert ⟨userID, env.now, env.jobID, "PENDING".toList, nextFireAt⟩ env.userJobsInsertOk]
  else []

/-- The upload that `submitHandler` attempts: none for a payload of at most
1024 bytes. -/
def offloadCalls (env : SubmitEnv) (req : JobRequest) : List Effect :=
  if req.Payload.length > 1024 then
    [.s3Put ("payloads/".toList ++ env.jobID) req.Payload env.s3PutOk]
  else []

end Ingestion
/-- A `POST /submit` of user `u` with the inline payload `test` and no
`next_fire_at`. -/
def exRequest : Ingestion.HttpRequest :=
  ⟨"POST".toList, "u".toList, .object [("project_id".toList, .str "p".toList),
    ("payload".toList, .str "test".toList)]⟩

/-- A submission at second 7.5 that is given the job id `j9`; every call to the
outside succeeds. -/
def exSubmitEnv : Ingestion.SubmitEnv :=
  ⟨"j9".toList, 7500000000, 7500000000, true, true, true, true⟩

/-- A world with empty stores. -/
def exEmptyWorld : World := ⟨[], [], [], [], [], []⟩

namespace Worker

/-- The payload that `processMessage` executes: the payload of the event, or
the blob it names; `none` when the blob cannot be fetched or read. -/
def resolvePayload (env : WorkerEnv) (blobs : List (Str × Str)) (ev : JobExecutionEvent) :
    Option Str :=
  if hasPrefix ev.Payload "s3:".toList then
    match getBlob env blobs (trimPrefix ev.Payload "s3:".toList) with
    | none => none
    | some blob => if env.s3ReadOk then some blob else none
  else some ev.Payload

/-- The successful blob download that precedes the execution, if any. -/
def fetchCalls (ev : JobExecutionEvent) : List Effect :=
  if hasPrefix ev.Payload "s3:".toList then
    [.s3Get (trimPrefix ev.Payload "s3:".toList) true]
  else []

end Worker

/-- A recurring job `j1` with the schedule `@every 2s`. -/
def exCronJob : Job :=
  ⟨"j1".toList, "p".toList, "u".toList, "test".toList, "@every 2s".toList, 1000000000,
    "PENDING".toList, 0, 0, 0, 0, 0⟩

/-- The message carrying the dispatch event for `exCronJob`. -/
def exCronMessage : Worker.Message :=
  ⟨some (.object (Picker.dispatchEvent secondsCodec ⟨"j1".toList, 1000000000⟩
    (exScanEnv.cand 0) exCronJob)), "h1".toList⟩

/-- The worker of `exWorkerEnv` with a cron library for which every expression
means "two seconds from now". -/
def exCronWorkerEnv : Worker.WorkerEnv :=
  { exWorkerEnv with cronParse := fun _ => some (fun t => t + 2000000000) }

/-- A world holding `exCronJob`, its user index row and no queue row. -/
def exCronWorld : World :=
  ⟨[exCronJob], [⟨"u".toList, 0, "j1".toList, "PENDING".toList, 1000000000⟩], [], [], [], []⟩

namespace Ingestion

/-- The calls that `persistAndPublish` makes, in order. -/
def persistCalls (tl : TimeLib) (env : SubmitEnv) (req : JobRequest) (userID : Str)
    (nextFireAt : Time) : List Effect :=
  if env.jobsInsertOk then
    Effect.jobsInsert (jobRow env req userID nextFireAt) true ::
      (userIndexCalls env userID nextFireAt ++
        [Effect.kafkaPublish env.jobID (publishedEvent tl env req userID nextFireAt) env.kafkaOk])
  else [Effect.jobsInsert (jobRow env req userID nextFireAt) false]

/-- The calls that `submitHandler` makes for a decoded request, in order. -/
def submitCalls (tl : TimeLib) (env : SubmitEnv) (req : JobRequest) (userID : Str) : List Effect :=
  offloadCalls env req ++
    (if req.Payload.length > 1024 ∧ env.s3PutOk = false then []
    else
      match fireTime tl env req with
      | none => []
      | some nextFireAt => persistCalls tl env req userID nextFireAt)

end Ingestion

/-- A `POST /submit` of user `u` whose payload is 1025 bytes `A`. -/
def exLargeRequest : Ingestion.HttpRequest :=
  ⟨"POST".toList, "u".toList, .object [("project_id".toList, .str "p".toList),
    ("payload".toList, .str (List.replicate 1025 'A'))]⟩

/-- The message carrying a dispatch event for job `j9` whose payload is the
reference `s3:payloads/j9`. -/
def exBlobMessage : Worker.Message :=
  ⟨some (.object [("job_id".toList, .str "j9".toList), ("run_id".toList, .str "r9".toList),
    ("payload".toList, .str "s3:payloads/j9".toList)]), "h9".toList⟩

/-- A world whose blob store holds 1025 bytes `A` under `payloads/j9`. -/
def exBlobWorld : World :=
  ⟨[], [], [], [], [("payloads/j9".toList, List.replicate 1025 'A')], []⟩

namespace Ingestion

/-- The response of `submitHandler` to a `POST` whose body decodes to `req`. -/
def submitResponse (tl : TimeLib) (env : SubmitEnv) (req : JobRequest) : HttpResponse :=
  if req.Payload.length > 1024 ∧ env.s3PutOk = false then
    ⟨500, .text "Failed to store payload".toList⟩
  else
    match fireTime tl env req with
    | none => ⟨400, .text "Invalid next_fire_at format (RFC3339 required)".toList⟩
    | some _ =>
      if env.jobsInsertOk = false then ⟨500, .text "Internal Storage Error".toList⟩
      else if env.kafkaOk = false then ⟨500, .text "Internal Messaging Error".toList⟩
      else ⟨201, .job ⟨env.jobID, "Submitted".toList, "Job submitted successfully".toList⟩⟩

end Ingestion

namespace Ingestion

/-- The world once the section "S3 Offloading Logic" of `submitHandler` has
uploaded the payload, when it is longer than 1024 bytes. -/
def afterOffload (env : SubmitEnv) (req : JobRequest) (w : World) : World :=
  if req.Payload.length > 1024 then
    { w with blobs := putBlob ("payloads/".toList ++ env.jobID) req.Payload w.blobs }.emit
      (.s3Put ("payloads/".toList ++ env.jobID) req.Payload true)
  else w

end Ingestion

/-- A submission like `exSubmitEnv` for which the insert into `jobs` fails. -/
def exSubmitEnvNoStore : Ingestion.SubmitEnv :=
  { exSubmitEnv with jobsInsertOk := false }

/-- A submission like `exSubmitEnv` for which the Kafka publish fails. -/
def exSubmitEnvNoBus : Ingestion.SubmitEnv :=
  { exSubmitEnv with kafkaOk := false }

/-- A submission like `exSubmitEnv` for which the blob upload fails. -/
def exSubmitEnvNoBlob : Ingestion.SubmitEnv :=
  { exSubmitEnv with s3PutOk := false }

/-- A `PUT /submit` with the body of `exRequest`. -/
def exPutRequest : Ingestion.HttpRequest :=
  { exRequest with method := "PUT".toList }

/-- A `POST /submit` whose `next_fire_at` is the text `soon`. -/
def exBadTimeRequest : Ingestion.HttpRequest :=
  ⟨"POST".toList, "u".toList, .object [("project_id".toList, .str "p".toList),
    ("payload".toList, .str "test".toList), ("next_fire_at".toList, .str "soon".toList)]⟩

/-- A `POST /submit` whose payload is 1025 bytes `A` and whose `next_fire_at`
is the text `soon`. -/
def exLargeBadTimeRequest : Ingestion.HttpRequest :=
  ⟨"POST".toList, "u".toList, .object [("project_id".toList, .str "p".toList),
    ("payload".toList, .str (List.replicate 1025 'A')),
    ("next_fire_at".toList, .str "soon".toList)]⟩

/-- The worker of `exWorkerEnv` for which the insert into `job_runs` fails. -/
def exWorkerEnvNoRun : Worker.WorkerEnv :=
  { exWorkerEnv with runInsertOk := false }

/-- The worker of `exCronWorkerEnv` for which the update of `jobs` fails. -/
def exCronWorkerEnvNoUpdate : Worker.WorkerEnv :=
  { exCronWorkerEnv with jobsUpdateOk := false }

/-- The worker of `exCronWorkerEnv` for which the insert into `job_queue`
fails. -/
def exCronWorkerEnvNoQueue : Worker.WorkerEnv :=
  { exCronWorkerEnv with queueInsertOk := false }

/-- The worker of `exWorkerEnv` for which the update of `jobs` fails. -/
def exWorkerEnvNoUpdate : Worker.WorkerEnv :=
  { exWorkerEnv with jobsUpdateOk := false }

/-- A message without a body. -/
def exEmptyMessage : Worker.Message := ⟨none, "h0".toList⟩

/-- A message whose body is not JSON. -/
def exJunkMessage : Worker.Message := ⟨some .invalid, "h0".toList⟩

/-- The worker of `exWorkerEnv` for which the download of a blob fails. -/
def exWorkerEnvNoFetch : Worker.WorkerEnv :=
  { exWorkerEnv with s3GetOk := false }

/-- The worker of `exWorkerEnv` for which reading the body of a downloaded
blob fails. -/
def exWorkerEnvNoRead : Worker.WorkerEnv :=
  { exWorkerEnv with s3ReadOk := false }

/-- The worker of `exWorkerEnv` with a shell in which the command `exit 3`
fails with `exit status 3` and prints nothing, and every other command prints
`hi` and exits with code 0. -/
def exShellWorkerEnv : Worker.WorkerEnv :=
  { exWorkerEnv with
    shell := fun c =>
      if c = "exit 3".toList then ([], some "exit status 3".toList) else ("hi\n".toList, none) }

/-- A message carrying a dispatch event for job `j1`, run `r1`, whose payload
is the command `echo hi`. -/
def exCmdMessage : Worker.Message :=
  ⟨some (.object [("job_id".toList, .str "j1".toList), ("run_id".toList, .str "r1".toList),
    ("payload".toList, .str "cmd:echo hi".toList), ("user_id".toList, .str "u".toList),
    ("executed_at".toList, .str "5".toList)]), "h1".toList⟩

/-- A message carrying a dispatch event for job `j1`, run `r2`, whose payload
is the command `exit 3`. -/
def exFailingCmdMessage : Worker.Message :=
  ⟨some (.object [("job_id".toList, .str "j1".toList), ("run_id".toList, .str "r2".toList),
    ("payload".toList, .str "cmd:exit 3".toList), ("user_id".toList, .str "u".toList),
    ("executed_at".toList, .str "5".toList)]), "h2".toList⟩

/-- A message carrying a dispatch event for job `j1`, run `r3`, whose payload
asks for a sleep of a duration that does not parse. -/
def exSleepMessage : Worker.Message :=
  ⟨some (.object [("job_id".toList, .str "j1".toList), ("run_id".toList, .str "r3".toList),
    ("payload".toList, .str "sleep:long".toList), ("user_id".toList, .str "u".toList),
    ("executed_at".toList, .str "5".toList)]), "h3".toList⟩

/-- The value of a Kafka message carrying a submission event for job `j1`,
shard 0, due at second 1. -/
def exSubmissionValue : Body :=
  .object [("job_id".toList, .str "j1".toList), ("project_id".toList, .str "p".toList),
    ("next_fire_at".toList, .str "1".toList), ("shard_id".toList, .num 0),
    ("payload".toList, .str "test".toList)]

namespace Writer

/-- A Kafka message as the writer's loop receives it from `ReadMessage`. -/
structure Message where
  Value : Body
  /-- The field `TopicPartition.Offset`. -/
  Offset : Int
  deriving DecidableEq, Repr

/-- A call on the `KafkaConsumer` of `pkg/infra/kafka.go`, which offers
`ReadMessage`, `CommitMessage` and `Close`.  The consumer is created with
`enable.auto.commit` set to `false`, so an offset is committed only by a call
of `CommitMessage`. -/
inductive ConsumerCall where
  | readMessage (ok : Bool)
  | commitMessage (offset : Int)
  | close
  deriving DecidableEq, Repr

/-- One iteration of the loop of `runLoop`: `read` is what `ReadMessage`
returns, `none` for an error (a timeout included).  The result is the world and
the calls made on the consumer. -/
def runLoopIteration (tl : TimeLib) (env : WriterEnv) (read : Option Message) (w : World) :
    World × List ConsumerCall :=
  match read with
  | none => (w, [.readMessage false])
  | some msg => (processMessage tl env msg.Value w, [.readMessage true])

/-- The first iterations of `runLoop`, one for each element of `reads`;
`env i` decides the outcome of the insert in iteration `i`. -/
def runLoop (tl : TimeLib) (env : Nat → WriterEnv) :
    Nat → List (Option Message) → World → World × List ConsumerCall
  | _, [], w => (w, [])
  | i, r :: rs, w =>
    let step := runLoopIteration tl (env i) r w
    let rest := runLoop tl env (i + 1) rs step.1
    (rest.1, step.2 ++ rest.2)

end Writer

/-- The submission of `exSubmitEnv` on a host whose clock stands one
nanosecond before the Unix epoch. -/
def exSubmitEnvEarly : Ingestion.SubmitEnv :=
  ⟨"j9".toList, -1, 7500000000, true, true, true, true⟩

namespace Worker

/-- The calls that `handleReschedule` makes, in order. -/
def rescheduleCalls (env : WorkerEnv) (event : JobExecutionEvent) : List Effect :=
  match env.cronParse event.CronSchedule with
  | none => []
  | some next =>
    if env.jobsUpdateOk then
      [.jobsReschedule event.JobID (next env.cronNow) ((env.rand % 1024 : Nat) : Int) true,
        .queueInsert ((env.rand % 1024 : Nat) : Int) (next env.cronNow) event.JobID none
          env.queueInsertOk]
    else
      [.jobsReschedule event.JobID (next env.cronNow) ((env.rand % 1024 : Nat) : Int) false]

end Worker

/-- Modelled from the spec: the schedules of the cron library (the package
`github.com/robfig/cron/v3`, which the worker imports and which is not part of
the repository).  The spec has the worker "compute `next_fire_at' =
cron.next(now)`", the next instant of the recurrence; `next` stands for the
method `Next` of a parsed schedule, and the property says that the instant it
returns lies after the instant it is given. -/
def NextInstantAfter (next : Time → Time) : Prop := ∀ now, now < next now

namespace Coordinator

/-- A call on the key-value store of Etcd. -/
inductive EtcdCall where
  | get (pre : Str)
  | put (key value : Str)
  deriving DecidableEq, Repr

/-- The body of the case `<-ticker.C` of `balanceShards`, applied to the keys
and values of Etcd: it logs that the leader is active and does nothing else
(the three steps of the assignment are comments).  The result is the store and
the calls made on it. -/
def balanceTick (etcd : List (Str × Str)) : List (Str × Str) × List EtcdCall := (etcd, [])

/-- The first ticks of `balanceShards`, while the context is not done. -/
def balanceShards : Nat → List (Str × Str) → List (Str × Str) × List EtcdCall
  | 0, etcd => (etcd, [])
  | n + 1, etcd =>
    let step := balanceTick etcd
    let rest := balanceShards n step.1
    (rest.1, step.2 ++ rest.2)

/-- The keys of the store that begin with `pre`. -/
def keysUnder (pre : Str) (etcd : List (Str × Str)) : List Str :=
  (etcd.map Prod.fst).filter (fun k => hasPrefix k pre)

end Coordinator

namespace Picker

/-- One tick of `runPickerLoop`: the shards 0 to 1023 are scanned in order,
`env s` deciding the outcomes of the scan of shard `s`.  The result is the
world and the shards scanned. -/
def runPickerTick (tl : TimeLib) (env : Nat → ScanEnv) (w : World) : World × List Int :=
  (List.range 1024).foldl
    (fun acc s => (scanShard tl (env s) (s : Int) acc.1, acc.2 ++ [(s : Int)])) (w, [])

end Picker

/-- An Etcd store in which one picker is registered and no assignment is
written. -/
def exEtcd : List (Str × Str) := [("/scheduler/pickers/p1".toList, "alive".toList)]

/-- A `POST /submit` whose payload is the 14 bytes `s3:payloads/j9`. -/
def exRefRequest : Ingestion.HttpRequest :=
  ⟨"POST".toList, "u".toList, .object [("project_id".toList, .str "p".toList),
    ("payload".toList, .str "s3:payloads/j9".toList)]⟩

/-- The message carrying the dispatch event that a scan publishes for the Job
row that `submitHandler` writes for `exRefRequest`. -/
def exRefMessage : Worker.Message :=
  ⟨some (.object (Picker.dispatchEvent secondsCodec ⟨"j9".toList, 7500000000⟩ (exScanEnv.cand 0)
    (Ingestion.jobRow exSubmitEnv ⟨"p".toList, "s3:payloads/j9".toList, [], [], 0⟩ "u".toList
      7500000000))), "h9".toList⟩

/-- A world whose blob store holds `one` under `payloads/j9`. -/
def exBlobWorldOne : World := ⟨[], [], [], [], [("payloads/j9".toList, "one".toList)], []⟩

/-- A world that differs from `exBlobWorldOne` in the blob store only, which
holds `two` under `payloads/j9`. -/
def exBlobWorldTwo : World := { exBlobWorldOne with blobs := [("payloads/j9".toList, "two".toList)] }

/-- The message carrying the dispatch event that a scan publishes for the Job
row that `submitHandler` writes for `exRequest`, whose payload is `test`. -/
def exInlineMessage : Worker.Message :=
  ⟨some (.object (Picker.dispatchEvent secondsCodec ⟨"j9".toList, 7500000000⟩ (exScanEnv.cand 0)
    (Ingestion.jobRow exSubmitEnv ⟨"p".toList, "test".toList, [], [], 0⟩ "u".toList
      7500000000))), "h9".toList⟩

/-! ## Start-up configuration (`initInfra` of each service) -/

/-- Go's `strings.Split(s, ",")`: the pieces of `s` between the commas; a text
without a comma, the empty text included, gives the text itself as the only
piece. -/
def splitComma : Str → List Str
  | [] => [[]]
  | c :: cs =>
    if c = ',' then [] :: splitComma cs
    else
      match splitComma cs with
      | piece :: rest => (c :: piece) :: rest
      | [] => [[c]]

/-- Go's `os.Getenv`: the value of the variable, empty when it is unset. -/
def getenv (environ : Str → Option Str) (key : Str) : Str := (environ key).getD []

namespace Picker

/-- The host list that `initInfra` passes to `NewScyllaClient`. -/
def scyllaHosts (environ : Str → Option Str) : List Str :=
  let scyllaHosts := splitComma (getenv environ "SCYLLA_HOSTS".toList)
  if scyllaHosts.length = 0 then ["scheduler-scylla".toList] else scyllaHosts

/-- The endpoint list that `initInfra` passes to `NewEtcdClient`. -/
def etcdEndpoints (environ : Str → Option Str) : List Str :=
  let endpoints := splitComma (getenv environ "ETCD_ENDPOINTS".toList)
  if endpoints.length = 0 then ["scheduler-etcd:2379".toList] else endpoints

end Picker

namespace Worker

/-- The host list that `initInfra` passes to `NewScyllaClient`. -/
def scyllaHosts (environ : Str → Option Str) : List Str :=
  let scyllaHosts := splitComma (getenv environ "SCYLLA_HOSTS".toList)
  if scyllaHosts.length = 0 then ["scheduler-scylla".toList] else scyllaHosts

end Worker

namespace Writer

/-- The host list that `initInfra` passes to `NewScyllaClient`. -/
def scyllaHosts (environ : Str → Option Str) : List Str :=
  let scyllaHosts := splitComma (getenv environ "SCYLLA_HOSTS".toList)
  if scyllaHosts.length = 0 then ["scheduler-scylla".toList] else scyllaHosts

end Writer

namespace Coordinator

/-- The endpoint list that `initInfra` passes to `NewEtcdClient`. -/
def etcdEndpoints (environ : Str → Option Str) : List Str :=
  let endpoints := splitComma (getenv environ "ETCD_ENDPOINTS".toList)
  if endpoints.length = 0 then ["scheduler-etcd:2379".toList] else endpoints

end Coordinator

namespace Ingestion

/-- The host list that `initInfra` passes to `NewScyllaClient`; ingress also
tests whether the first piece is empty. -/
def scyllaHosts (environ : Str → Option Str) : List Str :=
  let scyllaHosts := splitComma (getenv environ "SCYLLA_HOSTS".toList)
  if scyllaHosts.length = 0 ∨ scyllaHosts.head? = some [] then ["scheduler-scylla".toList]
  else scyllaHosts

end Ingestion

/-- An environment in which no variable is set. -/
def exNoEnviron : Str → Option Str := fun _ => none

/-- An environment in which the two host-list variables are set to the empty
text. -/
def exEmptyEnviron : Str → Option Str := fun key =>
  if key = "SCYLLA_HOSTS".toList ∨ key = "ETCD_ENDPOINTS".toList then some [] else none

/-- A message carrying a dispatch event for the recurring job `j1`, run `r2`,
whose payload is the command `exit 3`. -/
def exFailingCronMessage : Worker.Message :=
  ⟨some (.object [("job_id".toList, .str "j1".toList), ("run_id".toList, .str "r2".toList),
    ("payload".toList, .str "cmd:exit 3".toList), ("user_id".toList, .str "u".toList),
    ("executed_at".toList, .str "5".toList),
    ("cron_schedule".toList, .str "@every 2s".toList)]), "h2".toList⟩

/-- The worker of `exShellWorkerEnv`, in whose shell the command `exit 3`
fails, with the cron library of `exCronWorkerEnv`. -/
def exShellCronWorkerEnv : Worker.WorkerEnv :=
  { exShellWorkerEnv with cronParse := fun _ => some (fun t => t + 2000000000) }

/-- A `POST /submit` whose body is the object of `exRequest` followed by the
text `xyz`: not valid JSON as a whole. -/
def exTrailingRequest : Ingestion.HttpRequest :=
  ⟨"POST".toList, "u".toList, .trailing [("project_id".toList, .str "p".toList),
    ("payload".toList, .str "test".toList)]⟩

/-! ## Properties -/

namespace Picker

theorem processCandidate_eq (tl : TimeLib) (s : Int) (ce : CandEnv) (c : Candidate) (w : World) :
    processCandidate tl s ce c w =
      { w with
        queue := if stepDeletes ce w.jobs c then deleteQueue s c.FireAt c.ID w.queue else w.queue
        log := w.log ++ stepLog tl s ce w.jobs c } := by
  unfold processCandidate stepDeletes stepLog
  cases h : lookupJob ce w.jobs c with
  | none => simp [World.emit]
  | some j =>
    cases hs : ce.sendOk <;> cases hd : ce.deleteOk <;> simp [World.emit]

theorem processCandidates_jobs (tl : TimeLib) (s : Int) (cand : Nat → CandEnv) :
    ∀ (cs : List Candidate) (i : Nat) (w : World),
      (processCandidates tl s cand i cs w).jobs = w.jobs := by
  intro cs
  induction cs with
  | nil => intro i w; rfl
  | cons c cs ih =>
    intro i w
    simp only [processCandidates]
    rw [ih, processCandidate_eq]

theorem processCandidates_log (tl : TimeLib) (s : Int) (cand : Nat → CandEnv) :
    ∀ (cs : List Candidate) (i : Nat) (w : World),
      (processCandidates tl s cand i cs w).log = w.log ++ scanTrace tl s cand w.jobs i cs := by
  intro cs
  induction cs with
  | nil => intro i w; simp [processCandidates, scanTrace]
  | cons c cs ih =>
    intro i w
    simp only [processCandidates, scanTrace]
    rw [ih, processCandidate_eq]
    simp

end Picker

namespace Picker

theorem scanTrace_send_origin (tl : TimeLib) (s : Int) (cand : Nat → CandEnv) (jobs : List Job) :
    ∀ (cs : List Candidate) (i : Nat) (ev : JObj) (ok : Bool),
      Effect.sqsSend ev ok ∈ scanTrace tl s cand jobs i cs →
      ∃ m c j, cs[m]? = some c ∧ lookupJob (cand (i + m)) jobs c = some j ∧
        ev = dispatchEvent tl c (cand (i + m)) j := by
  intro cs
  induction cs with
  | nil => intro i ev ok h; simp [scanTrace] at h
  | cons c cs ih =>
    intro i ev ok h
    simp only [scanTrace, List.mem_append] at h
    rcases h with h | h
    · refine ⟨0, c, ?_⟩
      unfold stepLog at h
      cases hl : lookupJob (cand i) jobs c with
      | none => rw [hl] at h; simp at h
      | some j =>
        rw [hl] at h
        refine ⟨j, by simp, by simpa using hl, ?_⟩
        cases hs : (cand i).sendOk <;> simp [hs] at h <;> exact h.1
    · obtain ⟨m, c', j, hm, hl, he⟩ := ih (i + 1) ev ok h
      refine ⟨m + 1, c', j, by simpa using hm, ?_, ?_⟩
      · rw [show i + (m + 1) = i + 1 + m by omega]; exact hl
      · rw [show i + (m + 1) = i + 1 + m by omega]; exact he

theorem processCandidates_removed (tl : TimeLib) (s : Int) (cand : Nat → CandEnv) :
    ∀ (cs : List Candidate) (i : Nat) (w : World) (r : QueueRow),
      r ∈ w.queue → r ∉ (processCandidates tl s cand i cs w).queue →
      ∃ pre post ev,
        scanTrace tl s cand w.jobs i cs =
          pre ++ Effect.sqsSend ev true ::
            Effect.queueDelete r.shard_id r.next_fire_at r.job_id true :: post ∧
        List.lookup "job_id".toList ev = some (JVal.str r.job_id) := by
  intro cs
  induction cs with
  | nil => intro i w r hr hn; exact absurd hr hn
  | cons c cs ih =>
    intro i w r hr hn
    simp only [processCandidates] at hn
    by_cases hmem : r ∈ (processCandidate tl s (cand i) c w).queue
    · obtain ⟨pre, post, ev, htr, hev⟩ := ih (i + 1) _ r hmem hn
      rw [processCandidate_eq] at htr
      refine ⟨stepLog tl s (cand i) w.jobs c ++ pre, post, ev, ?_, hev⟩
      simp only [scanTrace]
      simp only at htr
      rw [htr]; simp
    · rw [processCandidate_eq] at hmem
      simp only at hmem
      cases hd : stepDeletes (cand i) w.jobs c with
      | false => rw [hd] at hmem; exact absurd hr (by simpa using hmem)
      | true =>
        rw [hd] at hmem
        simp only [if_true, deleteQueue, List.mem_filter, hr, true_and, Bool.not_eq_true',
          decide_eq_false_iff_not, not_not, QueueRow.key, Prod.mk.injEq] at hmem
        obtain ⟨h1, h2, h3⟩ := hmem
        unfold stepDeletes at hd
        simp only [Bool.and_eq_true, Option.isSome_iff_exists] at hd
        obtain ⟨⟨⟨j, hj⟩, hs⟩, hdel⟩ := hd
        refine ⟨[Effect.jobsSelect c.ID true], scanTrace tl s cand w.jobs (i + 1) cs,
          dispatchEvent tl c (cand i) j, ?_, ?_⟩
        · simp [scanTrace, stepLog, hj, hs, hdel, h1, h2, h3]
        · simp [dispatchEvent, List.lookup, h3]

theorem processCandidates_kept (tl : TimeLib) (s : Int) (cand : Nat → CandEnv) :
    ∀ (cs : List Candidate) (i : Nat) (w : World) (r : QueueRow),
      r ∈ w.queue →
      (∀ m c, cs[m]? = some c → (s, c.FireAt, c.ID) = r.key →
        stepDeletes (cand (i + m)) w.jobs c = false) →
      r ∈ (processCandidates tl s cand i cs w).queue := by
  intro cs
  induction cs with
  | nil => intro i w r hr _; exact hr
  | cons c cs ih =>
    intro i w r hr hk
    simp only [processCandidates]
    apply ih
    · rw [processCandidate_eq]
      simp only
      split
      · rename_i hd
        simp only [deleteQueue, List.mem_filter, hr, true_and, Bool.not_eq_true',
          decide_eq_false_iff_not]
        intro hkey
        have := hk 0 c (by simp) hkey.symm
        simp [hd] at this
      · exact hr
    · intro m c' hm hkey
      have := hk (m + 1) c' (by simpa using hm) hkey
      rw [processCandidate_eq]
      simp only
      rw [show i + 1 + m = i + (m + 1) by omega]; exact this

end Picker

theorem getElem?_inj_of_nodup {α : Type} {l : List α} (h : l.Nodup) {i j : Nat} {a : α}
    (hi : l[i]? = some a) (hj : l[j]? = some a) : i = j := by
  obtain ⟨hi', hia⟩ := List.getElem?_eq_some.mp hi
  obtain ⟨hj', hja⟩ := List.getElem?_eq_some.mp hj
  exact (List.Nodup.getElem_inj_iff h).mp (hia.trans hja.symm)

namespace Picker

theorem dueRows_sublist (q : List QueueRow) (s : Int) (now : Time) (n : Nat) :
    (dueRows q s now n).Sublist q :=
  (List.take_sublist _ _).trans (List.filter_sublist _)

theorem dueRows_shard {q : List QueueRow} {s : Int} {now : Time} {n : Nat} {r : QueueRow}
    (h : r ∈ dueRows q s now n) : r.shard_id = s ∧ r.next_fire_at ≤ now := by
  have := List.mem_of_mem_take h
  simpa using (List.mem_filter.mp this).2

/-- C1. One call of `scanShard` extends the log by a trace `tr` of its own calls
and leaves the Job store as it was.  A row of B that is gone when the call
returns was deleted right after the execution bus accepted a dispatch event
carrying its `job_id`.  Provided B honours its primary key, every delivered
candidate whose Job-store lookup failed or whose publish failed is still in B.
Every publish attempted in the call belongs to a candidate whose Job-store
lookup succeeded. -/
theorem scanShard_delete_only_after_publish (tl : TimeLib) (env : ScanEnv) (s : Int) (w : World) :
    ∃ tr : List Effect,
      (scanShard tl env s w).log = w.log ++ tr ∧
      (scanShard tl env s w).jobs = w.jobs ∧
      (∀ r ∈ w.queue, r ∉ (scanShard tl env s w).queue →
        ∃ pre post ev,
          tr = pre ++ Effect.sqsSend ev true ::
            Effect.queueDelete r.shard_id r.next_fire_at r.job_id true :: post ∧
          List.lookup "job_id".toList ev = some (JVal.str r.job_id)) ∧
      (QueueKeyed w.queue → ∀ k r, (dueRows w.queue s env.now env.scanned)[k]? = some r →
        (lookupJob (env.cand k) w.jobs (toCandidate r) = none ∨ (env.cand k).sendOk = false) →
        r ∈ (scanShard tl env s w).queue) ∧
      (∀ ev ok, Effect.sqsSend ev ok ∈ tr →
        ∃ k r j, (dueRows w.queue s env.now env.scanned)[k]? = some r ∧
          lookupJob (env.cand k) w.jobs (toCandidate r) = some j ∧
          ev = dispatchEvent tl (toCandidate r) (env.cand k) j) := by
  refine ⟨scanTrace tl s env.cand w.jobs 0 ((dueRows w.queue s env.now env.scanned).map toCandidate),
    processCandidates_log _ _ _ _ _ _, processCandidates_jobs _ _ _ _ _ _, ?_, ?_, ?_⟩
  · intro r hr hn
    exact processCandidates_removed tl s env.cand _ 0 w r hr hn
  · intro hkeyed k r hk hfail
    have hrdue : r ∈ dueRows w.queue s env.now env.scanned := List.getElem?_mem hk
    have hrq : r ∈ w.queue := (dueRows_sublist _ _ _ _).subset hrdue
    have hnd : ((dueRows w.queue s env.now env.scanned).map QueueRow.key).Nodup :=
      List.Nodup.sublist ((dueRows_sublist _ _ _ _).map _) hkeyed
    apply processCandidates_kept tl s env.cand _ 0 w r hrq
    intro m c hm hkey
    rw [List.getElem?_map] at hm
    cases hm' : (dueRows w.queue s env.now env.scanned)[m]? with
    | none => rw [hm'] at hm; simp at hm
    | some r' =>
      rw [hm'] at hm
      simp only [Option.map_some', Option.some.injEq] at hm
      subst hm
      have hs' := (dueRows_shard (List.getElem?_mem hm')).1
      have hkey' : r'.key = r.key := by
        rw [← hkey]; simp [QueueRow.key, toCandidate, hs']
      have hmk : m = k := by
        apply getElem?_inj_of_nodup hnd (a := r.key)
        · rw [List.getElem?_map, hm']; simp [hkey']
        · rw [List.getElem?_map, hk]; simp
      subst hmk
      have hrr : r' = r := by rw [hm'] at hk; exact Option.some.inj hk
      subst hrr
      simp only [Nat.zero_add]
      unfold stepDeletes
      rcases hfail with h | h
      · simp [h]
      · simp [h]
  · intro ev ok h
    obtain ⟨m, c, j, hm, hl, he⟩ := scanTrace_send_origin tl s env.cand w.jobs _ 0 ev ok h
    rw [List.getElem?_map] at hm
    cases hm' : (dueRows w.queue s env.now env.scanned)[m]? with
    | none => rw [hm'] at hm; simp at hm
    | some r' =>
      rw [hm'] at hm
      simp only [Option.map_some', Option.some.injEq] at hm
      subst hm
      simp only [Nat.zero_add] at hl he
      exact ⟨m, r', j, hm', hl, he⟩

end Picker

namespace Picker

/-- Witness for C1: in the example world the row of `j2`, whose lookup fails,
is still queued after the scan. -/
theorem scanShard_delete_only_after_publish_witness :
    QueueKeyed exWorld.queue ∧
      (⟨0, 2000000000, "j2".toList, none⟩ : QueueRow) ∈
        (scanShard secondsCodec exScanEnv 0 exWorld).queue := by
  refine ⟨by decide, ?_⟩
  obtain ⟨_, _, _, _, h, _⟩ := scanShard_delete_only_after_publish secondsCodec exScanEnv 0 exWorld
  exact h (by decide) 1 _ (by decide) (Or.inl (by decide))

end Picker

namespace Worker

theorem decode_dispatchEvent (tl : TimeLib) (c : Picker.Candidate) (ce : Picker.CandEnv) (j : Job) :
    decodeJobExecutionEvent (.object (Picker.dispatchEvent tl c ce j)) =
      some ⟨c.ID, ce.runID, "STARTED".toList, j.payload, j.project_id, j.user_id,
        tl.format ce.stamp, j.cron_schedule⟩ := rfl

theorem mem_handleReschedule_log {env : WorkerEnv} {ev : JobExecutionEvent} {w : World}
    {e : Effect} (h : e ∈ (handleReschedule env ev w).log) :
    e ∈ w.log ∨ (∃ t s ok, e = .jobsReschedule ev.JobID t s ok) ∨
      (∃ t s ok, e = .queueInsert s t ev.JobID none ok) := by
  unfold handleReschedule at h
  split at h
  · exact Or.inl h
  · simp only at h
    split at h
    · simp only [World.emit, List.mem_append, List.mem_singleton] at h
      rcases h with h | h
      · exact Or.inl h
      · exact Or.inr (Or.inl ⟨_, _, _, h⟩)
    · split at h <;>
      · simp only [World.emit, List.mem_append, List.mem_singleton] at h
        rcases h with (h | h) | h
        · exact Or.inl h
        · exact Or.inr (Or.inl ⟨_, _, _, h⟩)
        · exact Or.inr (Or.inr ⟨_, _, _, h⟩)

theorem mem_updateJobStatus_log {env : WorkerEnv} {jobID userID status : Str} {w : World}
    {e : Effect} (h : e ∈ (updateJobStatus env jobID userID status w).log) :
    e ∈ w.log ∨ (∃ ok, e = .jobsUpdateStatus jobID status ok) ∨
      (∃ ok, e = .userJobsSelect userID jobID ok) ∨
      (∃ t ok, e = .userJobsUpdate userID t jobID status ok) := by
  unfold updateJobStatus at h
  split at h
  · simp only [World.emit, List.mem_append, List.mem_singleton] at h
    rcases h with h | h
    · exact Or.inl h
    · exact Or.inr (Or.inl ⟨_, h⟩)
  · simp only at h
    split at h
    · simp only [World.emit, List.mem_append, List.mem_singleton] at h
      rcases h with (h | h) | h
      · exact Or.inl h
      · exact Or.inr (Or.inl ⟨_, h⟩)
      · exact Or.inr (Or.inr (Or.inl ⟨_, h⟩))
    · split at h <;>
      · simp only [World.emit, List.mem_append, List.mem_singleton] at h
        rcases h with ((h | h) | h) | h
        · exact Or.inl h
        · exact Or.inr (Or.inl ⟨_, h⟩)
        · exact Or.inr (Or.inr (Or.inl ⟨_, h⟩))
        · exact Or.inr (Or.inr (Or.inr ⟨_, _, h⟩))

/-- Every run insert in the log after `executeAndRecord` was there before, or
is the record of this event. -/
theorem mem_executeAndRecord_runInsert {tl : TimeLib} {env : WorkerEnv} {msg : Message}
    {ev : JobExecutionEvent} {w : World} {run : Run} {ok : Bool}
    (h : Effect.runInsert run ok ∈ (executeAndRecord tl env msg ev w).log) :
    Effect.runInsert run ok ∈ w.log ∨
      (run = runRecord tl env ev (execute env ev.Payload) ∧ ok = env.runInsertOk) := by
  have hexec : Effect.runInsert run ok ∉ execCalls ev.Payload := by
    unfold execCalls; split <;> simp
  unfold executeAndRecord at h
  simp only at h
  split at h
  · rename_i hok
    simp only [World.emit, List.mem_append, List.mem_singleton, Effect.runInsert.injEq] at h
    rcases h with (h | h) | h
    · exact Or.inl h
    · exact absurd h hexec
    · right; simp_all
  · rename_i hok
    simp only [World.emit, List.mem_append, List.mem_singleton] at h
    rcases h with h | h
    · split at h
      · rcases mem_handleReschedule_log h with h | ⟨_, _, _, h⟩ | ⟨_, _, _, h⟩
        · simp only [List.mem_append, List.mem_singleton, Effect.runInsert.injEq] at h
          rcases h with (h | h) | h
          · exact Or.inl h
          · exact absurd h hexec
          · right; simp_all
        · cases h
        · cases h
      · rcases mem_updateJobStatus_log h with h | ⟨_, h⟩ | ⟨_, h⟩ | ⟨_, _, h⟩
        · simp only [List.mem_append, List.mem_singleton, Effect.runInsert.injEq] at h
          rcases h with (h | h) | h
          · exact Or.inl h
          · exact absurd h hexec
          · right; simp_all
        · cases h
        · cases h
        · cases h
    · cases h

/-- Every run insert in the log after `processMessage` was there before, or is
the record of the decoded event, whose payload may have been replaced by the
blob it names. -/
theorem mem_processMessage_runInsert {tl : TimeLib} {env : WorkerEnv} {msg : Message}
    {w : World} {run : Run} {ok : Bool}
    (h : Effect.runInsert run ok ∈ (processMessage tl env msg w).log) :
    Effect.runInsert run ok ∈ w.log ∨
      ∃ body ev payload, msg.Body = some body ∧ decodeJobExecutionEvent body = some ev ∧
        run = runRecord tl env { ev with Payload := payload } (execute env payload) ∧
        ok = env.runInsertOk := by
  unfold processMessage at h
  split at h
  · exact Or.inl h
  · rename_i body hb
    split at h
    · exact Or.inl h
    · rename_i ev hev
      split at h
      · simp only at h
        cases hblob : getBlob env w.blobs (trimPrefix ev.Payload "s3:".toList) with
        | none =>
          rw [hblob] at h
          simp only [World.emit, List.mem_append, List.mem_singleton] at h
          rcases h with h | h
          · exact Or.inl h
          · cases h
        | some blob =>
          rw [hblob] at h
          simp only at h
          split at h
          · simp only [World.emit, List.mem_append, List.mem_singleton] at h
            rcases h with h | h
            · exact Or.inl h
            · cases h
          · rcases mem_executeAndRecord_runInsert h with h | h
            · simp only [World.emit, List.mem_append, List.mem_singleton] at h
              rcases h with h | h
              · exact Or.inl h
              · cases h
            · exact Or.inr ⟨body, ev, blob, hb, hev, h.1, h.2⟩
      · rcases mem_executeAndRecord_runInsert h with h | h
        · exact Or.inl h
        · exact Or.inr ⟨body, ev, ev.Payload, hb, hev, h.1, h.2⟩

end Worker

theorem truncSec_le_of_whole {a b : Time} (ha : truncSec a = a) (hab : a ≤ b) :
    a ≤ truncSec b := by
  unfold truncSec at *
  have h : a / 1000000000 ≤ b / 1000000000 := Int.ediv_le_ediv (by norm_num) hab
  calc a = a / 1000000000 * 1000000000 := ha.symm
    _ ≤ b / 1000000000 * 1000000000 := Int.mul_le_mul_of_nonneg_right h (by norm_num)

theorem truncSec_idem (t : Time) : truncSec (truncSec t) = truncSec t := by
  unfold truncSec
  rw [Int.mul_ediv_cancel _ (by norm_num : (1000000000 : Int) ≠ 0)]

namespace Writer

/-- The rows that the writer inserts from the events of ingress carry whole
seconds: when the time library parses the text of an instant to the instant
truncated to the second, every row of B after the writer has processed the
event that `submitHandler` publishes is a row that was there before or has a
`next_fire_at` that is a whole number of seconds. -/
theorem inserted_row_whole_second (tl : TimeLib) (wenv : WriterEnv) (env : Ingestion.SubmitEnv)
    (req : Ingestion.JobRequest) (userID : Str) (nf : Time) (w : World)
    (hrt : tl.parse (tl.format nf) = some (truncSec nf)) :
    ∀ row ∈ (processMessage tl wenv
        (.object (Ingestion.publishedEvent tl env req userID nf)) w).queue,
      (∃ old ∈ w.queue, old.key = row.key) ∨ truncSec row.next_fire_at = row.next_fire_at := by
  intro row hrow
  unfold processMessage at hrow
  have hdec : decodeJobSubmissionEvent (.object (Ingestion.publishedEvent tl env req userID nf)) =
      some ⟨env.jobID, req.ProjectID, tl.format nf, Int.tmod env.now 1024,
        Ingestion.storedPayload env.jobID req.Payload⟩ := rfl
  rw [hdec] at hrow
  simp only at hrow
  rw [hrt] at hrow
  simp only at hrow
  cases hq : wenv.queueInsertOk
  · rw [hq] at hrow
    exact Or.inl ⟨row, hrow, rfl⟩
  · rw [hq] at hrow
    simp only [Bool.not_true, Bool.false_eq_true, if_false, World.emit] at hrow
    unfold insertQueue at hrow
    split at hrow
    · rcases List.mem_append.mp hrow with h | h
      · exact Or.inl ⟨row, h, rfl⟩
      · rw [List.mem_singleton.mp h]
        exact Or.inr (truncSec_idem nf)
    · obtain ⟨y, hy, hyr⟩ := List.mem_map.mp hrow
      refine Or.inl ⟨y, hy, ?_⟩
      rw [← hyr]
      split <;> rfl

end Writer

/-- C2 as stated fails: in the example world the queue row of `j1` is due at
second 1, a whole second.  The scan reads the clock at second 1 for its query,
which delivers the row, and stamps `executed_at` at second 0.9, the picker's
clock having been set back between the two readings.  The run the worker
records has `triggered_at` equal to second 0, before the row's
`next_fire_at`. -/
theorem run_triggered_before_next_fire_at :
    ∃ r ∈ Picker.dueRows exWorld.queue 0 exStepBackEnv.now exStepBackEnv.scanned, ∃ ev run,
      truncSec r.next_fire_at = r.next_fire_at ∧
      Effect.sqsSend ev true ∈ (Picker.scanShard secondsCodec exStepBackEnv 0 exWorld).log ∧
      List.lookup "job_id".toList ev = some (JVal.str r.job_id) ∧
      Effect.queueDelete r.shard_id r.next_fire_at r.job_id true ∈
        (Picker.scanShard secondsCodec exStepBackEnv 0 exWorld).log ∧
      (exStepBackEnv.cand 0).stamp < exStepBackEnv.now ∧
      secondsCodec.parse (secondsCodec.format (exStepBackEnv.cand 0).stamp) =
        some (truncSec (exStepBackEnv.cand 0).stamp) ∧
      run ∈ (Worker.processMessage secondsCodec exWorkerEnv ⟨some (.object ev), "h1".toList⟩
        (Picker.scanShard secondsCodec exStepBackEnv 0 exWorld)).runs ∧
      run.triggered_at = 0 ∧ r.next_fire_at = 1000000000 ∧
      run.triggered_at < r.next_fire_at := by
  refine ⟨⟨0, 1000000000, "j1".toList, some "PENDING".toList⟩, by decide,
    Picker.dispatchEvent secondsCodec ⟨"j1".toList, 1000000000⟩ (exStepBackEnv.cand 0) exJob,
    ⟨"j1".toList, "r1".toList, "u".toList, "COMPLETED".toList, 0, 9000000000,
      "Success: test".toList, "w1".toList, []⟩, ?_, ?_, ?_, ?_, ?_, ?_, ?_, ?_, ?_, ?_⟩ <;> decide

/-- C2, amended.  Let the picker's clock not run backwards between the scan
query and the stamping of an event, and let parsing the formatted stamp give
the stamp truncated to the second.  Then for every dispatch event `ev` that a
call of `scanShard` publishes and every run record `run` that the worker
writes when it processes a message carrying `ev`, `run.triggered_at` is not
earlier than the `next_fire_at` of any queue row delivered to that scan whose
`next_fire_at` is a whole number of seconds, as the rows are that the writer
inserts from the events of ingress (`Writer.inserted_row_whole_second`). -/
theorem run_triggered_at_ge_next_fire_at (tl : TimeLib) (env : Picker.ScanEnv) (s : Int)
    (w : World) (wenv : Worker.WorkerEnv) (msg : Worker.Message) (w' : World) (ev : JObj)
    (okS : Bool) (run : Run) (okR : Bool)
    (hrt : ∀ k, tl.parse (tl.format (env.cand k).stamp) = some (truncSec (env.cand k).stamp))
    (hclock : ∀ k, env.now ≤ (env.cand k).stamp)
    (hsend : Effect.sqsSend ev okS ∈ (Picker.scanShard tl env s w).log)
    (hnew : Effect.sqsSend ev okS ∉ w.log)
    (hmsg : msg.Body = some (.object ev))
    (hrun : Effect.runInsert run okR ∈ (Worker.processMessage tl wenv msg w').log)
    (hnewr : Effect.runInsert run okR ∉ w'.log) :
    ∀ r ∈ Picker.dueRows w.queue s env.now env.scanned,
      truncSec r.next_fire_at = r.next_fire_at → r.next_fire_at ≤ run.triggered_at := by
  intro r hr hwhole
  have hlog : (Picker.scanShard tl env s w).log = w.log ++ Picker.scanTrace tl s env.cand w.jobs 0
      ((Picker.dueRows w.queue s env.now env.scanned).map Picker.toCandidate) :=
    Picker.processCandidates_log tl s env.cand _ 0 w
  rw [hlog, List.mem_append] at hsend
  rcases hsend with hsend | hsend
  · exact absurd hsend hnew
  obtain ⟨m, c, j, -, -, hev⟩ := Picker.scanTrace_send_origin tl s env.cand w.jobs _ 0 ev okS hsend
  generalize 0 + m = k at hev
  rcases Worker.mem_processMessage_runInsert hrun with h | ⟨body, e, payload, hb, hdec, hrec, -⟩
  · exact absurd h hnewr
  rw [hmsg] at hb
  cases hb
  rw [hev, Worker.decode_dispatchEvent] at hdec
  cases hdec
  have htrig : run.triggered_at = truncSec (env.cand k).stamp := by
    rw [hrec]; simp [Worker.runRecord, hrt k]
  rw [htrig]
  exact truncSec_le_of_whole hwhole (le_trans (Picker.dueRows_shard hr).2 (hclock k))

/-- Witness for C2, amended: in the example world the row of `j1` is due at
second 1, the scan stamps at second 5, and the run has `triggered_at` equal to
second 5. -/
theorem run_triggered_at_ge_next_fire_at_witness :
    (∀ k, exScanEnv.now ≤ (exScanEnv.cand k).stamp) ∧
      truncSec (1000000000 : Time) = 1000000000 ∧ (1000000000 : Time) ≤ 5000000000 :=
  ⟨fun _ => (by decide : (5000000000 : Time) ≤ 5000000000), by decide,
    run_triggered_at_ge_next_fire_at secondsCodec exScanEnv 0 exWorld exWorkerEnv
      ⟨some (.object (Picker.dispatchEvent secondsCodec ⟨"j1".toList, 1000000000⟩
        (exScanEnv.cand 0) exJob)), "h1".toList⟩
      exWorld
      (Picker.dispatchEvent secondsCodec ⟨"j1".toList, 1000000000⟩ (exScanEnv.cand 0) exJob) true
      ⟨"j1".toList, "r1".toList, "u".toList, "COMPLETED".toList, 5000000000, 9000000000,
        "Success: test".toList, "w1".toList, []⟩ true
      (fun _ => (by decide : secondsCodec.parse (secondsCodec.format 5000000000) =
        some (truncSec 5000000000)))
      (fun _ => (by decide : (5000000000 : Time) ≤ 5000000000))
      (by decide) (by decide) rfl (by decide)
      (by decide) ⟨0, 1000000000, "j1".toList, some "PENDING".toList⟩ (by decide) (by decide)⟩

namespace Worker

theorem handleReschedule_runs (env : WorkerEnv) (ev : JobExecutionEvent) (w : World) :
    (handleReschedule env ev w).runs = w.runs := by
  unfold handleReschedule
  split
  · rfl
  · simp only
    split
    · rfl
    · split <;> rfl

theorem updateJobStatus_runs (env : WorkerEnv) (jobID userID status : Str) (w : World) :
    (updateJobStatus env jobID userID status w).runs = w.runs := by
  unfold updateJobStatus
  split
  · rfl
  · simp only
    split
    · rfl
    · split <;> rfl

theorem executeAndRecord_runs (tl : TimeLib) (env : WorkerEnv) (msg : Message)
    (ev : JobExecutionEvent) (w : World) :
    (executeAndRecord tl env msg ev w).runs =
      if env.runInsertOk then insertRun (runRecord tl env ev (execute env ev.Payload)) w.runs
      else w.runs := by
  unfold executeAndRecord
  simp only
  cases h : env.runInsertOk
  · simp [World.emit]
  · simp only [Bool.not_true, Bool.false_eq_true, if_false, if_true, World.emit]
    split
    · rw [handleReschedule_runs]
    · rw [updateJobStatus_runs]

theorem insertRun_filter_key (r : Run) (rs : List Run) :
    (insertRun r rs).filter (fun x => decide ((x.job_id, x.run_id) = (r.job_id, r.run_id))) = [r] := by
  unfold insertRun
  rw [List.filter_append, List.filter_filter]
  simp

/-- When `processMessage` records a run successfully, the run table afterwards
holds exactly one record with the key of that run. -/
theorem processMessage_runs_of_insert {tl : TimeLib} {env : WorkerEnv} {msg : Message}
    {w : World} {run : Run}
    (h : Effect.runInsert run true ∈ (processMessage tl env msg w).log)
    (hnew : Effect.runInsert run true ∉ w.log) :
    (processMessage tl env msg w).runs.filter
      (fun x => decide ((x.job_id, x.run_id) = (run.job_id, run.run_id))) = [run] := by
  unfold processMessage at h ⊢
  rcases hB : msg.Body with _ | body
  · rw [hB] at h; exact absurd h hnew
  rw [hB] at h
  simp only at h ⊢
  rcases hD : decodeJobExecutionEvent body with _ | ev
  · rw [hD] at h; exact absurd h hnew
  rw [hD] at h
  simp only at h ⊢
  by_cases hP : hasPrefix ev.Payload "s3:".toList = true
  · rw [if_pos hP] at h ⊢
    rcases hG : getBlob env w.blobs (trimPrefix ev.Payload "s3:".toList) with _ | blob
    · rw [hG] at h
      simp only [World.emit, List.mem_append, List.mem_singleton] at h
      rcases h with h | h
      · exact absurd h hnew
      · cases h
    rw [hG] at h
    simp only at h ⊢
    cases hR : env.s3ReadOk
    · rw [hR] at h
      simp only [Bool.not_false, if_true, World.emit, List.mem_append, List.mem_singleton] at h
      rcases h with h | h
      · exact absurd h hnew
      · cases h
    · rw [hR] at h
      simp only [Bool.not_true, Bool.false_eq_true, if_false] at h ⊢
      rcases mem_executeAndRecord_runInsert h with h | ⟨h1, h2⟩
      · simp only [World.emit, List.mem_append, List.mem_singleton] at h
        rcases h with h | h
        · exact absurd h hnew
        · cases h
      · rw [executeAndRecord_runs, ← h2, if_pos rfl, ← h1]
        exact insertRun_filter_key run _
  · rw [if_neg hP] at h ⊢
    rcases mem_executeAndRecord_runInsert h with h | ⟨h1, h2⟩
    · exact absurd h hnew
    · rw [executeAndRecord_runs, ← h2, if_pos rfl, ← h1]
      exact insertRun_filter_key run _

end Worker

namespace Worker

/-- C3 as stated fails: the example message is processed once by a worker whose
acknowledgement fails and, redelivered, a second time.  Both processings write
a run whose `run_id` is the `r1` that the picker put in the event; the second
write replaces the first record, and the run table holds one record. -/
theorem redelivery_same_run_id :
    Effect.sqsDelete "h1".toList false ∈
        (processMessage secondsCodec exWorkerEnvNoAck exMessage exWorld).log ∧
      (∃ run1 run2,
        Effect.runInsert run1 true ∈
          (processMessage secondsCodec exWorkerEnvNoAck exMessage exWorld).log ∧
        Effect.runInsert run2 true ∈
          (processMessage secondsCodec exWorkerEnv exMessage
            (processMessage secondsCodec exWorkerEnvNoAck exMessage exWorld)).log ∧
        run1 ≠ run2 ∧ run1.run_id = "r1".toList ∧ run2.run_id = run1.run_id ∧
        (processMessage secondsCodec exWorkerEnv exMessage
          (processMessage secondsCodec exWorkerEnvNoAck exMessage exWorld)).runs = [run2]) := by
  refine ⟨by decide,
    ⟨"j1".toList, "r1".toList, "u".toList, "COMPLETED".toList, 5000000000, 8000000000,
      "Success: test".toList, "w1".toList, []⟩,
    ⟨"j1".toList, "r1".toList, "u".toList, "COMPLETED".toList, 5000000000, 9000000000,
      "Success: test".toList, "w1".toList, []⟩, ?_, ?_, ?_, ?_, ?_, ?_⟩ <;> decide

/-- C3, amended.  When the same message is processed twice, whatever the
outside world does either time, every run record written the second time has
the `job_id` and the `run_id` of every run record written the first time (those
of the dispatch event); and when the second write succeeds, the run table then
holds exactly one record with that key, the one just written. -/
theorem redelivery_keeps_run_id (tl : TimeLib) (env1 env2 : WorkerEnv) (msg : Message)
    (w1 w2 : World) (run1 run2 : Run) (ok1 ok2 : Bool)
    (h1 : Effect.runInsert run1 ok1 ∈ (processMessage tl env1 msg w1).log)
    (hn1 : Effect.runInsert run1 ok1 ∉ w1.log)
    (h2 : Effect.runInsert run2 ok2 ∈ (processMessage tl env2 msg w2).log)
    (hn2 : Effect.runInsert run2 ok2 ∉ w2.log) :
    run2.job_id = run1.job_id ∧ run2.run_id = run1.run_id ∧
      (ok2 = true →
        (processMessage tl env2 msg w2).runs.filter
          (fun x => decide ((x.job_id, x.run_id) = (run1.job_id, run1.run_id))) = [run2]) := by
  rcases mem_processMessage_runInsert h1 with h | ⟨b1, e1, p1, hb1, hd1, hr1, -⟩
  · exact absurd h hn1
  rcases mem_processMessage_runInsert h2 with h | ⟨b2, e2, p2, hb2, hd2, hr2, -⟩
  · exact absurd h hn2
  rw [hb1] at hb2
  cases hb2
  rw [hd1] at hd2
  cases hd2
  have hj : run2.job_id = run1.job_id := by rw [hr1, hr2]; rfl
  have hr : run2.run_id = run1.run_id := by rw [hr1, hr2]; rfl
  refine ⟨hj, hr, ?_⟩
  intro hok
  subst hok
  rw [← hj, ← hr]
  exact processMessage_runs_of_insert h2 hn2

/-- Witness for C3, amended, on the example message. -/
theorem redelivery_keeps_run_id_witness :
    (⟨"j1".toList, "r1".toList, "u".toList, "COMPLETED".toList, 5000000000, 9000000000,
      "Success: test".toList, "w1".toList, []⟩ : Run).run_id = "r1".toList ∧
    (processMessage secondsCodec exWorkerEnv exMessage
      (processMessage secondsCodec exWorkerEnvNoAck exMessage exWorld)).runs.filter
        (fun x => decide ((x.job_id, x.run_id) = ("j1".toList, "r1".toList))) =
      [⟨"j1".toList, "r1".toList, "u".toList, "COMPLETED".toList, 5000000000, 9000000000,
        "Success: test".toList, "w1".toList, []⟩] :=
  ⟨rfl,
    (redelivery_keeps_run_id secondsCodec exWorkerEnvNoAck exWorkerEnv exMessage exWorld
      (processMessage secondsCodec exWorkerEnvNoAck exMessage exWorld)
      ⟨"j1".toList, "r1".toList, "u".toList, "COMPLETED".toList, 5000000000, 8000000000,
        "Success: test".toList, "w1".toList, []⟩
      ⟨"j1".toList, "r1".toList, "u".toList, "COMPLETED".toList, 5000000000, 9000000000,
        "Success: test".toList, "w1".toList, []⟩ true true
      (by decide) (by decide) (by decide) (by decide)).2.2 rfl⟩

end Worker

namespace Ingestion

/-- What a call of `persistAndPublish` that answers 201 has done. -/
theorem persistAndPublish_created {tl : TimeLib} {env : SubmitEnv} {req : JobRequest}
    {userID payload : Str} {nf : Time} {w : World}
    (h : (persistAndPublish tl env req userID payload nf w).2.code = 201) :
    env.jobsInsertOk = true ∧ env.kafkaOk = true ∧
      (persistAndPublish tl env req userID payload nf w).1.jobs =
        insertJob ⟨env.jobID, req.ProjectID, userID, payload, req.CronSchedule, nf,
          "PENDING".toList, env.now, env.now, req.MaxRetries, 0, Int.tmod env.now 1024⟩ w.jobs ∧
      (persistAndPublish tl env req userID payload nf w).1.queue = w.queue ∧
      (persistAndPublish tl env req userID payload nf w).1.blobs = w.blobs ∧
      (persistAndPublish tl env req userID payload nf w).2 =
        ⟨201, .job ⟨env.jobID, "Submitted".toList, "Job submitted successfully".toList⟩⟩ ∧
      (persistAndPublish tl env req userID payload nf w).1.log =
        w.log ++ Effect.jobsInsert ⟨env.jobID, req.ProjectID, userID, payload, req.CronSchedule,
            nf, "PENDING".toList, env.now, env.now, req.MaxRetries, 0, Int.tmod env.now 1024⟩ true ::
          (userIndexCalls env userID nf ++ [Effect.kafkaPublish env.jobID
            (submissionEvent tl env.jobID req userID nf env.now (Int.tmod env.now 1024) payload)
            true]) := by
  unfold persistAndPublish at h ⊢
  unfold userIndexCalls
  cases hj : env.jobsInsertOk
  · rw [hj] at h; simp at h
  cases hk : env.kafkaOk
  · rw [hj, hk] at h; simp at h
  refine ⟨rfl, rfl, ?_⟩
  by_cases hu : userID = []
  · subst hu
    simp [World.emit]
  · cases hi : env.userJobsInsertOk <;> simp [World.emit, hu]

theorem parseAndPersist_created {tl : TimeLib} {env : SubmitEnv} {req : JobRequest}
    {userID payload : Str} {w : World}
    (h : (parseAndPersist tl env req userID payload w).2.code = 201) :
    ∃ nf, fireTime tl env req = some nf ∧
      parseAndPersist tl env req userID payload w =
        persistAndPublish tl env req userID payload nf w := by
  unfold parseAndPersist at h ⊢
  unfold fireTime
  by_cases hn : req.NextFireAt = []
  · simp only [hn, ne_eq, not_true_eq_false, if_false] at h ⊢
    exact ⟨_, rfl, rfl⟩
  · simp only [ne_eq, hn, not_false_eq_true, if_true] at h ⊢
    rcases hp : tl.parse req.NextFireAt with _ | nf
    · rw [hp] at h; simp at h
    · exact ⟨nf, rfl, rfl⟩

/-- What a call of `submitHandler` that answers 201 has done. -/
theorem submitHandler_created {tl : TimeLib} {env : SubmitEnv} {r : HttpRequest} {w : World}
    (h : (submitHandler tl env r w).2.code = 201) :
    r.method = "POST".toList ∧ env.jobsInsertOk = true ∧ env.kafkaOk = true ∧
    ∃ req nf, decodeJobRequest r.body = some req ∧ fireTime tl env req = some nf ∧
      (req.Payload.length > 1024 → env.s3PutOk = true) ∧
      (submitHandler tl env r w).1.jobs = insertJob (jobRow env req r.userID nf) w.jobs ∧
      (submitHandler tl env r w).1.queue = w.queue ∧
      (submitHandler tl env r w).1.blobs =
        (if req.Payload.length > 1024 then
          putBlob ("payloads/".toList ++ env.jobID) req.Payload w.blobs
        else w.blobs) ∧
      (submitHandler tl env r w).2 =
        ⟨201, .job ⟨env.jobID, "Submitted".toList, "Job submitted successfully".toList⟩⟩ ∧
      (submitHandler tl env r w).1.log =
        w.log ++ offloadCalls env req ++ Effect.jobsInsert (jobRow env req r.userID nf) true ::
          (userIndexCalls env r.userID nf ++
            [Effect.kafkaPublish env.jobID (publishedEvent tl env req r.userID nf) true]) := by
  unfold submitHandler at h ⊢
  by_cases hm : r.method = "POST".toList
  swap
  · rw [if_pos hm] at h; simp at h
  rw [if_neg (not_not.mpr hm)] at h ⊢
  rcases hd : decodeJobRequest r.body with _ | req
  · rw [hd] at h; simp at h
  rw [hd] at h
  simp only at h ⊢
  by_cases hl : req.Payload.length > 1024
  · simp only [hl, if_true] at h ⊢
    cases hs : env.s3PutOk
    · rw [hs] at h; simp at h
    rw [hs] at h
    simp only [Bool.not_true, Bool.false_eq_true, if_false] at h ⊢
    obtain ⟨nf, hnf, heq⟩ := parseAndPersist_created h
    rw [heq] at h ⊢
    obtain ⟨hj, hk, h1, h2, h3, h4, h5⟩ := persistAndPublish_created h
    have hl' : 1024 < req.Payload.length := hl
    refine ⟨hm, hj, hk, req, nf, ?_, hnf, ?_, ?_, ?_, ?_, ?_, ?_⟩
    · rfl
    · intro _; trivial
    · rw [h1]; simp [jobRow, storedPayload, hl', World.emit]
    · rw [h2]; simp [World.emit]
    · rw [h3]; simp [World.emit, hl']
    · exact h4
    · rw [h5]; simp [jobRow, storedPayload, publishedEvent, offloadCalls, hl', hs, World.emit]
  · simp only [hl, if_false] at h ⊢
    obtain ⟨nf, hnf, heq⟩ := parseAndPersist_created h
    rw [heq] at h ⊢
    obtain ⟨hj, hk, h1, h2, h3, h4, h5⟩ := persistAndPublish_created h
    have hl' : ¬ 1024 < req.Payload.length := hl
    refine ⟨hm, hj, hk, req, nf, ?_, hnf, fun hc => absurd hc hl, ?_, h2, ?_, h4, ?_⟩
    · rfl
    · rw [h1]; simp [jobRow, storedPayload, hl']
    · rw [h3]; simp [hl']
    · rw [h5]; simp [jobRow, storedPayload, publishedEvent, offloadCalls, hl']

end Ingestion
theorem insertJob_filter_id (j : Job) (jobs : List Job) :
    (insertJob j jobs).filter (fun x => decide (x.job_id = j.job_id)) = [j] := by
  unfold insertJob
  rw [List.filter_append, List.filter_filter]
  simp

theorem insertQueue_fresh (s : Int) (t : Time) (id : Str) (st : Option Str) (q : List QueueRow)
    (hfresh : ∀ row ∈ q, row.job_id ≠ id) :
    (insertQueue s t id st q).filter (fun row => decide (row.job_id = id)) = [⟨s, t, id, st⟩] := by
  have hnone : q.find? (fun r => decide (r.key = (s, t, id))) = none := by
    rw [List.find?_eq_none]
    intro x hx
    simp only [QueueRow.key, decide_eq_true_eq, Prod.mk.injEq, not_and]
    intro _ _
    exact hfresh x hx
  unfold insertQueue
  rw [hnone]
  simp only [List.filter_append]
  have : q.filter (fun row => decide (row.job_id = id)) = [] := by
    rw [List.filter_eq_nil_iff]
    intro x hx
    simpa using hfresh x hx
  rw [this]
  simp

namespace Writer

theorem decode_publishedEvent (tl : TimeLib) (env : Ingestion.SubmitEnv)
    (req : Ingestion.JobRequest) (userID : Str) (nf : Time) :
    decodeJobSubmissionEvent (.object (Ingestion.publishedEvent tl env req userID nf)) =
      some ⟨env.jobID, req.ProjectID, tl.format nf, Int.tmod env.now 1024,
        Ingestion.storedPayload env.jobID req.Payload⟩ := rfl

end Writer

/-- C4 as stated fails: the example submission carries no `next_fire_at` and
arrives at second 7.5.  The handler answers 201 and stores second 7.5 in the Job
row; the submission event carries the text of second 7, so the row the writer
inserts into B has `next_fire_at` at second 7, which is not the Job row's. -/
theorem queue_row_differs_from_job_row :
    ∃ ev job row,
      (Ingestion.submitHandler secondsCodec exSubmitEnv exRequest exEmptyWorld).2.code = 201 ∧
      Effect.kafkaPublish "j9".toList ev true ∈
        (Ingestion.submitHandler secondsCodec exSubmitEnv exRequest exEmptyWorld).1.log ∧
      (Ingestion.submitHandler secondsCodec exSubmitEnv exRequest exEmptyWorld).1.jobs = [job] ∧
      job.status = "PENDING".toList ∧
      (Writer.processMessage secondsCodec ⟨true⟩ (.object ev)
        (Ingestion.submitHandler secondsCodec exSubmitEnv exRequest exEmptyWorld).1).queue = [row] ∧
      row.job_id = job.job_id ∧ job.next_fire_at = 7500000000 ∧
      row.next_fire_at = 7000000000 ∧
      (row.shard_id, row.next_fire_at, row.job_id) ≠
        (job.shard_id, job.next_fire_at, job.job_id) := by
  refine ⟨Ingestion.publishedEvent secondsCodec exSubmitEnv
      ⟨"p".toList, "test".toList, [], [], 0⟩ "u".toList 7500000000,
    Ingestion.jobRow exSubmitEnv ⟨"p".toList, "test".toList, [], [], 0⟩ "u".toList 7500000000,
    ⟨Int.tmod 7500000000 1024, 7000000000, "j9".toList, some "PENDING".toList⟩,
    ?_, ?_, ?_, ?_, ?_, ?_, ?_, ?_, ?_⟩ <;> decide

/-- C4, amended.  When `submitHandler` answers 201, the Job store holds exactly
one row `job` for the new job id and its status is PENDING.  When the queue
writer then processes a submission event published by that call, its insert
succeeds, B held no row of that job before, and parsing the formatted fire time
gives it truncated to the second, B holds exactly one row for the job: it has
the Job row's `shard_id` and `job_id`, and its `next_fire_at` is the Job row's
truncated to the whole second (so the two agree when the fire time is a whole
number of seconds). -/
theorem submitted_job_has_one_queue_row (tl : TimeLib) (env : Ingestion.SubmitEnv)
    (r : Ingestion.HttpRequest) (w : World) (wenv : Writer.WriterEnv) (w2 : World) (ev : JObj)
    (okP : Bool)
    (h201 : (Ingestion.submitHandler tl env r w).2.code = 201)
    (hev : Effect.kafkaPublish env.jobID ev okP ∈ (Ingestion.submitHandler tl env r w).1.log)
    (hnew : Effect.kafkaPublish env.jobID ev okP ∉ w.log)
    (hins : wenv.queueInsertOk = true)
    (hfresh : ∀ row ∈ w2.queue, row.job_id ≠ env.jobID) :
    ∃ job,
      (Ingestion.submitHandler tl env r w).1.jobs.filter
        (fun j => decide (j.job_id = env.jobID)) = [job] ∧
      job.job_id = env.jobID ∧ job.status = "PENDING".toList ∧
      (tl.parse (tl.format job.next_fire_at) = some (truncSec job.next_fire_at) →
        (Writer.processMessage tl wenv (.object ev) w2).queue.filter
            (fun row => decide (row.job_id = env.jobID)) =
          [⟨job.shard_id, truncSec job.next_fire_at, job.job_id, some "PENDING".toList⟩] ∧
        (truncSec job.next_fire_at = job.next_fire_at →
          (Writer.processMessage tl wenv (.object ev) w2).queue.filter
              (fun row => decide (row.job_id = env.jobID)) =
            [⟨job.shard_id, job.next_fire_at, job.job_id, some "PENDING".toList⟩])) := by
  obtain ⟨-, -, -, req, nf, -, -, -, hjobs, -, -, -, hlog⟩ := Ingestion.submitHandler_created h201
  have hevEq : ev = Ingestion.publishedEvent tl env req r.userID nf := by
    rw [hlog] at hev
    simp only [List.mem_append, List.mem_cons, List.mem_singleton, List.not_mem_nil, or_false]
      at hev
    rcases hev with (h | h) | h | h | h
    · exact absurd h hnew
    · unfold Ingestion.offloadCalls at h
      split at h <;> simp at h
    · cases h
    · unfold Ingestion.userIndexCalls at h
      split at h <;> simp at h
    · cases h; rfl
  refine ⟨Ingestion.jobRow env req r.userID nf, ?_, rfl, rfl, ?_⟩
  · rw [hjobs]
    exact insertJob_filter_id (Ingestion.jobRow env req r.userID nf) w.jobs
  · intro hrt
    have hq : (Writer.processMessage tl wenv (.object ev) w2).queue.filter
        (fun row => decide (row.job_id = env.jobID)) =
        [⟨Int.tmod env.now 1024, truncSec nf, env.jobID, some "PENDING".toList⟩] := by
      unfold Writer.processMessage
      rw [hevEq, Writer.decode_publishedEvent]
      simp only
      have hrt' : tl.parse (tl.format nf) = some (truncSec nf) := hrt
      rw [hrt', hins]
      simp only [Bool.not_true, Bool.false_eq_true, if_false, World.emit]
      exact insertQueue_fresh _ _ _ _ _ hfresh
    refine ⟨hq, ?_⟩
    intro hwhole
    have hwhole' : truncSec nf = nf := hwhole
    rw [hq, hwhole']
    rfl

/-- Witness for C4, amended, on the example submission: the one queue row of
job `j9` carries second 7, the Job row's second 7.5 truncated. -/
theorem submitted_job_has_one_queue_row_witness :
    (Ingestion.submitHandler secondsCodec exSubmitEnv exRequest exEmptyWorld).2.code = 201 ∧
      (Writer.processMessage secondsCodec ⟨true⟩
        (.object (Ingestion.publishedEvent secondsCodec exSubmitEnv
          ⟨"p".toList, "test".toList, [], [], 0⟩ "u".toList 7500000000)) exEmptyWorld).queue.filter
          (fun row => decide (row.job_id = "j9".toList)) =
        [⟨Int.tmod 7500000000 1024, 7000000000, "j9".toList, some "PENDING".toList⟩] := by
  refine ⟨by decide, ?_⟩
  obtain ⟨job, h1, -, -, h3⟩ := submitted_job_has_one_queue_row secondsCodec exSubmitEnv
    exRequest exEmptyWorld ⟨true⟩ exEmptyWorld
    (Ingestion.publishedEvent secondsCodec exSubmitEnv ⟨"p".toList, "test".toList, [], [], 0⟩
      "u".toList 7500000000) true (by decide) (by decide) (by decide) rfl (by decide)
  have hjob : [job] = [Ingestion.jobRow exSubmitEnv ⟨"p".toList, "test".toList, [], [], 0⟩
      "u".toList 7500000000] := h1.symm.trans (by decide)
  cases hjob
  exact (h3 (by decide)).1

namespace Worker

/-- When the payload resolves, `processMessage` is `executeAndRecord` on the
event with the resolved payload. -/
theorem processMessage_of_resolved {tl : TimeLib} {env : WorkerEnv} {msg : Message} {w : World}
    {body : Body} {ev : JobExecutionEvent} {payload : Str}
    (hb : msg.Body = some body) (hd : decodeJobExecutionEvent body = some ev)
    (hres : resolvePayload env w.blobs ev = some payload) :
    processMessage tl env msg w =
      executeAndRecord tl env msg { ev with Payload := payload }
        { w with log := w.log ++ fetchCalls ev } := by
  unfold processMessage
  rw [hb]
  simp only
  rw [hd]
  simp only
  unfold resolvePayload at hres
  unfold fetchCalls
  by_cases hP : hasPrefix ev.Payload "s3:".toList = true
  · rw [if_pos hP] at hres ⊢
    rw [if_pos hP]
    rcases hG : getBlob env w.blobs (trimPrefix ev.Payload "s3:".toList) with _ | blob
    · rw [hG] at hres; simp at hres
    rw [hG] at hres
    simp only at hres ⊢
    cases hR : env.s3ReadOk
    · rw [hR] at hres; simp at hres
    · rw [hR] at hres
      simp only [if_true, Option.some.injEq] at hres
      subst hres
      simp [World.emit]
  · rw [if_neg hP] at hres ⊢
    rw [if_neg hP]
    simp only [Option.some.injEq] at hres
    subst hres
    simp

/-- The recurring path of `executeAndRecord` when every write succeeds. -/
theorem executeAndRecord_rescheduled {tl : TimeLib} {env : WorkerEnv} {msg : Message}
    {ev : JobExecutionEvent} {w : World} {next : Time → Time}
    (hc : ev.CronSchedule ≠ []) (hp : env.cronParse ev.CronSchedule = some next)
    (hr : env.runInsertOk = true) (hj : env.jobsUpdateOk = true)
    (hq : env.queueInsertOk = true) :
    executeAndRecord tl env msg ev w =
      { jobs := updateJob ev.JobID (fun j => { j with
            next_fire_at := next env.cronNow, shard_id := ((env.rand % 1024 : Nat) : Int),
            status := "PENDING".toList }) w.jobs
        userJobs := w.userJobs
        queue := insertQueue ((env.rand % 1024 : Nat) : Int) (next env.cronNow) ev.JobID none w.queue
        runs := insertRun (runRecord tl env ev (execute env ev.Payload)) w.runs
        blobs := w.blobs
        log := w.log ++ execCalls ev.Payload ++
          [Effect.runInsert (runRecord tl env ev (execute env ev.Payload)) true,
            Effect.jobsReschedule ev.JobID (next env.cronNow) ((env.rand % 1024 : Nat) : Int) true,
            Effect.queueInsert ((env.rand % 1024 : Nat) : Int) (next env.cronNow) ev.JobID none true,
            Effect.sqsDelete msg.ReceiptHandle env.sqsDeleteOk] } := by
  unfold executeAndRecord handleReschedule
  simp [hc, hp, hr, hj, hq, World.emit]

/-- The non-recurring path of `executeAndRecord` when every write succeeds and
the user index holds an entry for the job. -/
theorem executeAndRecord_terminal {tl : TimeLib} {env : WorkerEnv} {msg : Message}
    {ev : JobExecutionEvent} {w : World} {u : UserJob}
    (hc : ev.CronSchedule = []) (hr : env.runInsertOk = true) (hj : env.jobsUpdateOk = true)
    (hs : env.userSelectOk = true)
    (hf : w.userJobs.find? (fun x => decide (x.user_id = ev.UserID) && decide (x.job_id = ev.JobID))
      = some u)
    (hu : env.userUpdateOk = true) :
    executeAndRecord tl env msg ev w =
      { jobs := updateJob ev.JobID
          (fun j => { j with status := (execute env ev.Payload).jobStatus }) w.jobs
        userJobs := updateUserJobStatus ev.UserID u.created_at ev.JobID
          (execute env ev.Payload).jobStatus w.userJobs
        queue := w.queue
        runs := insertRun (runRecord tl env ev (execute env ev.Payload)) w.runs
        blobs := w.blobs
        log := w.log ++ execCalls ev.Payload ++
          [Effect.runInsert (runRecord tl env ev (execute env ev.Payload)) true,
            Effect.jobsUpdateStatus ev.JobID (execute env ev.Payload).jobStatus true,
            Effect.userJobsSelect ev.UserID ev.JobID true,
            Effect.userJobsUpdate ev.UserID u.created_at ev.JobID
              (execute env ev.Payload).jobStatus true,
            Effect.sqsDelete msg.ReceiptHandle env.sqsDeleteOk] } := by
  unfold executeAndRecord updateJobStatus
  simp [hc, hr, hj, hs, hf, hu, World.emit]

end Worker
theorem mem_updateJob_of_id {id : Str} {f : Job → Job} {jobs : List Job} {j : Job}
    (hj : j ∈ updateJob id f jobs) (hid : j.job_id = id) : ∃ x, j = f x := by
  unfold updateJob at hj
  split at hj
  · obtain ⟨x, -, hx⟩ := List.mem_map.mp hj
    by_cases hxi : x.job_id = id
    · rw [if_pos hxi] at hx; exact ⟨x, hx.symm⟩
    · rw [if_neg hxi] at hx; subst hx; exact absurd hid hxi
  · rename_i hany
    rcases List.mem_append.mp hj with h | h
    · exact absurd (List.any_eq_true.mpr ⟨j, h, by simpa using hid⟩) hany
    · exact ⟨_, List.mem_singleton.mp h⟩

theorem exists_mem_updateJob (id : Str) (f : Job → Job) (jobs : List Job)
    (hf : ∀ x, (f x).job_id = x.job_id) : ∃ j ∈ updateJob id f jobs, j.job_id = id := by
  unfold updateJob
  split
  · rename_i hany
    obtain ⟨x, hx, hxi⟩ := List.any_eq_true.mp hany
    have hxi' : x.job_id = id := by simpa using hxi
    refine ⟨f x, List.mem_map.mpr ⟨x, hx, by rw [if_pos hxi']⟩, ?_⟩
    rw [hf, hxi']
  · exact ⟨_, List.mem_append.mpr (Or.inr (List.mem_singleton.mpr rfl)), by rw [hf]⟩

theorem exists_mem_insertQueue (s : Int) (t : Time) (id : Str) (st : Option Str)
    (q : List QueueRow) : ∃ row ∈ insertQueue s t id st q, row.key = (s, t, id) := by
  unfold insertQueue
  split
  · exact ⟨_, List.mem_append.mpr (Or.inr (List.mem_singleton.mpr rfl)), rfl⟩
  · rename_i r hr
    have hmem : r ∈ q := List.mem_of_find?_eq_some hr
    have hkey : r.key = (s, t, id) := by simpa using List.find?_some hr
    refine ⟨_, List.mem_map.mpr ⟨r, hmem, rfl⟩, ?_⟩
    rw [if_pos hkey]
    exact hkey

theorem mem_updateUserJobStatus_of_key {uid : Str} {c : Time} {id st : Str} {us : List UserJob}
    {x : UserJob} (hx : x ∈ updateUserJobStatus uid c id st us)
    (hk : (x.user_id, x.created_at, x.job_id) = (uid, c, id)) : x.status = st := by
  unfold updateUserJobStatus at hx
  split at hx
  · obtain ⟨y, -, hy⟩ := List.mem_map.mp hx
    by_cases hyk : (y.user_id, y.created_at, y.job_id) = (uid, c, id)
    · rw [if_pos hyk] at hy; subst hy; rfl
    · rw [if_neg hyk] at hy; subst hy; exact absurd hk hyk
  · rename_i hany
    rcases List.mem_append.mp hx with h | h
    · exact absurd (List.any_eq_true.mpr ⟨x, h, by simpa using hk⟩) hany
    · rw [List.mem_singleton.mp h]

theorem exists_mem_updateUserJobStatus {uid : Str} {c : Time} {id : Str} (st : Str)
    {us : List UserJob} {u : UserJob} (hu : u ∈ us)
    (hk : (u.user_id, u.created_at, u.job_id) = (uid, c, id)) :
    { u with status := st } ∈ updateUserJobStatus uid c id st us := by
  unfold updateUserJobStatus
  have hany : us.any (fun u => decide ((u.user_id, u.created_at, u.job_id) = (uid, c, id))) = true :=
    List.any_eq_true.mpr ⟨u, hu, by simpa using hk⟩
  rw [if_pos hany]
  exact List.mem_map.mpr ⟨u, hu, by rw [if_pos hk]⟩

namespace Worker

/-- C5. For a dispatch event with a non-empty `cron_schedule` that parses,
when the payload resolves and the run write and both reschedule writes succeed,
`processMessage` makes exactly the calls listed (one insert into B among them);
afterwards the Job store holds a row for the job, every such row has status
PENDING and the `shard_id` and `next_fire_at` of the row inserted into B, and B
holds a row with that key. -/
theorem reschedule_job_matches_queue_row (tl : TimeLib) (env : WorkerEnv) (msg : Message)
    (w : World) (body : Body) (ev : JobExecutionEvent) (payload : Str) (next : Time → Time)
    (hb : msg.Body = some body) (hd : decodeJobExecutionEvent body = some ev)
    (hres : resolvePayload env w.blobs ev = some payload)
    (hc : ev.CronSchedule ≠ []) (hp : env.cronParse ev.CronSchedule = some next)
    (hr : env.runInsertOk = true) (hj : env.jobsUpdateOk = true)
    (hq : env.queueInsertOk = true) :
    (processMessage tl env msg w).log =
        w.log ++ fetchCalls ev ++ execCalls payload ++
          [Effect.runInsert
              (runRecord tl env { ev with Payload := payload } (execute env payload)) true,
            Effect.jobsReschedule ev.JobID (next env.cronNow) ((env.rand % 1024 : Nat) : Int) true,
            Effect.queueInsert ((env.rand % 1024 : Nat) : Int) (next env.cronNow) ev.JobID none true,
            Effect.sqsDelete msg.ReceiptHandle env.sqsDeleteOk] ∧
      (∃ j ∈ (processMessage tl env msg w).jobs, j.job_id = ev.JobID) ∧
      (∀ j ∈ (processMessage tl env msg w).jobs, j.job_id = ev.JobID →
        j.status = "PENDING".toList ∧ j.shard_id = ((env.rand % 1024 : Nat) : Int) ∧
          j.next_fire_at = next env.cronNow) ∧
      (∃ row ∈ (processMessage tl env msg w).queue,
        row.key = (((env.rand % 1024 : Nat) : Int), next env.cronNow, ev.JobID)) := by
  rw [processMessage_of_resolved hb hd hres,
    @executeAndRecord_rescheduled tl env msg { ev with Payload := payload } _ next hc hp hr hj hq]
  dsimp only
  refine ⟨rfl, ?_, ?_, ?_⟩
  · refine exists_mem_updateJob _ _ _ ?_
    intro x; rfl
  · intro j hj' hid
    obtain ⟨x, hx⟩ := mem_updateJob_of_id hj' hid
    subst hx
    exact ⟨rfl, rfl, rfl⟩
  · exact exists_mem_insertQueue _ _ _ _ _

/-- Witness for C5: the example recurring job, rescheduled at second 9 for
second 11 on shard 7. -/
theorem reschedule_job_matches_queue_row_witness :
    exCronWorkerEnv.cronParse "@every 2s".toList = some (fun t => t + 2000000000) ∧
      (processMessage secondsCodec exCronWorkerEnv exCronMessage exCronWorld).queue =
        [⟨7, 11000000000, "j1".toList, none⟩] ∧
      ∀ j ∈ (processMessage secondsCodec exCronWorkerEnv exCronMessage exCronWorld).jobs,
        j.job_id = "j1".toList →
          j.status = "PENDING".toList ∧ j.shard_id = 7 ∧ j.next_fire_at = 11000000000 :=
  ⟨rfl, by decide,
    (reschedule_job_matches_queue_row secondsCodec exCronWorkerEnv exCronMessage exCronWorld
      (.object (Picker.dispatchEvent secondsCodec ⟨"j1".toList, 1000000000⟩
        (exScanEnv.cand 0) exCronJob))
      ⟨"j1".toList, "r1".toList, "STARTED".toList, "test".toList, "p".toList, "u".toList,
        secondsCodec.format 5000000000, "@every 2s".toList⟩
      "test".toList (fun t => t + 2000000000) rfl rfl rfl (by decide) rfl rfl rfl rfl).2.2.1⟩

end Worker

namespace Worker

theorem execute_status (env : WorkerEnv) (payload : Str) :
    (execute env payload).jobStatus = "COMPLETED".toList ∨
      (execute env payload).jobStatus = "FAILED".toList := by
  unfold execute
  split
  · simp only
    rcases env.shell (trimPrefix payload "cmd:".toList) with ⟨o, _ | e⟩
    · exact Or.inl rfl
    · exact Or.inr rfl
  · split <;> exact Or.inl rfl

/-- C6. For a dispatch event with an empty `cron_schedule`, when the payload
resolves, the run write and the Job status update succeed, the user index
lookup finds an entry `u` for `(user_id, job_id)` and its update succeeds,
`processMessage` makes exactly the calls listed; the run written has status
COMPLETED or FAILED, the Job store afterwards holds a row for the job and every
such row has the status of that run, and the entry `u` of the user index now
carries that status, as does every entry with its key. -/
theorem terminal_status_matches_run (tl : TimeLib) (env : WorkerEnv) (msg : Message)
    (w : World) (body : Body) (ev : JobExecutionEvent) (payload : Str) (u : UserJob)
    (hb : msg.Body = some body) (hd : decodeJobExecutionEvent body = some ev)
    (hres : resolvePayload env w.blobs ev = some payload)
    (hc : ev.CronSchedule = []) (hr : env.runInsertOk = true) (hj : env.jobsUpdateOk = true)
    (hs : env.userSelectOk = true)
    (hf : w.userJobs.find? (fun x => decide (x.user_id = ev.UserID) && decide (x.job_id = ev.JobID))
      = some u)
    (hu : env.userUpdateOk = true) :
    (processMessage tl env msg w).log =
        w.log ++ fetchCalls ev ++ execCalls payload ++
          [Effect.runInsert
              (runRecord tl env { ev with Payload := payload } (execute env payload)) true,
            Effect.jobsUpdateStatus ev.JobID (execute env payload).jobStatus true,
            Effect.userJobsSelect ev.UserID ev.JobID true,
            Effect.userJobsUpdate ev.UserID u.created_at ev.JobID
              (execute env payload).jobStatus true,
            Effect.sqsDelete msg.ReceiptHandle env.sqsDeleteOk] ∧
      (runRecord tl env { ev with Payload := payload } (execute env payload)).status =
        (execute env payload).jobStatus ∧
      ((execute env payload).jobStatus = "COMPLETED".toList ∨
        (execute env payload).jobStatus = "FAILED".toList) ∧
      (∃ j ∈ (processMessage tl env msg w).jobs, j.job_id = ev.JobID) ∧
      (∀ j ∈ (processMessage tl env msg w).jobs, j.job_id = ev.JobID →
        j.status = (execute env payload).jobStatus) ∧
      { u with status := (execute env payload).jobStatus } ∈
        (processMessage tl env msg w).userJobs ∧
      (∀ x ∈ (processMessage tl env msg w).userJobs,
        (x.user_id, x.created_at, x.job_id) = (ev.UserID, u.created_at, ev.JobID) →
          x.status = (execute env payload).jobStatus) := by
  rw [processMessage_of_resolved hb hd hres,
    @executeAndRecord_terminal tl env msg { ev with Payload := payload }
      { w with log := w.log ++ fetchCalls ev } u hc hr hj hs hf hu]
  dsimp only
  have humem : u ∈ w.userJobs := List.mem_of_find?_eq_some hf
  have hukey : u.user_id = ev.UserID ∧ u.job_id = ev.JobID := by
    simpa using List.find?_some hf
  refine ⟨rfl, rfl, execute_status env payload, ?_, ?_, ?_, ?_⟩
  · refine exists_mem_updateJob _ _ _ ?_
    intro x; rfl
  · intro j hj' hid
    obtain ⟨x, hx⟩ := mem_updateJob_of_id hj' hid
    subst hx
    rfl
  · exact exists_mem_updateUserJobStatus _ humem (by rw [hukey.1, hukey.2])
  · intro x hx hk
    exact mem_updateUserJobStatus_of_key hx hk

/-- Witness for C6: the example one-shot job ends COMPLETED in the Job store
and in the user index. -/
theorem terminal_status_matches_run_witness :
    (processMessage secondsCodec exWorkerEnv exMessage
        ⟨[exJob], [⟨"u".toList, 0, "j1".toList, "PENDING".toList, 1000000000⟩], [], [], [], []⟩).userJobs =
      [⟨"u".toList, 0, "j1".toList, "COMPLETED".toList, 1000000000⟩] ∧
    ∀ j ∈ (processMessage secondsCodec exWorkerEnv exMessage
        ⟨[exJob], [⟨"u".toList, 0, "j1".toList, "PENDING".toList, 1000000000⟩], [], [], [], []⟩).jobs,
      j.job_id = "j1".toList → j.status = "COMPLETED".toList :=
  ⟨by decide,
    (terminal_status_matches_run secondsCodec exWorkerEnv exMessage
      ⟨[exJob], [⟨"u".toList, 0, "j1".toList, "PENDING".toList, 1000000000⟩], [], [], [], []⟩
      (.object (Picker.dispatchEvent secondsCodec ⟨"j1".toList, 1000000000⟩
        (exScanEnv.cand 0) exJob))
      ⟨"j1".toList, "r1".toList, "STARTED".toList, "test".toList, "p".toList, "u".toList,
        secondsCodec.format 5000000000, []⟩
      "test".toList ⟨"u".toList, 0, "j1".toList, "PENDING".toList, 1000000000⟩
      rfl rfl rfl rfl rfl rfl rfl (by decide) rfl).2.2.2.2.1⟩

end Worker

namespace Ingestion

theorem persistAndPublish_log (tl : TimeLib) (env : SubmitEnv) (req : JobRequest)
    (userID payload : Str) (nf : Time) (w : World) :
    (persistAndPublish tl env req userID payload nf w).1.log =
      w.log ++ (if env.jobsInsertOk then
        Effect.jobsInsert ⟨env.jobID, req.ProjectID, userID, payload, req.CronSchedule, nf,
            "PENDING".toList, env.now, env.now, req.MaxRetries, 0, Int.tmod env.now 1024⟩ true ::
          (userIndexCalls env userID nf ++ [Effect.kafkaPublish env.jobID
            (submissionEvent tl env.jobID req userID nf env.now (Int.tmod env.now 1024) payload)
            env.kafkaOk])
        else [Effect.jobsInsert ⟨env.jobID, req.ProjectID, userID, payload, req.CronSchedule, nf,
            "PENDING".toList, env.now, env.now, req.MaxRetries, 0, Int.tmod env.now 1024⟩ false]) ∧
    (persistAndPublish tl env req userID payload nf w).1.blobs = w.blobs ∧
    (persistAndPublish tl env req userID payload nf w).1.queue = w.queue := by
  unfold persistAndPublish userIndexCalls
  cases hj : env.jobsInsertOk
  · simp [World.emit]
  cases hk : env.kafkaOk <;> by_cases hu : userID = [] <;>
    cases hi : env.userJobsInsertOk <;> simp [World.emit, hu]

theorem parseAndPersist_log (tl : TimeLib) (env : SubmitEnv) (req : JobRequest)
    (userID payload : Str) (w : World) :
    parseAndPersist tl env req userID payload w =
      match fireTime tl env req with
      | none => (w, ⟨400, .text "Invalid next_fire_at format (RFC3339 required)".toList⟩)
      | some nf => persistAndPublish tl env req userID payload nf w := by
  unfold parseAndPersist fireTime
  by_cases hn : req.NextFireAt = []
  · simp [hn]
  · simp only [ne_eq, hn, not_false_eq_true, if_true]

/-- The log, the blob store and the queue after `submitHandler`, for a `POST`
whose body decodes. -/
theorem submitHandler_log (tl : TimeLib) (env : SubmitEnv) (r : HttpRequest) (w : World)
    (req : JobRequest) (hm : r.method = "POST".toList) (hd : decodeJobRequest r.body = some req) :
    (submitHandler tl env r w).1.log = w.log ++ submitCalls tl env req r.userID ∧
    (submitHandler tl env r w).1.blobs =
      (if req.Payload.length > 1024 ∧ env.s3PutOk = true then
        putBlob ("payloads/".toList ++ env.jobID) req.Payload w.blobs
      else w.blobs) ∧
    (submitHandler tl env r w).1.queue = w.queue := by
  unfold submitHandler
  rw [if_neg (not_not.mpr hm), hd]
  simp only
  unfold submitCalls offloadCalls
  by_cases hl : req.Payload.length > 1024
  · have hl' : 1024 < req.Payload.length := hl
    rw [if_pos hl, if_pos hl]
    cases hs : env.s3PutOk
    · simp [World.emit, hl']
    · simp only [Bool.not_true, Bool.false_eq_true, if_false, and_false, and_true, if_pos hl]
      rw [parseAndPersist_log]
      rcases hf : fireTime tl env req with _ | nf
      · simp [World.emit]
      · simp only
        obtain ⟨h1, h2, h3⟩ := persistAndPublish_log tl env req r.userID
          ("s3:".toList ++ ("payloads/".toList ++ env.jobID)) nf
          ({ w with blobs := putBlob ("payloads/".toList ++ env.jobID) req.Payload w.blobs }.emit
            (Effect.s3Put ("payloads/".toList ++ env.jobID) req.Payload true))
        rw [h1, h2, h3]
        refine ⟨?_, rfl, rfl⟩
        unfold persistCalls jobRow publishedEvent storedPayload
        rw [if_pos hl]
        cases env.jobsInsertOk <;> simp [World.emit]
  · rw [if_neg hl, if_neg hl]
    simp only [hl, false_and, if_false, List.nil_append]
    rw [parseAndPersist_log]
    rcases hf : fireTime tl env req with _ | nf
    · simp
    · simp only
      obtain ⟨h1, h2, h3⟩ := persistAndPublish_log tl env req r.userID req.Payload nf w
      rw [h1, h2, h3]
      refine ⟨?_, rfl, rfl⟩
      unfold persistCalls jobRow publishedEvent storedPayload
      rw [if_neg hl]

end Ingestion
namespace Ingestion

theorem mem_submitCalls_s3Put {tl : TimeLib} {env : SubmitEnv} {req : JobRequest} {userID : Str}
    {key body : Str} {ok : Bool} :
    Effect.s3Put key body ok ∈ submitCalls tl env req userID ↔
      req.Payload.length > 1024 ∧ key = "payloads/".toList ++ env.jobID ∧ body = req.Payload ∧
        ok = env.s3PutOk := by
  have hp : ∀ nf, Effect.s3Put key body ok ∉ persistCalls tl env req userID nf := by
    intro nf
    unfold persistCalls userIndexCalls
    split <;> [split; skip] <;> simp
  have hrest : Effect.s3Put key body ok ∉
      (if req.Payload.length > 1024 ∧ env.s3PutOk = false then []
      else
        match fireTime tl env req with
        | none => []
        | some nextFireAt => persistCalls tl env req userID nextFireAt) := by
    split
    · simp
    · split
      · simp
      · exact hp _
  unfold submitCalls offloadCalls
  rw [List.mem_append]
  constructor
  · rintro (h | h)
    · split at h
      · rename_i hl
        simp only [List.mem_singleton, Effect.s3Put.injEq] at h
        exact ⟨hl, h⟩
      · simp at h
    · exact absurd h hrest
  · rintro ⟨hl, hk, hb, ho⟩
    left
    rw [if_pos hl, hk, hb, ho]
    exact List.mem_singleton.mpr rfl

theorem mem_persistCalls_jobsInsert {tl : TimeLib} {env : SubmitEnv} {req : JobRequest}
    {userID : Str} {nf : Time} {j : Job} {ok : Bool}
    (h : Effect.jobsInsert j ok ∈ persistCalls tl env req userID nf) :
    j = jobRow env req userID nf ∧ ok = env.jobsInsertOk := by
  unfold persistCalls userIndexCalls at h
  cases hj : env.jobsInsertOk
  · rw [hj] at h
    simpa using h
  · rw [hj] at h
    by_cases hu : userID = []
    · simpa [hu] using h
    · simpa [hu] using h

theorem mem_persistCalls_kafkaPublish {tl : TimeLib} {env : SubmitEnv} {req : JobRequest}
    {userID : Str} {nf : Time} {k : Str} {ev : JObj} {ok : Bool}
    (h : Effect.kafkaPublish k ev ok ∈ persistCalls tl env req userID nf) :
    env.jobsInsertOk = true ∧ k = env.jobID ∧ ev = publishedEvent tl env req userID nf ∧
      ok = env.kafkaOk := by
  unfold persistCalls userIndexCalls at h
  cases hj : env.jobsInsertOk
  · rw [hj] at h
    simp at h
  · rw [hj] at h
    by_cases hu : userID = []
    · simpa [hu] using h
    · simpa [hu] using h

/-- Every call of `submitCalls` other than the upload is a call of
`persistCalls` at the settled fire time. -/
theorem mem_submitCalls_persist {tl : TimeLib} {env : SubmitEnv} {req : JobRequest}
    {userID : Str} {e : Effect} (h : e ∈ submitCalls tl env req userID)
    (hne : ∀ key body ok, e ≠ Effect.s3Put key body ok) :
    ∃ nf, fireTime tl env req = some nf ∧ (req.Payload.length > 1024 → env.s3PutOk = true) ∧
      e ∈ persistCalls tl env req userID nf := by
  unfold submitCalls offloadCalls at h
  rw [List.mem_append] at h
  rcases h with h | h
  · split at h
    · exact absurd (List.mem_singleton.mp h) (hne _ _ _)
    · simp at h
  · split at h
    · simp at h
    · rename_i hcond
      rcases hf : fireTime tl env req with _ | nf
      · rw [hf] at h; simp at h
      · rw [hf] at h
        refine ⟨nf, rfl, ?_, h⟩
        intro hl
        cases hs : env.s3PutOk
        · exact absurd ⟨hl, hs⟩ hcond
        · rfl

theorem publishedEvent_payload (tl : TimeLib) (env : SubmitEnv) (req : JobRequest)
    (userID : Str) (nf : Time) :
    List.lookup "payload".toList (publishedEvent tl env req userID nf) =
      some (JVal.str (storedPayload env.jobID req.Payload)) := rfl

theorem publishedEvent_job_id (tl : TimeLib) (env : SubmitEnv) (req : JobRequest)
    (userID : Str) (nf : Time) :
    List.lookup "job_id".toList (publishedEvent tl env req userID nf) =
      some (JVal.str env.jobID) := rfl

/-- C7. For a `POST /submit` whose body decodes, the calls `tr` that
`submitHandler` makes contain an upload to the blob store if and only if the
payload is longer than 1024 bytes; the upload has key `payloads/<job_id>` and
the submitted payload as its body.  For a payload of at most 1024 bytes the
blob store is left as it was, and every Job row written and every submission
event published carries the payload unchanged. -/
theorem offload_iff_payload_over_1024 (tl : TimeLib) (env : SubmitEnv) (r : HttpRequest)
    (w : World) (req : JobRequest) (hm : r.method = "POST".toList)
    (hd : decodeJobRequest r.body = some req) :
    ∃ tr, (submitHandler tl env r w).1.log = w.log ++ tr ∧
      ((∃ key body ok, Effect.s3Put key body ok ∈ tr) ↔ req.Payload.length > 1024) ∧
      (∀ key body ok, Effect.s3Put key body ok ∈ tr →
        key = "payloads/".toList ++ env.jobID ∧ body = req.Payload) ∧
      (req.Payload.length ≤ 1024 →
        (submitHandler tl env r w).1.blobs = w.blobs ∧
        (∀ j ok, Effect.jobsInsert j ok ∈ tr → j.payload = req.Payload) ∧
        (∀ k ev ok, Effect.kafkaPublish k ev ok ∈ tr →
          List.lookup "payload".toList ev = some (JVal.str req.Payload))) := by
  obtain ⟨hlog, hblobs, -⟩ := submitHandler_log tl env r w req hm hd
  refine ⟨submitCalls tl env req r.userID, hlog, ?_, ?_, ?_⟩
  · constructor
    · rintro ⟨key, body, ok, h⟩
      exact (mem_submitCalls_s3Put.mp h).1
    · intro hl
      exact ⟨_, _, _, mem_submitCalls_s3Put.mpr ⟨hl, rfl, rfl, rfl⟩⟩
  · intro key body ok h
    obtain ⟨-, hk, hb, -⟩ := mem_submitCalls_s3Put.mp h
    exact ⟨hk, hb⟩
  · intro hle
    have hl : ¬ req.Payload.length > 1024 := by omega
    have hsp : storedPayload env.jobID req.Payload = req.Payload := by
      unfold storedPayload; rw [if_neg hl]
    refine ⟨?_, ?_, ?_⟩
    · rw [hblobs, if_neg (fun h => hl h.1)]
    · intro j ok h
      obtain ⟨nf, -, -, hp⟩ := mem_submitCalls_persist h (by intro _ _ _ hc; cases hc)
      rw [(mem_persistCalls_jobsInsert hp).1]
      exact hsp
    · intro k ev ok h
      obtain ⟨nf, -, -, hp⟩ := mem_submitCalls_persist h (by intro _ _ _ hc; cases hc)
      rw [(mem_persistCalls_kafkaPublish hp).2.2.1, publishedEvent_payload, hsp]

/-- Witness for C7: the example submission, whose payload `test` stays inline. -/
theorem offload_iff_payload_over_1024_witness :
    exRequest.method = "POST".toList ∧
      ∃ tr, (submitHandler secondsCodec exSubmitEnv exRequest exEmptyWorld).1.log =
          exEmptyWorld.log ++ tr ∧
        ((∃ key body ok, Effect.s3Put key body ok ∈ tr) ↔ ("test".toList).length > 1024) := by
  refine ⟨rfl, ?_⟩
  obtain ⟨tr, h1, h2, -⟩ := offload_iff_payload_over_1024 secondsCodec exSubmitEnv exRequest
    exEmptyWorld ⟨"p".toList, "test".toList, [], [], 0⟩ rfl rfl
  exact ⟨tr, h1, h2⟩

end Ingestion

namespace Ingestion

/-- C8, amended.  For a `POST /submit` whose body decodes and whose payload is
longer than 1024 bytes, every Job row that `submitHandler` writes successfully
and every submission event it publishes has the payload field
`s3:payloads/<job_id>`, where `<job_id>` is the id of the Job row, the key of
the event and the id returned to the client on 201. -/
theorem large_payload_stored_as_s3_reference (tl : TimeLib) (env : SubmitEnv) (r : HttpRequest)
    (w : World) (req : JobRequest) (hm : r.method = "POST".toList)
    (hd : decodeJobRequest r.body = some req) (hl : req.Payload.length > 1024) :
    ∃ tr, (submitHandler tl env r w).1.log = w.log ++ tr ∧
      (∀ j, Effect.jobsInsert j true ∈ tr →
        j.job_id = env.jobID ∧ j.payload = "s3:payloads/".toList ++ env.jobID) ∧
      (∀ k ev ok, Effect.kafkaPublish k ev ok ∈ tr →
        k = env.jobID ∧
        List.lookup "payload".toList ev = some (JVal.str ("s3:payloads/".toList ++ env.jobID))) ∧
      ((submitHandler tl env r w).2.code = 201 →
        (submitHandler tl env r w).2.body =
          .job ⟨env.jobID, "Submitted".toList, "Job submitted successfully".toList⟩) := by
  obtain ⟨hlog, -, -⟩ := submitHandler_log tl env r w req hm hd
  have hsp : storedPayload env.jobID req.Payload = "s3:payloads/".toList ++ env.jobID := by
    unfold storedPayload; rw [if_pos hl]; rfl
  refine ⟨submitCalls tl env req r.userID, hlog, ?_, ?_, ?_⟩
  · intro j h
    obtain ⟨nf, -, -, hp⟩ := mem_submitCalls_persist h (by intro _ _ _ hc; cases hc)
    rw [(mem_persistCalls_jobsInsert hp).1]
    exact ⟨rfl, hsp⟩
  · intro k ev ok h
    obtain ⟨nf, -, -, hp⟩ := mem_submitCalls_persist h (by intro _ _ _ hc; cases hc)
    obtain ⟨-, hk, hev, -⟩ := mem_persistCalls_kafkaPublish hp
    rw [hev, publishedEvent_payload, hsp]
    exact ⟨hk, rfl⟩
  · intro h201
    obtain ⟨-, -, -, _, _, -, -, -, -, -, -, hresp, -⟩ := submitHandler_created h201
    rw [hresp]

/-- Witness for C8, amended: the example submission of 1025 bytes. -/
theorem large_payload_stored_as_s3_reference_witness :
    (List.replicate 1025 'A').length > 1024 ∧
      ∃ tr, (submitHandler secondsCodec exSubmitEnv exLargeRequest exEmptyWorld).1.log =
          exEmptyWorld.log ++ tr ∧
        ∀ j, Effect.jobsInsert j true ∈ tr →
          j.job_id = "j9".toList ∧ j.payload = "s3:payloads/".toList ++ "j9".toList := by
  have hlen : (List.replicate 1025 'A').length > 1024 := by
    rw [List.length_replicate]; decide
  refine ⟨hlen, ?_⟩
  obtain ⟨tr, h1, h2, -⟩ := large_payload_stored_as_s3_reference secondsCodec exSubmitEnv
    exLargeRequest exEmptyWorld ⟨"p".toList, List.replicate 1025 'A', [], [], 0⟩ rfl rfl hlen
  exact ⟨tr, h1, h2⟩

set_option maxRecDepth 8000 in
/-- C8 as stated fails: the example submission of 1025 bytes is answered 201
with job id `j9`, and the Job row written has the payload `s3:payloads/j9`,
which is not `blob:payloads/j9`. -/
theorem large_payload_reference_is_not_blob :
    (submitHandler secondsCodec exSubmitEnv exLargeRequest exEmptyWorld).2 =
        ⟨201, .job ⟨"j9".toList, "Submitted".toList, "Job submitted successfully".toList⟩⟩ ∧
      ∃ job, (submitHandler secondsCodec exSubmitEnv exLargeRequest exEmptyWorld).1.jobs = [job] ∧
        job.job_id = "j9".toList ∧ job.payload = "s3:payloads/j9".toList ∧
        job.payload ≠ "blob:payloads/j9".toList := by
  have hlen : (List.replicate 1025 'A').length > 1024 := by
    rw [List.length_replicate]; decide
  have hcode : (submitHandler secondsCodec exSubmitEnv exLargeRequest exEmptyWorld).2.code = 201 := by
    unfold submitHandler
    rw [if_neg (by decide), show decodeJobRequest exLargeRequest.body =
      some ⟨"p".toList, List.replicate 1025 'A', [], [], 0⟩ from rfl]
    simp only
    rw [if_pos hlen]
    rfl
  obtain ⟨-, -, -, req, nf, hdec, hfire, -, hjobs, -, -, hresp, -⟩ := submitHandler_created hcode
  have hreq : req = ⟨"p".toList, List.replicate 1025 'A', [], [], 0⟩ :=
    (Option.some.inj hdec).symm
  subst hreq
  have hsp : storedPayload "j9".toList (List.replicate 1025 'A') = "s3:payloads/j9".toList := by
    unfold storedPayload
    rw [if_pos hlen]; rfl
  exact ⟨hresp, jobRow exSubmitEnv _ "u".toList nf, hjobs, rfl, hsp,
    fun h => absurd (hsp.symm.trans h) (by decide)⟩

end Ingestion

theorem lookup_putBlob (key body : Str) (blobs : List (Str × Str)) :
    List.lookup key (putBlob key body blobs) = some body := by
  simp [putBlob, List.lookup]

namespace Worker

theorem log_subset_handleReschedule (env : WorkerEnv) (ev : JobExecutionEvent) (w : World) :
    ∀ e ∈ w.log, e ∈ (handleReschedule env ev w).log := by
  intro e he
  unfold handleReschedule
  split
  · exact he
  · simp only
    split
    · simp [World.emit, he]
    · split <;> simp [World.emit, he]

theorem log_subset_updateJobStatus (env : WorkerEnv) (jobID userID status : Str) (w : World) :
    ∀ e ∈ w.log, e ∈ (updateJobStatus env jobID userID status w).log := by
  intro e he
  unfold updateJobStatus
  split
  · simp [World.emit, he]
  · simp only
    split
    · simp [World.emit, he]
    · split <;> simp [World.emit, he]

/-- The run insert that `executeAndRecord` attempts is in the log. -/
theorem runInsert_mem_executeAndRecord (tl : TimeLib) (env : WorkerEnv) (msg : Message)
    (ev : JobExecutionEvent) (w : World) :
    Effect.runInsert (runRecord tl env ev (execute env ev.Payload)) env.runInsertOk ∈
      (executeAndRecord tl env msg ev w).log := by
  unfold executeAndRecord
  simp only
  cases hr : env.runInsertOk
  · simp [World.emit]
  · simp only [Bool.not_true, Bool.false_eq_true, if_false, World.emit, List.mem_append,
      List.mem_singleton]
    left
    split
    · exact log_subset_handleReschedule _ _ _ _ (by simp)
    · exact log_subset_updateJobStatus _ _ _ _ _ _ (by simp)

theorem log_subset_executeAndRecord (tl : TimeLib) (env : WorkerEnv) (msg : Message)
    (ev : JobExecutionEvent) (w : World) :
    ∀ e ∈ w.log, e ∈ (executeAndRecord tl env msg ev w).log := by
  intro e he
  unfold executeAndRecord
  simp only
  cases hr : env.runInsertOk
  · simp [World.emit, he]
  · simp only [Bool.not_true, Bool.false_eq_true, if_false, World.emit, List.mem_append,
      List.mem_singleton]
    left
    split
    · exact log_subset_handleReschedule _ _ _ _ (by simp [he])
    · exact log_subset_updateJobStatus _ _ _ _ _ _ (by simp [he])

theorem execute_echo (env : WorkerEnv) (payload : Str)
    (hcmd : hasPrefix payload "cmd:".toList = false) :
    execute env payload = ⟨"COMPLETED".toList, "Success: ".toList ++ payload, []⟩ := by
  unfold execute
  rw [if_neg (by rw [hcmd]; decide)]
  split <;> rfl

end Worker

/-- C9. Let a `POST /submit` carry a payload longer than 1024 bytes that does
not begin with `cmd:`, and let the upload succeed.  Then ingress uploads the
payload under `payloads/<job_id>` and its blob store returns it under that key.
Let the worker process a dispatch event whose payload is the reference ingress
stored, with a blob store that returns under that key what ingress wrote and a
download that succeeds.  Then the worker recognises the reference, downloads
the key ingress wrote, attempts a run insert, and every run record it writes
is COMPLETED with output `Success: ` followed by the submitted payload, so the
output contains the payload verbatim. -/
theorem offloaded_payload_round_trip (tl : TimeLib) (senv : Ingestion.SubmitEnv)
    (r : Ingestion.HttpRequest) (w : World) (req : Ingestion.JobRequest)
    (wenv : Worker.WorkerEnv) (msg : Worker.Message) (w' : World) (body : Body)
    (ev : Worker.JobExecutionEvent)
    (hm : r.method = "POST".toList) (hd : Ingestion.decodeJobRequest r.body = some req)
    (hl : req.Payload.length > 1024) (hcmd : hasPrefix req.Payload "cmd:".toList = false)
    (hput : senv.s3PutOk = true)
    (hb : msg.Body = some body) (hde : Worker.decodeJobExecutionEvent body = some ev)
    (hpay : ev.Payload = Ingestion.storedPayload senv.jobID req.Payload)
    (hget : wenv.s3GetOk = true) (hread : wenv.s3ReadOk = true)
    (hblob : List.lookup ("payloads/".toList ++ senv.jobID) w'.blobs = some req.Payload) :
    Effect.s3Put ("payloads/".toList ++ senv.jobID) req.Payload true ∈
        (Ingestion.submitHandler tl senv r w).1.log ∧
      List.lookup ("payloads/".toList ++ senv.jobID) (Ingestion.submitHandler tl senv r w).1.blobs =
        some req.Payload ∧
      hasPrefix ev.Payload "s3:".toList = true ∧
      trimPrefix ev.Payload "s3:".toList = "payloads/".toList ++ senv.jobID ∧
      Effect.s3Get ("payloads/".toList ++ senv.jobID) true ∈
        (Worker.processMessage tl wenv msg w').log ∧
      (∃ run, Effect.runInsert run wenv.runInsertOk ∈ (Worker.processMessage tl wenv msg w').log ∧
        run.output = "Success: ".toList ++ req.Payload) ∧
      (∀ run ok, Effect.runInsert run ok ∈ (Worker.processMessage tl wenv msg w').log →
        Effect.runInsert run ok ∉ w'.log →
        run.status = "COMPLETED".toList ∧ run.output = "Success: ".toList ++ req.Payload ∧
          req.Payload <:+: run.output) := by
  obtain ⟨hlog, hblobs, -⟩ := Ingestion.submitHandler_log tl senv r w req hm hd
  have hsp : ev.Payload = "s3:".toList ++ ("payloads/".toList ++ senv.jobID) := by
    rw [hpay]; unfold Ingestion.storedPayload; rw [if_pos hl]
  have hpre : hasPrefix ev.Payload "s3:".toList = true := by rw [hsp]; rfl
  have htrim : trimPrefix ev.Payload "s3:".toList = "payloads/".toList ++ senv.jobID := by
    unfold trimPrefix; rw [if_pos hpre, hsp]; rfl
  have hres : Worker.resolvePayload wenv w'.blobs ev = some req.Payload := by
    unfold Worker.resolvePayload Worker.getBlob
    rw [if_pos hpre, htrim, hget, if_pos rfl, hblob]
    simp [hread]
  have hproc := @Worker.processMessage_of_resolved tl wenv msg w' body ev req.Payload hb hde hres
  have hfetch : Worker.fetchCalls ev = [Effect.s3Get ("payloads/".toList ++ senv.jobID) true] := by
    unfold Worker.fetchCalls; rw [if_pos hpre, htrim]
  have hsub : ∀ e ∈ w'.log ++ Worker.fetchCalls ev, e ∈ (Worker.processMessage tl wenv msg w').log := by
    intro e he
    rw [hproc]
    exact Worker.log_subset_executeAndRecord tl wenv msg _ _ e he
  refine ⟨?_, ?_, hpre, htrim, ?_, ?_, ?_⟩
  · rw [hlog]
    exact List.mem_append.mpr (Or.inr
      (Ingestion.mem_submitCalls_s3Put.mpr ⟨hl, rfl, rfl, hput.symm⟩))
  · rw [hblobs, if_pos ⟨hl, hput⟩]
    exact lookup_putBlob _ _ _
  · exact hsub _ (by rw [hfetch]; simp)
  · refine ⟨Worker.runRecord tl wenv { ev with Payload := req.Payload }
      (Worker.execute wenv req.Payload), ?_, ?_⟩
    · rw [hproc]
      exact Worker.runInsert_mem_executeAndRecord tl wenv msg _ _
    · show (Worker.execute wenv req.Payload).jobOutput = _
      rw [Worker.execute_echo wenv req.Payload hcmd]
  · intro run ok hrun hnew
    rw [hproc] at hrun
    rcases Worker.mem_executeAndRecord_runInsert hrun with h | ⟨h, -⟩
    · rw [hfetch] at h
      simp only [List.mem_append, List.mem_singleton] at h
      rcases h with h | h
      · exact absurd h hnew
      · cases h
    · subst h
      simp only [Worker.runRecord, Worker.execute_echo wenv req.Payload hcmd]
      exact ⟨trivial, trivial, (List.suffix_append _ _).isInfix⟩

set_option maxRecDepth 8000 in
/-- Witness for C9: the example submission of 1025 bytes `A` and the message
that carries its reference. -/
theorem offloaded_payload_round_trip_witness :
    (List.replicate 1025 'A').length > 1024 ∧
      hasPrefix (List.replicate 1025 'A') "cmd:".toList = false ∧
      ∃ run, Effect.runInsert run exWorkerEnv.runInsertOk ∈
          (Worker.processMessage secondsCodec exWorkerEnv exBlobMessage exBlobWorld).log ∧
        run.output = "Success: ".toList ++ List.replicate 1025 'A' := by
  have hlen : (List.replicate 1025 'A').length > 1024 := by
    rw [List.length_replicate]; decide
  have hsp : "s3:payloads/j9".toList =
      Ingestion.storedPayload "j9".toList (List.replicate 1025 'A') := by
    unfold Ingestion.storedPayload
    rw [if_pos hlen]; rfl
  exact ⟨hlen, rfl,
    (offloaded_payload_round_trip secondsCodec exSubmitEnv exLargeRequest exEmptyWorld
      ⟨"p".toList, List.replicate 1025 'A', [], [], 0⟩ exWorkerEnv exBlobMessage exBlobWorld
      (.object [("job_id".toList, .str "j9".toList), ("run_id".toList, .str "r9".toList),
        ("payload".toList, .str "s3:payloads/j9".toList)])
      ⟨"j9".toList, "r9".toList, [], "s3:payloads/j9".toList, [], [], [], []⟩
      rfl rfl hlen rfl rfl rfl rfl hsp rfl rfl rfl).2.2.2.2.2.1⟩

namespace Ingestion

theorem persistAndPublish_response (tl : TimeLib) (env : SubmitEnv) (req : JobRequest)
    (userID payload : Str) (nf : Time) (w : World) :
    (persistAndPublish tl env req userID payload nf w).2 =
      if env.jobsInsertOk = false then ⟨500, .text "Internal Storage Error".toList⟩
      else if env.kafkaOk = false then ⟨500, .text "Internal Messaging Error".toList⟩
      else ⟨201, .job ⟨env.jobID, "Submitted".toList, "Job submitted successfully".toList⟩⟩ := by
  unfold persistAndPublish
  cases hj : env.jobsInsertOk
  · rfl
  · cases hk : env.kafkaOk <;> rfl

/-- The response of `submitHandler` to a `POST` whose body decodes. -/
theorem submitHandler_response (tl : TimeLib) (env : SubmitEnv) (r : HttpRequest) (w : World)
    (req : JobRequest) (hm : r.method = "POST".toList) (hd : decodeJobRequest r.body = some req) :
    (submitHandler tl env r w).2 = submitResponse tl env req := by
  unfold submitHandler submitResponse
  rw [if_neg (not_not.mpr hm), hd]
  simp only
  by_cases hl : req.Payload.length > 1024
  · rw [if_pos hl]
    cases hs : env.s3PutOk
    · simp [hl]
    · simp only [Bool.not_true, Bool.false_eq_true, if_false]
      rw [if_neg (fun h => Bool.noConfusion h.2), parseAndPersist_log]
      rcases hf : fireTime tl env req with _ | nf
      · rfl
      · exact persistAndPublish_response _ _ _ _ _ _ _
  · rw [if_neg hl, if_neg (fun h => hl h.1), parseAndPersist_log]
    rcases hf : fireTime tl env req with _ | nf
    · rfl
    · exact persistAndPublish_response _ _ _ _ _ _ _

/-- C10. For a `POST /submit` whose body decodes and whose `next_fire_at` is
empty or parses, `submitHandler` answers 201 if and only if the blob upload
(when the payload is longer than 1024 bytes), the Job-store write and the
Kafka publish all succeed.  On 201 the body carries status `Submitted` and the
job id that is the `job_id` of the Job row written and of the submission event
published.  The outcome of the user index write does not change the
response. -/
theorem created_iff_upload_store_publish_succeed (tl : TimeLib) (env : SubmitEnv)
    (r : HttpRequest) (w : World) (req : JobRequest) (nf : Time)
    (hm : r.method = "POST".toList) (hd : decodeJobRequest r.body = some req)
    (hf : fireTime tl env req = some nf) :
    ((submitHandler tl env r w).2.code = 201 ↔
      (req.Payload.length > 1024 → env.s3PutOk = true) ∧ env.jobsInsertOk = true ∧
        env.kafkaOk = true) ∧
    ((submitHandler tl env r w).2.code = 201 →
      (submitHandler tl env r w).2 =
        ⟨201, .job ⟨env.jobID, "Submitted".toList, "Job submitted successfully".toList⟩⟩ ∧
      Effect.jobsInsert (jobRow env req r.userID nf) true ∈ (submitHandler tl env r w).1.log ∧
      (jobRow env req r.userID nf).job_id = env.jobID ∧
      Effect.kafkaPublish env.jobID (publishedEvent tl env req r.userID nf) true ∈
        (submitHandler tl env r w).1.log ∧
      List.lookup "job_id".toList (publishedEvent tl env req r.userID nf) =
        some (JVal.str env.jobID)) ∧
    (∀ b, (submitHandler tl { env with userJobsInsertOk := b } r w).2 =
      (submitHandler tl env r w).2) := by
  refine ⟨?_, ?_, ?_⟩
  · rw [submitHandler_response tl env r w req hm hd]
    unfold submitResponse
    rw [hf]
    by_cases hl : req.Payload.length > 1024 <;> cases hs : env.s3PutOk <;>
      cases hj : env.jobsInsertOk <;> cases hk : env.kafkaOk <;> simp [hl]
  · intro h201
    obtain ⟨-, -, -, req', nf', hd', hf', -, -, -, -, hresp, hlog⟩ := submitHandler_created h201
    rw [hd] at hd'
    cases hd'
    rw [hf] at hf'
    cases hf'
    refine ⟨hresp, ?_, rfl, ?_, rfl⟩
    · rw [hlog]; simp
    · rw [hlog]; simp
  · intro b
    rw [submitHandler_response tl env r w req hm hd,
      submitHandler_response tl { env with userJobsInsertOk := b } r w req hm hd]
    rfl

/-- Witness for C10: the example submission is answered 201, also when the
user index write fails. -/
theorem created_iff_upload_store_publish_succeed_witness :
    fireTime secondsCodec exSubmitEnv ⟨"p".toList, "test".toList, [], [], 0⟩ = some 7500000000 ∧
      (submitHandler secondsCodec exSubmitEnv exRequest exEmptyWorld).2.code = 201 ∧
      (submitHandler secondsCodec { exSubmitEnv with userJobsInsertOk := false } exRequest
        exEmptyWorld).2 = (submitHandler secondsCodec exSubmitEnv exRequest exEmptyWorld).2 :=
  ⟨rfl,
    (created_iff_upload_store_publish_succeed secondsCodec exSubmitEnv exRequest exEmptyWorld
      ⟨"p".toList, "test".toList, [], [], 0⟩ 7500000000 rfl rfl rfl).1.mpr
        ⟨by decide, rfl, rfl⟩,
    (created_iff_upload_store_publish_succeed secondsCodec exSubmitEnv exRequest exEmptyWorld
      ⟨"p".toList, "test".toList, [], [], 0⟩ 7500000000 rfl rfl rfl).2.2 false⟩

end Ingestion

namespace Ingestion

/-- The handler on a `POST` whose body decodes: the upload, then the fire
time, then `persistAndPublish`. -/
theorem submitHandler_post (tl : TimeLib) (env : SubmitEnv) (r : HttpRequest) (w : World)
    (req : JobRequest) (hm : r.method = "POST".toList) (hd : decodeJobRequest r.body = some req) :
    submitHandler tl env r w =
      if req.Payload.length > 1024 ∧ env.s3PutOk = false then
        (w.emit (.s3Put ("payloads/".toList ++ env.jobID) req.Payload false),
          ⟨500, .text "Failed to store payload".toList⟩)
      else
        match fireTime tl env req with
        | none => (afterOffload env req w,
            ⟨400, .text "Invalid next_fire_at format (RFC3339 required)".toList⟩)
        | some nf =>
          persistAndPublish tl env req r.userID (storedPayload env.jobID req.Payload) nf
            (afterOffload env req w) := by
  unfold submitHandler
  rw [if_neg (not_not.mpr hm), hd]
  simp only
  unfold afterOffload storedPayload
  by_cases hl : req.Payload.length > 1024
  · rw [if_pos hl, if_pos hl, if_pos hl]
    cases hs : env.s3PutOk
    · rw [if_pos (And.intro hl rfl)]; rfl
    · simp only [Bool.not_true, Bool.false_eq_true, if_false]
      rw [if_neg (fun h => Bool.noConfusion h.2), parseAndPersist_log]
  · rw [if_neg hl, if_neg hl, if_neg hl, if_neg (fun h => hl h.1), parseAndPersist_log]

theorem afterOffload_fields (env : SubmitEnv) (req : JobRequest) (w : World) :
    (afterOffload env req w).jobs = w.jobs ∧ (afterOffload env req w).userJobs = w.userJobs ∧
      (afterOffload env req w).queue = w.queue ∧ (afterOffload env req w).runs = w.runs ∧
      (afterOffload env req w).log = w.log ++ (if req.Payload.length > 1024 then
        [Effect.s3Put ("payloads/".toList ++ env.jobID) req.Payload true] else []) := by
  unfold afterOffload
  split <;> simp [World.emit]

end Ingestion
namespace Ingestion

theorem persistAndPublish_jobs (tl : TimeLib) (env : SubmitEnv) (req : JobRequest)
    (userID payload : Str) (nf : Time) (w : World) :
    (persistAndPublish tl env req userID payload nf w).1.jobs =
        (if env.jobsInsertOk then
          insertJob ⟨env.jobID, req.ProjectID, userID, payload, req.CronSchedule, nf,
            "PENDING".toList, env.now, env.now, req.MaxRetries, 0, Int.tmod env.now 1024⟩ w.jobs
        else w.jobs) ∧
      (env.jobsInsertOk = false →
        (persistAndPublish tl env req userID payload nf w).1.userJobs = w.userJobs) := by
  unfold persistAndPublish
  cases hj : env.jobsInsertOk
  · simp [World.emit]
  · cases hk : env.kafkaOk <;> by_cases hu : userID = [] <;>
      cases hi : env.userJobsInsertOk <;> simp [World.emit, hu]

theorem not_mem_offloadCalls {env : SubmitEnv} {req : JobRequest} {e : Effect}
    (hne : ∀ key body ok, e ≠ Effect.s3Put key body ok) : e ∉ offloadCalls env req := by
  unfold offloadCalls
  split
  · intro h
    exact hne _ _ _ (List.mem_singleton.mp h)
  · simp

/-- The calls of `submitHandler` when the Job insert is reached. -/
theorem submitCalls_of_reached {tl : TimeLib} {env : SubmitEnv} {req : JobRequest} {userID : Str}
    {nf : Time} (hf : fireTime tl env req = some nf)
    (hup : req.Payload.length > 1024 → env.s3PutOk = true) :
    submitCalls tl env req userID = offloadCalls env req ++ persistCalls tl env req userID nf := by
  unfold submitCalls
  rw [if_neg (fun h => by have := hup h.1; rw [h.2] at this; exact Bool.noConfusion this), hf]

/-- C11. For a `POST /submit` whose body decodes and that reaches the insert
into the Job store (the fire time is settled and the upload, if any,
succeeded), a failing insert makes `submitHandler` answer 500 with the storage
error; the calls `tr` it has made end with the failed insert and contain no
write to the user index and no Kafka publish, and the Job store and the user
index are as they were. -/
theorem job_store_failure_stops_submission (tl : TimeLib) (env : SubmitEnv) (r : HttpRequest)
    (w : World) (req : JobRequest) (nf : Time)
    (hm : r.method = "POST".toList) (hd : decodeJobRequest r.body = some req)
    (hf : fireTime tl env req = some nf)
    (hup : req.Payload.length > 1024 → env.s3PutOk = true)
    (hfail : env.jobsInsertOk = false) :
    (submitHandler tl env r w).2 = ⟨500, .text "Internal Storage Error".toList⟩ ∧
    ∃ tr, (submitHandler tl env r w).1.log = w.log ++ tr ∧
      tr = offloadCalls env req ++ [Effect.jobsInsert (jobRow env req r.userID nf) false] ∧
      (∀ u ok, Effect.userJobsInsert u ok ∉ tr) ∧
      (∀ k v ok, Effect.kafkaPublish k v ok ∉ tr) ∧
      (submitHandler tl env r w).1.userJobs = w.userJobs ∧
      (submitHandler tl env r w).1.jobs = w.jobs := by
  have hcond : ¬ (req.Payload.length > 1024 ∧ env.s3PutOk = false) := fun h => by
    have := hup h.1; rw [h.2] at this; exact Bool.noConfusion this
  have hpost := submitHandler_post tl env r w req hm hd
  rw [if_neg hcond, hf] at hpost
  simp only at hpost
  have hcalls : submitCalls tl env req r.userID =
      offloadCalls env req ++ [Effect.jobsInsert (jobRow env req r.userID nf) false] := by
    rw [submitCalls_of_reached hf hup]
    unfold persistCalls
    rw [hfail]; rfl
  refine ⟨?_, _, ?_, rfl, ?_, ?_, ?_, ?_⟩
  · rw [hpost, persistAndPublish_response, if_pos hfail]
  · rw [(submitHandler_log tl env r w req hm hd).1, hcalls]
  · intro u ok h
    rcases List.mem_append.mp h with h | h
    · exact not_mem_offloadCalls (by intro _ _ _ hc; cases hc) h
    · cases List.mem_singleton.mp h
  · intro k v ok h
    rcases List.mem_append.mp h with h | h
    · exact not_mem_offloadCalls (by intro _ _ _ hc; cases hc) h
    · cases List.mem_singleton.mp h
  · rw [hpost, (persistAndPublish_jobs _ _ _ _ _ _ _).2 hfail, (afterOffload_fields env req w).2.1]
  · rw [hpost, (persistAndPublish_jobs _ _ _ _ _ _ _).1, hfail]
    exact (afterOffload_fields env req w).1

/-- Witness for C11: the example submission when the insert into `jobs`
fails. -/
theorem job_store_failure_stops_submission_witness :
    exSubmitEnvNoStore.jobsInsertOk = false ∧
      (submitHandler secondsCodec exSubmitEnvNoStore exRequest exEmptyWorld).2 =
        ⟨500, .text "Internal Storage Error".toList⟩ :=
  ⟨rfl, (job_store_failure_stops_submission secondsCodec exSubmitEnvNoStore exRequest exEmptyWorld
    ⟨"p".toList, "test".toList, [], [], 0⟩ 7500000000 rfl rfl rfl (by decide) rfl).1⟩

/-- C12. For a `POST /submit` whose body decodes and that reaches the insert
into the Job store, when the insert succeeds and the Kafka publish fails,
`submitHandler` answers 500 with the messaging error; the failed publish is the
last call it makes, and the Job row it wrote is in the Job store, with status
PENDING, when the handler returns. -/
theorem publish_failure_keeps_job_row (tl : TimeLib) (env : SubmitEnv) (r : HttpRequest)
    (w : World) (req : JobRequest) (nf : Time)
    (hm : r.method = "POST".toList) (hd : decodeJobRequest r.body = some req)
    (hf : fireTime tl env req = some nf)
    (hup : req.Payload.length > 1024 → env.s3PutOk = true)
    (hj : env.jobsInsertOk = true) (hk : env.kafkaOk = false) :
    (submitHandler tl env r w).2 = ⟨500, .text "Internal Messaging Error".toList⟩ ∧
    (submitHandler tl env r w).1.log =
      w.log ++ (offloadCalls env req ++
        Effect.jobsInsert (jobRow env req r.userID nf) true ::
          (userIndexCalls env r.userID nf ++
            [Effect.kafkaPublish env.jobID (publishedEvent tl env req r.userID nf) false])) ∧
    (submitHandler tl env r w).1.jobs = insertJob (jobRow env req r.userID nf) w.jobs ∧
    jobRow env req r.userID nf ∈ (submitHandler tl env r w).1.jobs ∧
    (jobRow env req r.userID nf).status = "PENDING".toList ∧
    (∀ j ∈ (submitHandler tl env r w).1.jobs, j.job_id = env.jobID →
      j = jobRow env req r.userID nf) := by
  have hcond : ¬ (req.Payload.length > 1024 ∧ env.s3PutOk = false) := fun h => by
    have := hup h.1; rw [h.2] at this; exact Bool.noConfusion this
  have hpost := submitHandler_post tl env r w req hm hd
  rw [if_neg hcond, hf] at hpost
  simp only at hpost
  have hjobs : (submitHandler tl env r w).1.jobs = insertJob (jobRow env req r.userID nf) w.jobs := by
    rw [hpost, (persistAndPublish_jobs _ _ _ _ _ _ _).1, hj, if_pos rfl,
      (afterOffload_fields env req w).1]
    rfl
  refine ⟨?_, ?_, hjobs, ?_, rfl, ?_⟩
  · rw [hpost, persistAndPublish_response, if_neg (by rw [hj]; decide), if_pos hk]
  · rw [(submitHandler_log tl env r w req hm hd).1, submitCalls_of_reached hf hup]
    unfold persistCalls
    rw [hj, hk, if_pos rfl]
  · rw [hjobs]
    unfold insertJob
    exact List.mem_append.mpr (Or.inr (List.mem_singleton.mpr rfl))
  · intro j hjm hid
    rw [hjobs] at hjm
    have hfil := insertJob_filter_id (jobRow env req r.userID nf) w.jobs
    have : j ∈ (insertJob (jobRow env req r.userID nf) w.jobs).filter
        (fun x => decide (x.job_id = (jobRow env req r.userID nf).job_id)) :=
      List.mem_filter.mpr ⟨hjm, by simpa using hid⟩
    rw [hfil] at this
    exact List.mem_singleton.mp this

/-- Witness for C12: the example submission when the Kafka publish fails. -/
theorem publish_failure_keeps_job_row_witness :
    exSubmitEnvNoBus.kafkaOk = false ∧
      (submitHandler secondsCodec exSubmitEnvNoBus exRequest exEmptyWorld).2 =
        ⟨500, .text "Internal Messaging Error".toList⟩ ∧
      jobRow exSubmitEnvNoBus ⟨"p".toList, "test".toList, [], [], 0⟩ "u".toList 7500000000 ∈
        (submitHandler secondsCodec exSubmitEnvNoBus exRequest exEmptyWorld).1.jobs :=
  ⟨rfl,
    (publish_failure_keeps_job_row secondsCodec exSubmitEnvNoBus exRequest exEmptyWorld
      ⟨"p".toList, "test".toList, [], [], 0⟩ 7500000000 rfl rfl rfl (by decide) rfl rfl).1,
    (publish_failure_keeps_job_row secondsCodec exSubmitEnvNoBus exRequest exEmptyWorld
      ⟨"p".toList, "test".toList, [], [], 0⟩ 7500000000 rfl rfl rfl (by decide) rfl rfl).2.2.2.1⟩

end Ingestion

namespace Ingestion

set_option maxRecDepth 8000 in
/-- C13 as stated fails, at two requests.  The first is a `POST` with a
well-formed body whose `next_fire_at` is the text `soon`, which does not parse;
its payload is 1025 bytes and the upload, which the handler attempts before it
looks at `next_fire_at`, fails: the response is 500, not 400.  The second is a
`POST` whose body is a well-formed object followed by the text `xyz`, so not
valid JSON: the decoder reads the object only, the response is 201 and a Job
row is written. -/
theorem invalid_submission_not_answered_400 :
    exLargeBadTimeRequest.method = "POST".toList ∧
      decodeJobRequest exLargeBadTimeRequest.body =
        some ⟨"p".toList, List.replicate 1025 'A', [], "soon".toList, 0⟩ ∧
      secondsCodec.parse "soon".toList = none ∧
      (submitHandler secondsCodec exSubmitEnvNoBlob exLargeBadTimeRequest exEmptyWorld).2 =
        ⟨500, .text "Failed to store payload".toList⟩ ∧
      (submitHandler secondsCodec exSubmitEnvNoBlob exLargeBadTimeRequest exEmptyWorld).2.code ≠
        400 ∧
      exTrailingRequest.method = "POST".toList ∧
      exTrailingRequest.body = .trailing [("project_id".toList, .str "p".toList),
        ("payload".toList, .str "test".toList)] ∧
      (submitHandler secondsCodec exSubmitEnv exTrailingRequest exEmptyWorld).2.code = 201 ∧
      (submitHandler secondsCodec exSubmitEnv exTrailingRequest exEmptyWorld).1.jobs =
        [jobRow exSubmitEnv ⟨"p".toList, "test".toList, [], [], 0⟩ "u".toList 7500000000] := by
  have hlen : (List.replicate 1025 'A').length > 1024 := by
    rw [List.length_replicate]; decide
  have hresp : (submitHandler secondsCodec exSubmitEnvNoBlob exLargeBadTimeRequest
      exEmptyWorld).2 = ⟨500, .text "Failed to store payload".toList⟩ := by
    rw [submitHandler_response secondsCodec exSubmitEnvNoBlob exLargeBadTimeRequest exEmptyWorld
      ⟨"p".toList, List.replicate 1025 'A', [], "soon".toList, 0⟩ rfl rfl]
    unfold submitResponse
    exact if_pos (And.intro hlen rfl)
  refine ⟨rfl, rfl, by decide, hresp, ?_, rfl, rfl, by decide, by decide⟩
  rw [hresp]
  decide

/-- C13, amended.  A request whose method is not `POST` is answered 405 and a
`POST` whose body the decoder rejects (the body does not begin with a JSON
value that decodes into the request) is answered 400, the world being left as
it was.  A `POST` whose body decodes and whose non-empty `next_fire_at` does
not parse is answered 400 when its payload is at most 1024 bytes or its upload
succeeded; the handler has then made no call but that upload, and the Job store
and the user index are as they were.  Text that follows a JSON object in the
body is not read: such a body is handled like the object alone. -/
theorem rejected_requests_write_nothing (tl : TimeLib) (env : SubmitEnv) (r : HttpRequest)
    (w : World) :
    (r.method ≠ "POST".toList →
      submitHandler tl env r w = (w, ⟨405, .text "Method not allowed".toList⟩)) ∧
    (r.method = "POST".toList → decodeJobRequest r.body = none →
      submitHandler tl env r w = (w, ⟨400, .text "Invalid JSON".toList⟩)) ∧
    (∀ req, r.method = "POST".toList → decodeJobRequest r.body = some req →
      req.NextFireAt ≠ [] → tl.parse req.NextFireAt = none →
      (req.Payload.length > 1024 → env.s3PutOk = true) →
      (submitHandler tl env r w).2 =
          ⟨400, .text "Invalid next_fire_at format (RFC3339 required)".toList⟩ ∧
        (submitHandler tl env r w).1.jobs = w.jobs ∧
        (submitHandler tl env r w).1.userJobs = w.userJobs ∧
        (submitHandler tl env r w).1.log = w.log ++ offloadCalls env req ∧
        (∀ e ∈ offloadCalls env req,
          (∀ j ok, e ≠ Effect.jobsInsert j ok) ∧ (∀ u ok, e ≠ Effect.userJobsInsert u ok) ∧
            (∀ k v ok, e ≠ Effect.kafkaPublish k v ok))) ∧
    (decodeJobRequest .invalid = none ∧
      ∀ o, decodeJobRequest (.trailing o) = decodeJobRequest (.object o) ∧
        submitHandler tl env ⟨r.method, r.userID, .trailing o⟩ w =
          submitHandler tl env ⟨r.method, r.userID, .object o⟩ w) := by
  refine ⟨?_, ?_, ?_, rfl, fun o => ⟨rfl, rfl⟩⟩
  · intro hm
    unfold submitHandler
    rw [if_pos hm]
  · intro hm hd
    unfold submitHandler
    rw [if_neg (not_not.mpr hm), hd]
  · intro req hm hd hne hparse hup
    have hf : fireTime tl env req = none := by
      unfold fireTime
      rw [if_pos hne, hparse]
    have hcond : ¬ (req.Payload.length > 1024 ∧ env.s3PutOk = false) := fun h => by
      have := hup h.1; rw [h.2] at this; exact Bool.noConfusion this
    have hpost := submitHandler_post tl env r w req hm hd
    rw [if_neg hcond, hf] at hpost
    simp only at hpost
    refine ⟨by rw [hpost], ?_, ?_, ?_, ?_⟩
    · rw [hpost]; exact (afterOffload_fields env req w).1
    · rw [hpost]; exact (afterOffload_fields env req w).2.1
    · rw [(submitHandler_log tl env r w req hm hd).1]
      unfold submitCalls
      rw [if_neg hcond, hf]
      simp
    · intro e he
      unfold offloadCalls at he
      split at he
      · cases List.mem_singleton.mp he
        refine ⟨?_, ?_, ?_⟩
        · intro _ _ hc; cases hc
        · intro _ _ hc; cases hc
        · intro _ _ _ hc; cases hc
      · simp at he

/-- Witness for C13, amended: the example `PUT` is answered 405, the example
`POST` whose body is not JSON at all is answered 400, and the example `POST`
with `next_fire_at` `soon` is answered 400. -/
theorem rejected_requests_write_nothing_witness :
    submitHandler secondsCodec exSubmitEnv exPutRequest exEmptyWorld =
        (exEmptyWorld, ⟨405, .text "Method not allowed".toList⟩) ∧
      submitHandler secondsCodec exSubmitEnv ⟨"POST".toList, "u".toList, .invalid⟩ exEmptyWorld =
        (exEmptyWorld, ⟨400, .text "Invalid JSON".toList⟩) ∧
      (submitHandler secondsCodec exSubmitEnv exBadTimeRequest exEmptyWorld).2 =
        ⟨400, .text "Invalid next_fire_at format (RFC3339 required)".toList⟩ :=
  ⟨(rejected_requests_write_nothing secondsCodec exSubmitEnv exPutRequest exEmptyWorld).1
      (by decide),
    (rejected_requests_write_nothing secondsCodec exSubmitEnv
      ⟨"POST".toList, "u".toList, .invalid⟩ exEmptyWorld).2.1 rfl rfl,
    ((rejected_requests_write_nothing secondsCodec exSubmitEnv exBadTimeRequest
      exEmptyWorld).2.2.1
      ⟨"p".toList, "test".toList, [], "soon".toList, 0⟩ rfl rfl (by decide) (by decide)
      (by decide)).1⟩

end Ingestion

namespace Worker

/-- A message whose body is absent or does not decode is dropped. -/
theorem processMessage_of_undecodable {tl : TimeLib} {env : WorkerEnv} {msg : Message}
    {w : World} (h : msg.Body.bind decodeJobExecutionEvent = none) :
    processMessage tl env msg w = w := by
  unfold processMessage
  rcases hB : msg.Body with _ | body
  · rfl
  · rw [hB] at h
    simp only [Option.some_bind] at h
    simp only
    rw [h]

/-- When the blob cannot be fetched or read, `processMessage` returns after
the download attempt. -/
theorem processMessage_of_unresolved {tl : TimeLib} {env : WorkerEnv} {msg : Message} {w : World}
    {body : Body} {ev : JobExecutionEvent}
    (hb : msg.Body = some body) (hd : decodeJobExecutionEvent body = some ev)
    (hres : resolvePayload env w.blobs ev = none) :
    hasPrefix ev.Payload "s3:".toList = true ∧
      processMessage tl env msg w =
        w.emit (.s3Get (trimPrefix ev.Payload "s3:".toList)
          (getBlob env w.blobs (trimPrefix ev.Payload "s3:".toList)).isSome) := by
  unfold processMessage
  rw [hb]
  simp only
  rw [hd]
  simp only
  unfold resolvePayload at hres
  by_cases hP : hasPrefix ev.Payload "s3:".toList = true
  · rw [if_pos hP] at hres
    rw [if_pos hP]
    refine ⟨hP, ?_⟩
    rcases hG : getBlob env w.blobs (trimPrefix ev.Payload "s3:".toList) with _ | blob
    · rfl
    · rw [hG] at hres
      simp only at hres ⊢
      cases hR : env.s3ReadOk
      · rfl
      · rw [hR] at hres; simp at hres
  · rw [if_neg hP] at hres
    cases hres

/-- The three ways a call of `processMessage` can go. -/
theorem processMessage_cases (tl : TimeLib) (env : WorkerEnv) (msg : Message) (w : World) :
    processMessage tl env msg w = w ∨
      (∃ key ok, processMessage tl env msg w = w.emit (.s3Get key ok)) ∨
      (∃ body ev payload, msg.Body = some body ∧ decodeJobExecutionEvent body = some ev ∧
        resolvePayload env w.blobs ev = some payload ∧
        processMessage tl env msg w =
          executeAndRecord tl env msg { ev with Payload := payload }
            { w with log := w.log ++ fetchCalls ev }) := by
  rcases hB : msg.Body with _ | body
  · exact Or.inl (processMessage_of_undecodable (by rw [hB]; rfl))
  rcases hD : decodeJobExecutionEvent body with _ | ev
  · exact Or.inl (processMessage_of_undecodable (by rw [hB]; exact hD))
  rcases hR : resolvePayload env w.blobs ev with _ | payload
  · exact Or.inr (Or.inl ⟨_, _, (processMessage_of_unresolved hB hD hR).2⟩)
  · exact Or.inr (Or.inr ⟨body, ev, payload, rfl, hD, hR, processMessage_of_resolved hB hD hR⟩)

/-- The calls of `handleReschedule`: the Job update and the insert into B. -/
theorem handleReschedule_log (env : WorkerEnv) (ev : JobExecutionEvent) (w : World) :
    ∃ tr, (handleReschedule env ev w).log = w.log ++ tr ∧
      ∀ e ∈ tr, (∃ t s ok, e = Effect.jobsReschedule ev.JobID t s ok) ∨
        (∃ t s ok, e = Effect.queueInsert s t ev.JobID none ok) := by
  unfold handleReschedule
  rcases env.cronParse ev.CronSchedule with _ | next
  · exact ⟨[], by simp, by simp⟩
  · simp only
    cases env.jobsUpdateOk
    · refine ⟨[Effect.jobsReschedule ev.JobID (next env.cronNow) ((env.rand % 1024 : Nat) : Int)
        false], by simp [World.emit], ?_⟩
      intro e he
      exact Or.inl ⟨_, _, _, List.mem_singleton.mp he⟩
    · refine ⟨[Effect.jobsReschedule ev.JobID (next env.cronNow) ((env.rand % 1024 : Nat) : Int)
          true,
        Effect.queueInsert ((env.rand % 1024 : Nat) : Int) (next env.cronNow) ev.JobID none
          env.queueInsertOk], ?_, ?_⟩
      · cases env.queueInsertOk <;> simp [World.emit]
      · intro e he
        simp only [List.mem_cons, List.mem_singleton, List.not_mem_nil, or_false] at he
        rcases he with he | he
        · exact Or.inl ⟨_, _, _, he⟩
        · exact Or.inr ⟨_, _, _, he⟩

/-- The calls of `updateJobStatus`: the Job update and the two calls on the
user index. -/
theorem updateJobStatus_log (env : WorkerEnv) (jobID userID status : Str) (w : World) :
    ∃ tr, (updateJobStatus env jobID userID status w).log = w.log ++ tr ∧
      ∀ e ∈ tr, (∃ ok, e = Effect.jobsUpdateStatus jobID status ok) ∨
        (∃ ok, e = Effect.userJobsSelect userID jobID ok) ∨
        (∃ t ok, e = Effect.userJobsUpdate userID t jobID status ok) := by
  unfold updateJobStatus
  cases env.jobsUpdateOk
  · refine ⟨[Effect.jobsUpdateStatus jobID status false], by simp [World.emit], ?_⟩
    intro e he
    exact Or.inl ⟨_, List.mem_singleton.mp he⟩
  · simp only [Bool.not_true, Bool.false_eq_true, if_false]
    split
    · refine ⟨[Effect.jobsUpdateStatus jobID status true,
        Effect.userJobsSelect userID jobID false], by simp [World.emit], ?_⟩
      intro e he
      simp only [List.mem_cons, List.mem_singleton, List.not_mem_nil, or_false] at he
      rcases he with he | he
      · exact Or.inl ⟨_, he⟩
      · exact Or.inr (Or.inl ⟨_, he⟩)
    · rename_i u hu
      refine ⟨[Effect.jobsUpdateStatus jobID status true,
        Effect.userJobsSelect userID jobID true,
        Effect.userJobsUpdate userID u.created_at jobID status env.userUpdateOk], ?_, ?_⟩
      · cases env.userUpdateOk <;> simp [World.emit]
      · intro e he
        simp only [List.mem_cons, List.mem_singleton, List.not_mem_nil, or_false] at he
        rcases he with he | he | he
        · exact Or.inl ⟨_, he⟩
        · exact Or.inr (Or.inl ⟨_, he⟩)
        · exact Or.inr (Or.inr ⟨_, _, he⟩)

/-- The log after `executeAndRecord`: the shell command, if any, the run
insert and, when the insert succeeded, the lifecycle calls followed by the
delete of the message. -/
theorem executeAndRecord_log (tl : TimeLib) (env : WorkerEnv) (msg : Message)
    (ev : JobExecutionEvent) (w : World) :
    ∃ rest, (executeAndRecord tl env msg ev w).log =
        w.log ++ execCalls ev.Payload ++
          Effect.runInsert (runRecord tl env ev (execute env ev.Payload)) env.runInsertOk :: rest ∧
      (env.runInsertOk = false → rest = []) ∧
      (env.runInsertOk = true → ∃ mid, rest = mid ++ [Effect.sqsDelete msg.ReceiptHandle env.sqsDeleteOk] ∧
        ∀ e ∈ mid, (∃ t s ok, e = Effect.jobsReschedule ev.JobID t s ok) ∨
          (∃ t s ok, e = Effect.queueInsert s t ev.JobID none ok) ∨
          (∃ st ok, e = Effect.jobsUpdateStatus ev.JobID st ok) ∨
          (∃ ok, e = Effect.userJobsSelect ev.UserID ev.JobID ok) ∨
          (∃ t st ok, e = Effect.userJobsUpdate ev.UserID t ev.JobID st ok)) := by
  unfold executeAndRecord
  simp only
  cases hr : env.runInsertOk
  · refine ⟨[], ?_, fun _ => rfl, fun h => Bool.noConfusion h⟩
    simp [World.emit]
  · simp only [Bool.not_true, Bool.false_eq_true, if_false]
    split
    · obtain ⟨tr, htr, hmem⟩ := handleReschedule_log env ev
        ⟨w.jobs, w.userJobs, w.queue,
          insertRun (runRecord tl env ev (execute env ev.Payload)) w.runs, w.blobs,
          w.log ++ execCalls ev.Payload ++
            [Effect.runInsert (runRecord tl env ev (execute env ev.Payload)) true]⟩
      refine ⟨tr ++ [Effect.sqsDelete msg.ReceiptHandle env.sqsDeleteOk], ?_,
        fun h => Bool.noConfusion h, fun _ => ⟨tr, rfl, ?_⟩⟩
      · simp only [World.emit] at htr ⊢
        rw [htr]
        simp
      · intro e he
        rcases hmem e he with h | h
        · exact Or.inl h
        · exact Or.inr (Or.inl h)
    · obtain ⟨tr, htr, hmem⟩ := updateJobStatus_log env ev.JobID ev.UserID
        (execute env ev.Payload).jobStatus
        ⟨w.jobs, w.userJobs, w.queue,
          insertRun (runRecord tl env ev (execute env ev.Payload)) w.runs, w.blobs,
          w.log ++ execCalls ev.Payload ++
            [Effect.runInsert (runRecord tl env ev (execute env ev.Payload)) true]⟩
      refine ⟨tr ++ [Effect.sqsDelete msg.ReceiptHandle env.sqsDeleteOk], ?_,
        fun h => Bool.noConfusion h, fun _ => ⟨tr, rfl, ?_⟩⟩
      · simp only [World.emit] at htr ⊢
        rw [htr]
        simp
      · intro e he
        rcases hmem e he with h | h | h
        · exact Or.inr (Or.inr (Or.inl ⟨_, h⟩))
        · exact Or.inr (Or.inr (Or.inr (Or.inl h)))
        · obtain ⟨t, ok, h⟩ := h
          exact Or.inr (Or.inr (Or.inr (Or.inr ⟨t, _, ok, h⟩)))

end Worker

namespace Worker

/-- When the run insert fails, `executeAndRecord` stops there. -/
theorem executeAndRecord_run_failed {tl : TimeLib} {env : WorkerEnv} {msg : Message}
    {ev : JobExecutionEvent} {w : World} (hfail : env.runInsertOk = false) :
    executeAndRecord tl env msg ev w =
      { w with log := w.log ++ execCalls ev.Payload ++
        [Effect.runInsert (runRecord tl env ev (execute env ev.Payload)) false] } := by
  unfold executeAndRecord
  simp [hfail, World.emit]

theorem mem_execCalls {payload : Str} {e : Effect} (h : e ∈ execCalls payload) :
    e = Effect.exec (trimPrefix payload "cmd:".toList) := by
  unfold execCalls at h
  split at h
  · exact List.mem_singleton.mp h
  · simp at h

theorem mem_fetchCalls {ev : JobExecutionEvent} {e : Effect} (h : e ∈ fetchCalls ev) :
    e = Effect.s3Get (trimPrefix ev.Payload "s3:".toList) true := by
  unfold fetchCalls at h
  split at h
  · exact List.mem_singleton.mp h
  · simp at h

/-- C14. When the insert of the run record fails, `processMessage` leaves the
Job store, the user index, B and the run table as they were, and the calls `tr`
it has made are at most a blob download, a shell command and the failed run
insert: no delete of the bus message, no Job update, no user index call, no
reschedule and no insert into B.  When the payload resolves, the failed run
insert is among the calls. -/
theorem run_write_failure_stops_processing (tl : TimeLib) (env : WorkerEnv) (msg : Message)
    (w : World) (hfail : env.runInsertOk = false) :
    (processMessage tl env msg w).jobs = w.jobs ∧
    (processMessage tl env msg w).userJobs = w.userJobs ∧
    (processMessage tl env msg w).queue = w.queue ∧
    (processMessage tl env msg w).runs = w.runs ∧
    ∃ tr, (processMessage tl env msg w).log = w.log ++ tr ∧
      (∀ e ∈ tr, (∃ k ok, e = Effect.s3Get k ok) ∨ (∃ c, e = Effect.exec c) ∨
        (∃ run, e = Effect.runInsert run false)) ∧
      (∀ body ev payload, msg.Body = some body → decodeJobExecutionEvent body = some ev →
        resolvePayload env w.blobs ev = some payload →
        Effect.runInsert (runRecord tl env { ev with Payload := payload } (execute env payload))
          false ∈ tr) := by
  rcases hB : msg.Body with _ | body
  · rw [processMessage_of_undecodable (by rw [hB]; rfl)]
    exact ⟨rfl, rfl, rfl, rfl, [], by simp, by simp, by intro _ _ _ h; cases h⟩
  rcases hD : decodeJobExecutionEvent body with _ | ev
  · rw [processMessage_of_undecodable (by rw [hB]; exact hD)]
    refine ⟨rfl, rfl, rfl, rfl, [], by simp, by simp, ?_⟩
    intro b e p hb hd
    cases hb
    rw [hD] at hd
    cases hd
  rcases hR : resolvePayload env w.blobs ev with _ | payload
  · rw [(processMessage_of_unresolved hB hD hR).2]
    refine ⟨rfl, rfl, rfl, rfl, [_], rfl, ?_, ?_⟩
    · intro e he
      exact Or.inl ⟨_, _, List.mem_singleton.mp he⟩
    · intro b e p hb hd hr
      cases hb
      rw [hD] at hd
      cases hd
      rw [hR] at hr
      cases hr
  · rw [processMessage_of_resolved hB hD hR, executeAndRecord_run_failed hfail]
    refine ⟨rfl, rfl, rfl, rfl, fetchCalls ev ++ execCalls payload ++
      [Effect.runInsert (runRecord tl env { ev with Payload := payload } (execute env payload))
        false], by simp, ?_, ?_⟩
    · intro e he
      simp only [List.mem_append, List.mem_singleton] at he
      rcases he with (he | he) | he
      · exact Or.inl ⟨_, _, mem_fetchCalls he⟩
      · exact Or.inr (Or.inl ⟨_, mem_execCalls he⟩)
      · exact Or.inr (Or.inr ⟨_, he⟩)
    · intro b e p hb hd hr
      cases hb
      rw [hD] at hd
      cases hd
      rw [hR] at hr
      cases hr
      simp

/-- Witness for C14: the example message when the run insert fails. -/
theorem run_write_failure_stops_processing_witness :
    exWorkerEnvNoRun.runInsertOk = false ∧
      (processMessage secondsCodec exWorkerEnvNoRun exMessage exWorld).jobs = exWorld.jobs ∧
      (processMessage secondsCodec exWorkerEnvNoRun exMessage exWorld).queue = exWorld.queue :=
  ⟨rfl,
    (run_write_failure_stops_processing secondsCodec exWorkerEnvNoRun exMessage exWorld rfl).1,
    (run_write_failure_stops_processing secondsCodec exWorkerEnvNoRun exMessage exWorld
      rfl).2.2.1⟩

end Worker

namespace Worker

/-- Once the run insert has succeeded, `processMessage` goes on to delete the
bus message, whatever the lifecycle calls in between return. -/
theorem delete_issued_after_run_insert {tl : TimeLib} {env : WorkerEnv} {msg : Message}
    {w : World} {body : Body} {ev : JobExecutionEvent} {payload : Str}
    (hb : msg.Body = some body) (hd : decodeJobExecutionEvent body = some ev)
    (hres : resolvePayload env w.blobs ev = some payload) (hr : env.runInsertOk = true) :
    ∃ pre, (processMessage tl env msg w).log =
      pre ++ [Effect.sqsDelete msg.ReceiptHandle env.sqsDeleteOk] := by
  rw [processMessage_of_resolved hb hd hres]
  obtain ⟨rest, hlog, -, hrest⟩ := executeAndRecord_log tl env msg { ev with Payload := payload }
    { w with log := w.log ++ fetchCalls ev }
  obtain ⟨mid, hmid, -⟩ := hrest hr
  rw [hlog, hmid]
  exact ⟨_, by rw [← List.cons_append, ← List.append_assoc]⟩

/-- C15, the code at three failing inputs.  The example recurring job is
processed by a worker whose Job update fails, and by one whose insert into B
fails; the example one-shot job is processed by a worker whose Job status
update fails.  Each time the run insert has succeeded, the failed write is
followed by a successful delete of the bus message, so the message is
acknowledged and not redelivered.  In the first case the job is left without a
row in B. -/
theorem step6_failure_still_acknowledged :
    (processMessage secondsCodec exCronWorkerEnvNoUpdate exCronMessage exCronWorld).log =
        [Effect.runInsert ⟨"j1".toList, "r1".toList, "u".toList, "COMPLETED".toList, 5000000000,
            9000000000, "Success: test".toList, "w1".toList, []⟩ true,
          Effect.jobsReschedule "j1".toList 11000000000 7 false,
          Effect.sqsDelete "h1".toList true] ∧
      (processMessage secondsCodec exCronWorkerEnvNoUpdate exCronMessage exCronWorld).queue = [] ∧
      (processMessage secondsCodec exCronWorkerEnvNoQueue exCronMessage exCronWorld).log =
        [Effect.runInsert ⟨"j1".toList, "r1".toList, "u".toList, "COMPLETED".toList, 5000000000,
            9000000000, "Success: test".toList, "w1".toList, []⟩ true,
          Effect.jobsReschedule "j1".toList 11000000000 7 true,
          Effect.queueInsert 7 11000000000 "j1".toList none false,
          Effect.sqsDelete "h1".toList true] ∧
      (processMessage secondsCodec exCronWorkerEnvNoQueue exCronMessage exCronWorld).queue = [] ∧
      (processMessage secondsCodec exWorkerEnvNoUpdate exMessage exWorld).log =
        [Effect.runInsert ⟨"j1".toList, "r1".toList, "u".toList, "COMPLETED".toList, 5000000000,
            9000000000, "Success: test".toList, "w1".toList, []⟩ true,
          Effect.jobsUpdateStatus "j1".toList "COMPLETED".toList false,
          Effect.sqsDelete "h1".toList true] := by
  refine ⟨?_, ?_, ?_, ?_, ?_⟩ <;> decide

end Worker

namespace Worker

/-- When the payload names a blob and the download or the read of its body
fails, no payload is resolved. -/
theorem resolvePayload_of_fetch_failed {env : WorkerEnv} {blobs : List (Str × Str)}
    {ev : JobExecutionEvent} (hp : hasPrefix ev.Payload "s3:".toList = true)
    (hf : getBlob env blobs (trimPrefix ev.Payload "s3:".toList) = none ∨ env.s3ReadOk = false) :
    resolvePayload env blobs ev = none := by
  unfold resolvePayload
  rw [if_pos hp]
  rcases hG : getBlob env blobs (trimPrefix ev.Payload "s3:".toList) with _ | blob
  · rfl
  · rcases hf with hf | hf
    · rw [hG] at hf; cases hf
    · simp [hf]

set_option maxRecDepth 8000 in
/-- C16, counterexample.  The example message carries a dispatch event for job
`j9`, run `r9`, whose payload is the reference `s3:payloads/j9`, and the
download of the blob fails.  `processMessage` makes the failed download and
nothing else: the run table stays empty, so no FAILED run is recorded for
(`j9`, `r9`), and the message is not deleted. -/
theorem blob_fetch_failure_records_no_run :
    exBlobMessage.Body.bind decodeJobExecutionEvent =
        some ⟨"j9".toList, "r9".toList, [], "s3:payloads/j9".toList, [], [], [], []⟩ ∧
      getBlob exWorkerEnvNoFetch exBlobWorld.blobs "payloads/j9".toList = none ∧
      (processMessage secondsCodec exWorkerEnvNoFetch exBlobMessage exBlobWorld).runs = [] ∧
      (processMessage secondsCodec exWorkerEnvNoFetch exBlobMessage exBlobWorld).log =
        [Effect.s3Get "payloads/j9".toList false] ∧
      (∀ ok, Effect.sqsDelete exBlobMessage.ReceiptHandle ok ∉
        (processMessage secondsCodec exWorkerEnvNoFetch exBlobMessage exBlobWorld).log) := by
  refine ⟨by decide, by decide, by decide, by decide, ?_⟩
  intro ok
  rw [show (processMessage secondsCodec exWorkerEnvNoFetch exBlobMessage exBlobWorld).log =
    [Effect.s3Get "payloads/j9".toList false] from by decide]
  simp

/-- C16, amended.  For every dispatch event whose payload is a blob reference
(it begins with `s3:`) and whose blob download or read of the blob body fails,
`processMessage` makes the download attempt and nothing else: it writes no run
record, changes no Job, user-index or queue row, and does not delete the bus
message, which is thus left for redelivery. -/
theorem blob_fetch_failure_leaves_message (tl : TimeLib) (env : WorkerEnv) (msg : Message)
    (w : World) (body : Body) (ev : JobExecutionEvent)
    (hb : msg.Body = some body) (hd : decodeJobExecutionEvent body = some ev)
    (hp : hasPrefix ev.Payload "s3:".toList = true)
    (hf : getBlob env w.blobs (trimPrefix ev.Payload "s3:".toList) = none ∨
      env.s3ReadOk = false) :
    (processMessage tl env msg w).runs = w.runs ∧
      (processMessage tl env msg w).jobs = w.jobs ∧
      (processMessage tl env msg w).userJobs = w.userJobs ∧
      (processMessage tl env msg w).queue = w.queue ∧
      (∃ ok, (processMessage tl env msg w).log =
        w.log ++ [Effect.s3Get (trimPrefix ev.Payload "s3:".toList) ok]) ∧
      (∀ e ∈ (processMessage tl env msg w).log, e ∉ w.log →
        (∀ r ok, e ≠ Effect.runInsert r ok) ∧ (∀ h ok, e ≠ Effect.sqsDelete h ok)) := by
  obtain ⟨-, heq⟩ := @processMessage_of_unresolved tl env msg w body ev hb hd
    (resolvePayload_of_fetch_failed hp hf)
  rw [heq]
  refine ⟨rfl, rfl, rfl, rfl, ⟨_, rfl⟩, ?_⟩
  intro e he hne
  simp only [World.emit, List.mem_append, List.mem_singleton] at he
  rcases he with he | he
  · exact absurd he hne
  · subst he
    exact ⟨fun _ _ h => Effect.noConfusion h, fun _ _ h => Effect.noConfusion h⟩

set_option maxRecDepth 8000 in
/-- The amended C16 at the example message: once with a failing download, once
with a failing read of the downloaded body. -/
theorem blob_fetch_failure_leaves_message_witness :
    ((processMessage secondsCodec exWorkerEnvNoFetch exBlobMessage exBlobWorld).runs =
        exBlobWorld.runs) ∧
      ((processMessage secondsCodec exWorkerEnvNoRead exBlobMessage exBlobWorld).runs =
        exBlobWorld.runs) :=
  ⟨(blob_fetch_failure_leaves_message secondsCodec exWorkerEnvNoFetch exBlobMessage exBlobWorld
      (.object [("job_id".toList, .str "j9".toList), ("run_id".toList, .str "r9".toList),
        ("payload".toList, .str "s3:payloads/j9".toList)])
      ⟨"j9".toList, "r9".toList, [], "s3:payloads/j9".toList, [], [], [], []⟩
      rfl (by decide) (by decide) (Or.inl (by decide))).1,
    (blob_fetch_failure_leaves_message secondsCodec exWorkerEnvNoRead exBlobMessage exBlobWorld
      (.object [("job_id".toList, .str "j9".toList), ("run_id".toList, .str "r9".toList),
        ("payload".toList, .str "s3:payloads/j9".toList)])
      ⟨"j9".toList, "r9".toList, [], "s3:payloads/j9".toList, [], [], [], []⟩
      rfl (by decide) (by decide) (Or.inr (by decide))).1⟩

/-- C17.  For every bus message whose body is absent, or is present but does
not decode to a dispatch event, `processMessage` returns the world as it was:
no run record is written, no Job, user-index or queue row changes, and no call
is made, so in particular the message is not deleted. -/
theorem undecodable_message_is_left_in_place (tl : TimeLib) (env : WorkerEnv) (msg : Message)
    (w : World)
    (h : msg.Body = none ∨ ∃ body, msg.Body = some body ∧ decodeJobExecutionEvent body = none) :
    processMessage tl env msg w = w ∧
      (processMessage tl env msg w).runs = w.runs ∧
      (processMessage tl env msg w).jobs = w.jobs ∧
      (processMessage tl env msg w).userJobs = w.userJobs ∧
      (processMessage tl env msg w).queue = w.queue ∧
      (processMessage tl env msg w).log = w.log := by
  have heq : processMessage tl env msg w = w := by
    apply processMessage_of_undecodable
    rcases h with h | ⟨body, hb, hd⟩
    · rw [h]; rfl
    · rw [hb]; exact hd
  rw [heq]
  exact ⟨rfl, rfl, rfl, rfl, rfl, rfl⟩

/-- C17 at a message without a body and at a message whose body is not
JSON. -/
theorem undecodable_message_is_left_in_place_witness :
    processMessage secondsCodec exWorkerEnv exEmptyMessage exWorld = exWorld ∧
      processMessage secondsCodec exWorkerEnv exJunkMessage exWorld = exWorld :=
  ⟨(undecodable_message_is_left_in_place secondsCodec exWorkerEnv exEmptyMessage exWorld
      (Or.inl rfl)).1,
    (undecodable_message_is_left_in_place secondsCodec exWorkerEnv exJunkMessage exWorld
      (Or.inr ⟨.invalid, rfl, rfl⟩)).1⟩

end Worker

namespace Worker

/-- The outcome of a payload that begins with `cmd:`. -/
theorem execute_cmd (env : WorkerEnv) (payload : Str)
    (hcmd : hasPrefix payload "cmd:".toList = true) :
    (execute env payload).jobOutput = (env.shell (trimPrefix payload "cmd:".toList)).1 ∧
      ((env.shell (trimPrefix payload "cmd:".toList)).2 = none →
        (execute env payload).jobStatus = "COMPLETED".toList ∧
          (execute env payload).errorMessage = []) ∧
      ((env.shell (trimPrefix payload "cmd:".toList)).2 ≠ none →
        (execute env payload).jobStatus = "FAILED".toList ∧
          (execute env payload).errorMessage ≠ []) := by
  unfold execute
  rw [if_pos hcmd]
  simp only
  rcases env.shell (trimPrefix payload "cmd:".toList) with ⟨o, _ | e⟩
  · exact ⟨rfl, fun _ => ⟨rfl, rfl⟩, fun h => absurd rfl h⟩
  · refine ⟨rfl, fun h => Option.noConfusion h, fun _ => ⟨rfl, ?_⟩⟩
    simp

/-- The run that `processMessage` composes is in the run table when its insert
succeeds. -/
theorem mem_executeAndRecord_runs (tl : TimeLib) (env : WorkerEnv) (msg : Message)
    (ev : JobExecutionEvent) (w : World) (hr : env.runInsertOk = true) :
    runRecord tl env ev (execute env ev.Payload) ∈ (executeAndRecord tl env msg ev w).runs := by
  rw [executeAndRecord_runs, hr, if_pos rfl]
  unfold insertRun
  exact List.mem_append.mpr (Or.inr (List.mem_singleton.mpr rfl))

/-- C18.  Let a dispatch event decode from the message and let `payload` be its
payload after blob expansion, beginning with `cmd:`.  Then the calls that
`processMessage` adds to the log are the blob download (if any), one shell
command, namely the text after the prefix, the insert of a run record `run`,
and calls `rest` among which there is no further shell command.  The record is
for the (job_id, run_id) of the event; its output is the captured output of
the command; its status is COMPLETED with an empty error_message when the
command returned no error (exit code 0), and FAILED with a non-empty
error_message otherwise.  When the run insert succeeds, the record is in the
run table and the last call is the delete of the bus message. -/
theorem cmd_payload_runs_shell_command (tl : TimeLib) (env : WorkerEnv) (msg : Message)
    (w : World) (body : Body) (ev : JobExecutionEvent) (payload : Str)
    (hb : msg.Body = some body) (hd : decodeJobExecutionEvent body = some ev)
    (hres : resolvePayload env w.blobs ev = some payload)
    (hcmd : hasPrefix payload "cmd:".toList = true) :
    ∃ run rest,
      (processMessage tl env msg w).log =
        w.log ++ fetchCalls ev ++ [Effect.exec (trimPrefix payload "cmd:".toList)] ++
          Effect.runInsert run env.runInsertOk :: rest ∧
      (∀ e ∈ fetchCalls ev ++ rest, ∀ c, e ≠ Effect.exec c) ∧
      run.job_id = ev.JobID ∧ run.run_id = ev.RunID ∧
      run.output = (env.shell (trimPrefix payload "cmd:".toList)).1 ∧
      ((env.shell (trimPrefix payload "cmd:".toList)).2 = none →
        run.status = "COMPLETED".toList ∧ run.error_message = []) ∧
      ((env.shell (trimPrefix payload "cmd:".toList)).2 ≠ none →
        run.status = "FAILED".toList ∧ run.error_message ≠ []) ∧
      (env.runInsertOk = false → rest = []) ∧
      (env.runInsertOk = true →
        run ∈ (processMessage tl env msg w).runs ∧
          ∃ mid, rest = mid ++ [Effect.sqsDelete msg.ReceiptHandle env.sqsDeleteOk]) := by
  rw [processMessage_of_resolved hb hd hres]
  obtain ⟨rest, hlog, hfalse, htrue⟩ := executeAndRecord_log tl env msg
    { ev with Payload := payload } { w with log := w.log ++ fetchCalls ev }
  obtain ⟨hout, hok, hfail⟩ := execute_cmd env payload hcmd
  have hexec : execCalls payload = [Effect.exec (trimPrefix payload "cmd:".toList)] := by
    unfold execCalls
    rw [if_pos hcmd]
  refine ⟨runRecord tl env { ev with Payload := payload } (execute env payload), rest, ?_, ?_,
    rfl, rfl, hout, hok, hfail, hfalse, ?_⟩
  · rw [hlog, hexec]
  · intro e he c hc
    subst hc
    rcases List.mem_append.mp he with he | he
    · unfold fetchCalls at he
      split at he
      · simp at he
      · simp at he
    · cases hr : env.runInsertOk
      · rw [hfalse hr] at he
        simp at he
      · obtain ⟨mid, hmid, hmem⟩ := htrue hr
        rw [hmid] at he
        rcases List.mem_append.mp he with he | he
        · rcases hmem _ he with ⟨_, _, _, h⟩ | ⟨_, _, _, h⟩ | ⟨_, _, h⟩ | ⟨_, h⟩ | ⟨_, _, _, h⟩ <;>
            cases h
        · simp at he
  · intro hr
    obtain ⟨mid, hmid, -⟩ := htrue hr
    exact ⟨mem_executeAndRecord_runs tl env msg { ev with Payload := payload }
      { w with log := w.log ++ fetchCalls ev } hr, mid, hmid⟩

/-- C18 at two example messages: the command `echo hi` exits with code 0 and
the command `exit 3` fails.  In both cases the calls are the shell command, the
run insert, the Job status update and the delete of the message. -/
theorem cmd_payload_runs_shell_command_witness :
    (∃ run rest,
      (processMessage secondsCodec exShellWorkerEnv exCmdMessage exWorld).log =
        [Effect.exec "echo hi".toList, Effect.runInsert run true] ++ rest ∧
      run.status = "COMPLETED".toList ∧ run.output = "hi\n".toList ∧
      run ∈ (processMessage secondsCodec exShellWorkerEnv exCmdMessage exWorld).runs) ∧
    (∃ run rest,
      (processMessage secondsCodec exShellWorkerEnv exFailingCmdMessage exWorld).log =
        [Effect.exec "exit 3".toList, Effect.runInsert run true] ++ rest ∧
      run.status = "FAILED".toList ∧ run.error_message ≠ [] ∧
      run ∈ (processMessage secondsCodec exShellWorkerEnv exFailingCmdMessage exWorld).runs) := by
  constructor
  · obtain ⟨run, rest, hlog, -, -, -, hout, hok, -, -, hins⟩ :=
      cmd_payload_runs_shell_command secondsCodec exShellWorkerEnv exCmdMessage exWorld
        (.object [("job_id".toList, .str "j1".toList), ("run_id".toList, .str "r1".toList),
          ("payload".toList, .str "cmd:echo hi".toList), ("user_id".toList, .str "u".toList),
          ("executed_at".toList, .str "5".toList)])
        ⟨"j1".toList, "r1".toList, [], "cmd:echo hi".toList, [], "u".toList, "5".toList, []⟩
        "cmd:echo hi".toList rfl (by decide) (by decide) (by decide)
    exact ⟨run, rest, hlog, (hok (by decide)).1, hout, (hins rfl).1⟩
  · obtain ⟨run, rest, hlog, -, -, -, -, -, hfail, -, hins⟩ :=
      cmd_payload_runs_shell_command secondsCodec exShellWorkerEnv exFailingCmdMessage exWorld
        (.object [("job_id".toList, .str "j1".toList), ("run_id".toList, .str "r2".toList),
          ("payload".toList, .str "cmd:exit 3".toList), ("user_id".toList, .str "u".toList),
          ("executed_at".toList, .str "5".toList)])
        ⟨"j1".toList, "r2".toList, [], "cmd:exit 3".toList, [], "u".toList, "5".toList, []⟩
        "cmd:exit 3".toList rfl (by decide) (by decide) (by decide)
    exact ⟨run, rest, hlog, (hfail (by decide)).1, (hfail (by decide)).2, (hins rfl).1⟩

/-- C19.  Let a dispatch event decode from the message and let `payload` be its
payload after blob expansion, not beginning with `cmd:` (it may begin with
`sleep:`, whatever follows).  Then `processMessage` runs no shell command and
composes a run record `run` for the (job_id, run_id) of the event with status
COMPLETED, an empty error_message and output `Success: ` followed by the
payload, so that the payload is a contiguous part of the output.  When the run
insert succeeds, the record is in the run table. -/
theorem plain_payload_is_echoed (tl : TimeLib) (env : WorkerEnv) (msg : Message)
    (w : World) (body : Body) (ev : JobExecutionEvent) (payload : Str)
    (hb : msg.Body = some body) (hd : decodeJobExecutionEvent body = some ev)
    (hres : resolvePayload env w.blobs ev = some payload)
    (hcmd : hasPrefix payload "cmd:".toList = false) :
    ∃ run rest,
      (processMessage tl env msg w).log =
        w.log ++ fetchCalls ev ++ Effect.runInsert run env.runInsertOk :: rest ∧
      run.job_id = ev.JobID ∧ run.run_id = ev.RunID ∧
      run.status = "COMPLETED".toList ∧ run.error_message = [] ∧
      run.output = "Success: ".toList ++ payload ∧ payload <:+: run.output ∧
      (env.runInsertOk = true → run ∈ (processMessage tl env msg w).runs) := by
  rw [processMessage_of_resolved hb hd hres]
  obtain ⟨rest, hlog, -, -⟩ := executeAndRecord_log tl env msg
    { ev with Payload := payload } { w with log := w.log ++ fetchCalls ev }
  have hexec : execCalls payload = [] := by
    unfold execCalls
    rw [if_neg (by rw [hcmd]; decide)]
  have hecho := execute_echo env payload hcmd
  refine ⟨runRecord tl env { ev with Payload := payload } (execute env payload), rest, ?_,
    rfl, rfl, ?_, ?_, ?_, ?_, ?_⟩
  · rw [hlog, hexec, List.append_nil]
  · show (execute env payload).jobStatus = _
    rw [hecho]
  · show (execute env payload).errorMessage = _
    rw [hecho]
  · show (execute env payload).jobOutput = _
    rw [hecho]
  · show payload <:+: (execute env payload).jobOutput
    rw [hecho]
    exact (List.suffix_append _ _).isInfix
  · intro hr
    exact mem_executeAndRecord_runs tl env msg { ev with Payload := payload }
      { w with log := w.log ++ fetchCalls ev } hr

/-- C19 at two example messages: the payload `test` and the payload
`sleep:long`, whose duration does not parse. -/
theorem plain_payload_is_echoed_witness :
    (∃ run ∈ (processMessage secondsCodec exWorkerEnv exMessage exWorld).runs,
      run.status = "COMPLETED".toList ∧ run.output = "Success: test".toList) ∧
    (∃ run ∈ (processMessage secondsCodec exWorkerEnv exSleepMessage exWorld).runs,
      run.status = "COMPLETED".toList ∧ run.output = "Success: sleep:long".toList) := by
  constructor
  · obtain ⟨run, rest, -, -, -, hst, -, hout, -, hins⟩ :=
      plain_payload_is_echoed secondsCodec exWorkerEnv exMessage exWorld
        (.object (Picker.dispatchEvent secondsCodec ⟨"j1".toList, 1000000000⟩
          (exScanEnv.cand 0) exJob))
        ⟨"j1".toList, "r1".toList, "STARTED".toList, "test".toList, "p".toList, "u".toList,
          "5".toList, []⟩
        "test".toList rfl (by decide) (by decide) (by decide)
    exact ⟨run, hins rfl, hst, hout⟩
  · obtain ⟨run, rest, -, -, -, hst, -, hout, -, hins⟩ :=
      plain_payload_is_echoed secondsCodec exWorkerEnv exSleepMessage exWorld
        (.object [("job_id".toList, .str "j1".toList), ("run_id".toList, .str "r3".toList),
          ("payload".toList, .str "sleep:long".toList), ("user_id".toList, .str "u".toList),
          ("executed_at".toList, .str "5".toList)])
        ⟨"j1".toList, "r3".toList, [], "sleep:long".toList, [], "u".toList, "5".toList, []⟩
        "sleep:long".toList rfl (by decide) (by decide) (by decide)
    exact ⟨run, hins rfl, hst, hout⟩

end Worker

/-- The upsert into `job_queue` gives the same table when it is repeated. -/
theorem insertQueue_idem (s : Int) (t : Time) (id : Str) (st : Option Str) (q : List QueueRow) :
    insertQueue s t id st (insertQueue s t id st q) = insertQueue s t id st q := by
  rcases hfind : q.find? (fun r => decide (r.key = (s, t, id))) with _ | r
  · have h1 : insertQueue s t id st q = q ++ [⟨s, t, id, st⟩] := by
      unfold insertQueue; rw [hfind]
    rw [h1]
    have hfind2 : (q ++ [(⟨s, t, id, st⟩ : QueueRow)]).find?
        (fun r => decide (r.key = (s, t, id))) = some ⟨s, t, id, st⟩ := by
      rw [List.find?_append, hfind]
      simp [QueueRow.key]
    unfold insertQueue
    rw [hfind2]
    simp only [List.map_append, List.map_cons, List.map_nil]
    congr 1
    · have hall := List.find?_eq_none.mp hfind
      conv_rhs => rw [← List.map_id q]
      apply List.map_congr_left
      intro x hx
      have hx' : ¬ x.key = (s, t, id) := by simpa using hall x hx
      rw [if_neg hx']; rfl
    · cases st <;> simp [QueueRow.key]
  · have hmem : r ∈ q := List.mem_of_find?_eq_some hfind
    have hkey : r.key = (s, t, id) := by simpa using List.find?_some hfind
    have h1 : insertQueue s t id st q = q.map (fun r =>
        if r.key = (s, t, id) then
          { r with status := if st.isSome then st else r.status }
        else r) := by
      unfold insertQueue; rw [hfind]
    rw [h1]
    have hsome : ∃ r2, (q.map (fun r : QueueRow =>
        if r.key = (s, t, id) then
          { r with status := if st.isSome then st else r.status }
        else r)).find? (fun r => decide (r.key = (s, t, id))) = some r2 := by
      rw [← Option.isSome_iff_exists, List.find?_isSome]
      refine ⟨_, List.mem_map.mpr ⟨r, hmem, rfl⟩, ?_⟩
      rw [if_pos hkey]
      simpa [QueueRow.key] using hkey
    obtain ⟨r2, hr2⟩ := hsome
    unfold insertQueue
    rw [hr2]
    simp only [List.map_map]
    apply List.map_congr_left
    intro x _
    simp only [Function.comp]
    by_cases hx : x.key = (s, t, id)
    · rw [if_pos hx]
      have hx2 : QueueRow.key { x with status := if st.isSome then st else x.status } =
          (s, t, id) := hx
      rw [if_pos hx2]
      cases st <;> rfl
    · rw [if_neg hx, if_neg hx]

/-- The upsert into `job_queue` keeps the keys of the table, adding the new one
at the end when it was absent. -/
theorem insertQueue_keys (s : Int) (t : Time) (id : Str) (st : Option Str) (q : List QueueRow) :
    (insertQueue s t id st q).map QueueRow.key =
      if (s, t, id) ∈ q.map QueueRow.key then q.map QueueRow.key
      else q.map QueueRow.key ++ [(s, t, id)] := by
  rcases hfind : q.find? (fun r => decide (r.key = (s, t, id))) with _ | r
  · have hall := List.find?_eq_none.mp hfind
    have hnot : (s, t, id) ∉ q.map QueueRow.key := by
      intro hm
      obtain ⟨x, hx, hxk⟩ := List.mem_map.mp hm
      exact absurd (by simpa using hxk) (by simpa using hall x hx)
    rw [if_neg hnot]
    unfold insertQueue
    rw [hfind]
    simp [QueueRow.key]
  · have hmem : r ∈ q := List.mem_of_find?_eq_some hfind
    have hkey : r.key = (s, t, id) := by simpa using List.find?_some hfind
    rw [if_pos (List.mem_map.mpr ⟨r, hmem, hkey⟩)]
    unfold insertQueue
    rw [hfind]
    simp only [List.map_map]
    apply List.map_congr_left
    intro x _
    simp only [Function.comp]
    split <;> rfl

/-- The upsert into `job_queue` keeps the primary key. -/
theorem insertQueue_keyed (s : Int) (t : Time) (id : Str) (st : Option Str) (q : List QueueRow)
    (hk : QueueKeyed q) : QueueKeyed (insertQueue s t id st q) := by
  unfold QueueKeyed at hk ⊢
  rw [insertQueue_keys]
  split
  · exact hk
  · rename_i hnot
    rw [List.nodup_append]
    refine ⟨hk, List.nodup_singleton _, ?_⟩
    intro a ha hb
    rw [List.mem_singleton] at hb
    subst hb
    exact hnot ha

/-- Every row of the table after an upsert with a status that has the key of
the upsert is the upserted row. -/
theorem mem_insertQueue_of_key {s : Int} {t : Time} {id : Str} {st : Str} {q : List QueueRow}
    {x : QueueRow} (hx : x ∈ insertQueue s t id (some st) q) (hxk : x.key = (s, t, id)) :
    x = ⟨s, t, id, some st⟩ := by
  unfold insertQueue at hx
  split at hx
  · rename_i hfind
    rcases List.mem_append.mp hx with hx | hx
    · have hall := List.find?_eq_none.mp hfind
      exact absurd hxk (by simpa using hall x hx)
    · exact List.mem_singleton.mp hx
  · obtain ⟨y, -, hy⟩ := List.mem_map.mp hx
    by_cases hyk : y.key = (s, t, id)
    · rw [if_pos hyk] at hy
      subst hy
      simp only [QueueRow.key, Prod.mk.injEq] at hyk
      obtain ⟨h1, h2, h3⟩ := hyk
      simp [h1, h2, h3]
    · rw [if_neg hyk] at hy
      subst hy
      exact absurd hxk hyk

/-- In a table that obeys the primary key, the rows with the key of an upsert
that names a status are, after the upsert, the upserted row alone. -/
theorem insertQueue_filter_key (s : Int) (t : Time) (id : Str) (st : Str) (q : List QueueRow)
    (hk : QueueKeyed q) :
    (insertQueue s t id (some st) q).filter (fun r => decide (r.key = (s, t, id))) =
      [⟨s, t, id, some st⟩] := by
  have hk2 := insertQueue_keyed s t id (some st) q hk
  obtain ⟨row, hrow, hrk⟩ := exists_mem_insertQueue s t id (some st) q
  have hrow_eq := mem_insertQueue_of_key hrow hrk
  have hnd : ((insertQueue s t id (some st) q).filter
      (fun r => decide (r.key = (s, t, id)))).Nodup := by
    have h := List.Nodup.of_map _ hk2
    exact h.filter _
  have hall : ∀ x ∈ (insertQueue s t id (some st) q).filter
      (fun r => decide (r.key = (s, t, id))), x = (⟨s, t, id, some st⟩ : QueueRow) := by
    intro x hx
    rw [List.mem_filter] at hx
    exact mem_insertQueue_of_key hx.1 (by simpa using hx.2)
  have hmem : (⟨s, t, id, some st⟩ : QueueRow) ∈ (insertQueue s t id (some st) q).filter
      (fun r => decide (r.key = (s, t, id))) := by
    rw [List.mem_filter]
    exact ⟨hrow_eq ▸ hrow, by simp [QueueRow.key]⟩
  generalize (insertQueue s t id (some st) q).filter
    (fun r => decide (r.key = (s, t, id))) = l at hnd hall hmem
  match l, hnd, hall, hmem with
  | [a], _, hall, _ => rw [hall a (List.mem_singleton.mpr rfl)]
  | a :: b :: l, hnd, hall, _ =>
    have ha := hall a (by simp)
    have hb := hall b (by simp)
    rw [List.nodup_cons] at hnd
    exact absurd (by rw [ha, hb]; simp) hnd.1

namespace Writer

/-- The queue after the writer's `processMessage`. -/
theorem processMessage_queue (tl : TimeLib) (env : WriterEnv) (v : Body) (w : World) :
    (processMessage tl env v w).queue =
      match decodeJobSubmissionEvent v with
      | none => w.queue
      | some ev =>
        match tl.parse ev.NextFireAt with
        | none => w.queue
        | some t =>
          if env.queueInsertOk then insertQueue ev.ShardID t ev.JobID (some "PENDING".toList) w.queue
          else w.queue := by
  unfold processMessage
  rcases decodeJobSubmissionEvent v with _ | ev
  · rfl
  · simp only
    rcases tl.parse ev.NextFireAt with _ | t
    · rfl
    · simp only
      cases env.queueInsertOk <;> rfl

end Writer

namespace Writer

/-- C20.  Let the writer process the same submission event twice, where the
first insert succeeds or the second fails (so in particular when both calls
meet the same outcome).  Then B after the second call is B after the first
call.  When B obeys its primary key before, it does so afterwards, and when the
event decodes, its `next_fire_at` parses and the first insert succeeds, B holds
exactly one row with the key (shard_id, next_fire_at, job_id) of the event,
with status PENDING. -/
theorem queue_insert_idempotent (tl : TimeLib) (env1 env2 : WriterEnv) (v : Body) (w : World)
    (h : env1.queueInsertOk = true ∨ env2.queueInsertOk = false) :
    (processMessage tl env2 v (processMessage tl env1 v w)).queue =
        (processMessage tl env1 v w).queue ∧
      (QueueKeyed w.queue →
        QueueKeyed (processMessage tl env2 v (processMessage tl env1 v w)).queue) ∧
      (∀ ev t, QueueKeyed w.queue → decodeJobSubmissionEvent v = some ev →
        tl.parse ev.NextFireAt = some t → env1.queueInsertOk = true →
        (processMessage tl env2 v (processMessage tl env1 v w)).queue.filter
            (fun r => decide (r.key = (ev.ShardID, t, ev.JobID))) =
          [⟨ev.ShardID, t, ev.JobID, some "PENDING".toList⟩]) := by
  have heq : (processMessage tl env2 v (processMessage tl env1 v w)).queue =
      (processMessage tl env1 v w).queue := by
    rw [processMessage_queue tl env2 v (processMessage tl env1 v w), processMessage_queue tl env1]
    rcases decodeJobSubmissionEvent v with _ | ev
    · rfl
    · simp only
      rcases tl.parse ev.NextFireAt with _ | t
      · rfl
      · simp only
        rcases h with h | h
        · rw [h]
          simp only [if_true]
          cases env2.queueInsertOk
          · simp
          · simp only [if_true]
            exact insertQueue_idem _ _ _ _ _
        · rw [h]
          simp
  have hkeyed : QueueKeyed w.queue → QueueKeyed (processMessage tl env1 v w).queue := by
    intro hk
    rw [processMessage_queue tl env1]
    rcases decodeJobSubmissionEvent v with _ | ev
    · exact hk
    · simp only
      rcases tl.parse ev.NextFireAt with _ | t
      · exact hk
      · simp only
        split
        · exact insertQueue_keyed _ _ _ _ _ hk
        · exact hk
  refine ⟨heq, fun hk => heq ▸ hkeyed hk, ?_⟩
  intro ev t hk hd ht hok
  rw [heq, processMessage_queue tl env1, hd]
  simp only
  rw [ht]
  simp only
  rw [hok, if_pos rfl]
  exact insertQueue_filter_key _ _ _ _ _ hk

/-- C20 at the example event, delivered twice to a queue that already holds a
row with the key of the event and a row of another job: B after the second
call is B after the first, and it holds one row with the key. -/
theorem queue_insert_idempotent_witness :
    (processMessage secondsCodec ⟨true⟩ exSubmissionValue
        (processMessage secondsCodec ⟨true⟩ exSubmissionValue exWorld)).queue =
        (processMessage secondsCodec ⟨true⟩ exSubmissionValue exWorld).queue ∧
      (processMessage secondsCodec ⟨true⟩ exSubmissionValue
        (processMessage secondsCodec ⟨true⟩ exSubmissionValue exWorld)).queue.filter
          (fun r => decide (r.key = ((0 : Int), (1000000000 : Time), "j1".toList))) =
        [⟨0, 1000000000, "j1".toList, some "PENDING".toList⟩] ∧
      (processMessage secondsCodec ⟨true⟩ exSubmissionValue
        (processMessage secondsCodec ⟨true⟩ exSubmissionValue exEmptyWorld)).queue =
        [⟨0, 1000000000, "j1".toList, some "PENDING".toList⟩] :=
  ⟨(queue_insert_idempotent secondsCodec ⟨true⟩ ⟨true⟩ exSubmissionValue exWorld (Or.inl rfl)).1,
    (queue_insert_idempotent secondsCodec ⟨true⟩ ⟨true⟩ exSubmissionValue exWorld
      (Or.inl rfl)).2.2
      ⟨"j1".toList, "p".toList, "1".toList, 0, "test".toList⟩ 1000000000
      (by decide) (by decide) (by decide) rfl,
    by decide⟩

end Writer

namespace Writer

/-- The loop of the writer makes no call on the consumer other than
`ReadMessage`. -/
theorem runLoop_calls (tl : TimeLib) (env : Nat → WriterEnv) (reads : List (Option Message)) :
    ∀ (i : Nat) (w : World),
      (runLoop tl env i reads w).2 = reads.map (fun r => ConsumerCall.readMessage r.isSome) := by
  induction reads with
  | nil => intro i w; rfl
  | cons r rs ih =>
    intro i w
    unfold runLoop
    simp only [List.map_cons]
    rw [ih]
    cases r <;> rfl

/-- C21, the code at a failing input.  The loop of the writer receives the
example submission event at offset 7 and its insert into B succeeds: B then
holds the row of the event, and the only call made on the consumer is the
`ReadMessage` that delivered the event.  No `CommitMessage` follows the
successful insert, so the offset of the event is never committed. -/
theorem successful_insert_is_not_committed :
    (runLoop secondsCodec (fun _ => ⟨true⟩) 0 [some ⟨exSubmissionValue, 7⟩] exEmptyWorld).1.queue =
        [⟨0, 1000000000, "j1".toList, some "PENDING".toList⟩] ∧
      (runLoop secondsCodec (fun _ => ⟨true⟩) 0 [some ⟨exSubmissionValue, 7⟩] exEmptyWorld).1.log =
        [Effect.queueInsert 0 1000000000 "j1".toList (some "PENDING".toList) true] ∧
      (runLoop secondsCodec (fun _ => ⟨true⟩) 0 [some ⟨exSubmissionValue, 7⟩] exEmptyWorld).2 =
        [ConsumerCall.readMessage true] ∧
      ConsumerCall.commitMessage 7 ∉
        (runLoop secondsCodec (fun _ => ⟨true⟩) 0 [some ⟨exSubmissionValue, 7⟩] exEmptyWorld).2 := by
  refine ⟨by decide, by decide, by decide, by decide⟩

end Writer

namespace Worker

/-- The world after `handleReschedule`. -/
theorem handleReschedule_eq (env : WorkerEnv) (ev : JobExecutionEvent) (w : World) :
    (handleReschedule env ev w).log = w.log ++ rescheduleCalls env ev ∧
      (handleReschedule env ev w).userJobs = w.userJobs ∧
      (handleReschedule env ev w).jobs =
        (match env.cronParse ev.CronSchedule with
        | none => w.jobs
        | some next =>
          if env.jobsUpdateOk then
            updateJob ev.JobID (fun j => { j with
              next_fire_at := next env.cronNow, shard_id := ((env.rand % 1024 : Nat) : Int),
              status := "PENDING".toList }) w.jobs
          else w.jobs) ∧
      (handleReschedule env ev w).queue =
        (match env.cronParse ev.CronSchedule with
        | none => w.queue
        | some next =>
          if env.jobsUpdateOk = true ∧ env.queueInsertOk = true then
            insertQueue ((env.rand % 1024 : Nat) : Int) (next env.cronNow) ev.JobID none w.queue
          else w.queue) := by
  unfold handleReschedule rescheduleCalls
  rcases env.cronParse ev.CronSchedule with _ | next
  · simp
  · simp only
    cases env.jobsUpdateOk <;> cases env.queueInsertOk <;> simp [World.emit]

end Worker

theorem tmod_1024_range {a : Int} (h : 0 ≤ a) : 0 ≤ Int.tmod a 1024 ∧ Int.tmod a 1024 < 1024 :=
  ⟨Int.tmod_nonneg _ h, Int.tmod_lt_of_pos _ (by decide)⟩

namespace Ingestion

/-- The calls of `submitHandler`: none for a request that is not a `POST` or
whose body does not decode, and `submitCalls` otherwise. -/
theorem submitHandler_trace (tl : TimeLib) (env : SubmitEnv) (r : HttpRequest) (w : World) :
    ∃ tr, (submitHandler tl env r w).1.log = w.log ++ tr ∧
      (tr = [] ∨ ∃ req, r.method = "POST".toList ∧ decodeJobRequest r.body = some req ∧
        tr = submitCalls tl env req r.userID) := by
  by_cases hm : r.method = "POST".toList
  · rcases hd : decodeJobRequest r.body with _ | req
    · refine ⟨[], ?_, Or.inl rfl⟩
      unfold submitHandler
      rw [if_neg (not_not.mpr hm), hd]
      simp
    · exact ⟨_, (submitHandler_log tl env r w req hm hd).1, Or.inr ⟨req, hm, rfl, rfl⟩⟩
  · refine ⟨[], ?_, Or.inl rfl⟩
    unfold submitHandler
    rw [if_pos hm]
    simp

end Ingestion

namespace Worker

/-- Every call of `handleReschedule` is the update of the Job row or, after a
successful update, the insert into B; both carry the instant that the schedule
gives for the time of the call and the shard drawn by `rand.Intn(1024)`. -/
theorem mem_rescheduleCalls {env : WorkerEnv} {ev : JobExecutionEvent} {e : Effect}
    (h : e ∈ rescheduleCalls env ev) :
    ∃ next, env.cronParse ev.CronSchedule = some next ∧
      (e = Effect.jobsReschedule ev.JobID (next env.cronNow) ((env.rand % 1024 : Nat) : Int)
          env.jobsUpdateOk ∨
        (env.jobsUpdateOk = true ∧
          e = Effect.queueInsert ((env.rand % 1024 : Nat) : Int) (next env.cronNow) ev.JobID none
            env.queueInsertOk)) := by
  unfold rescheduleCalls at h
  rcases hp : env.cronParse ev.CronSchedule with _ | next
  · rw [hp] at h; cases h
  · rw [hp] at h
    simp only at h
    refine ⟨next, rfl, ?_⟩
    cases hj : env.jobsUpdateOk
    · rw [hj] at h
      simp only [Bool.false_eq_true, if_false, List.mem_singleton] at h
      exact Or.inl h
    · rw [hj] at h
      simp only [if_true, List.mem_cons, List.mem_singleton, List.not_mem_nil, or_false] at h
      rcases h with h | h
      · exact Or.inl h
      · exact Or.inr ⟨rfl, h⟩

end Worker

/-- Shard ids away from the sign slip.  Let the submission clock stand at or
after the Unix epoch.  Then every Job row that `submitHandler` inserts and
every submission event that it publishes carries a shard id in [0, 1024); and,
whatever the clock, every shard id that `handleReschedule` writes to the Job
row and to B is in [0, 1024).  Here `tr` and `tr2` are the calls the two
functions make. -/
theorem shard_ids_in_range (tl : TimeLib) (env : Ingestion.SubmitEnv) (r : Ingestion.HttpRequest)
    (w : World) (wenv : Worker.WorkerEnv) (ev : Worker.JobExecutionEvent) (w2 : World)
    (hnow : 0 ≤ env.now) :
    ∃ tr tr2,
      (Ingestion.submitHandler tl env r w).1.log = w.log ++ tr ∧
      (Worker.handleReschedule wenv ev w2).log = w2.log ++ tr2 ∧
      (∀ j ok, Effect.jobsInsert j ok ∈ tr → 0 ≤ j.shard_id ∧ j.shard_id < 1024) ∧
      (∀ k e ok, Effect.kafkaPublish k e ok ∈ tr →
        ∃ s, e.lookup "shard_id".toList = some (.num s) ∧ 0 ≤ s ∧ s < 1024) ∧
      (∀ id t s ok, Effect.jobsReschedule id t s ok ∈ tr2 → 0 ≤ s ∧ s < 1024) ∧
      (∀ s t id st ok, Effect.queueInsert s t id st ok ∈ tr2 → 0 ≤ s ∧ s < 1024) := by
  obtain ⟨tr, hlog, htr⟩ := Ingestion.submitHandler_trace tl env r w
  have hrand : (0 : Int) ≤ ((wenv.rand % 1024 : Nat) : Int) ∧
      ((wenv.rand % 1024 : Nat) : Int) < 1024 := by
    constructor
    · exact Int.ofNat_nonneg _
    · have : wenv.rand % 1024 < 1024 := Nat.mod_lt _ (by decide)
      exact_mod_cast this
  refine ⟨tr, Worker.rescheduleCalls wenv ev, hlog, (Worker.handleReschedule_eq wenv ev w2).1,
    ?_, ?_, ?_, ?_⟩
  · intro j ok hj
    rcases htr with htr | ⟨req, -, -, htr⟩
    · rw [htr] at hj; cases hj
    · rw [htr] at hj
      obtain ⟨nf, -, -, hp⟩ := Ingestion.mem_submitCalls_persist hj
        (fun _ _ _ h => Effect.noConfusion h)
      obtain ⟨hjrow, -⟩ := Ingestion.mem_persistCalls_jobsInsert hp
      rw [hjrow]
      exact tmod_1024_range hnow
  · intro k e ok he
    rcases htr with htr | ⟨req, -, -, htr⟩
    · rw [htr] at he; cases he
    · rw [htr] at he
      obtain ⟨nf, -, -, hp⟩ := Ingestion.mem_submitCalls_persist he
        (fun _ _ _ h => Effect.noConfusion h)
      obtain ⟨-, -, hev, -⟩ := Ingestion.mem_persistCalls_kafkaPublish hp
      rw [hev]
      exact ⟨Int.tmod env.now 1024, rfl, tmod_1024_range hnow⟩
  · intro id t s ok h
    obtain ⟨next, -, h | ⟨-, h⟩⟩ := Worker.mem_rescheduleCalls h
    · cases h; exact hrand
    · cases h
  · intro s t id st ok h
    obtain ⟨next, -, h | ⟨-, h⟩⟩ := Worker.mem_rescheduleCalls h
    · cases h
    · cases h; exact hrand

/-- The lemma `shard_ids_in_range` at the example submission, made at second
7.5, and at the reschedule of the example recurring job. -/
theorem shard_ids_in_range_witness :
    (0 : Int) ≤ exSubmitEnv.now ∧
      ∃ tr tr2,
        (Ingestion.submitHandler secondsCodec exSubmitEnv exRequest exEmptyWorld).1.log =
          exEmptyWorld.log ++ tr ∧
        (Worker.handleReschedule exCronWorkerEnv
          ⟨"j1".toList, "r1".toList, [], "test".toList, [], "u".toList, "5".toList,
            "@every 2s".toList⟩ exCronWorld).log = exCronWorld.log ++ tr2 ∧
        (∀ j ok, Effect.jobsInsert j ok ∈ tr → 0 ≤ j.shard_id ∧ j.shard_id < 1024) ∧
        (∀ s t id st ok, Effect.queueInsert s t id st ok ∈ tr2 → 0 ≤ s ∧ s < 1024) := by
  refine ⟨by decide, ?_⟩
  obtain ⟨tr, tr2, h1, h2, h3, -, -, h6⟩ :=
    shard_ids_in_range secondsCodec exSubmitEnv exRequest exEmptyWorld exCronWorkerEnv
      ⟨"j1".toList, "r1".toList, [], "test".toList, [], "u".toList, "5".toList,
        "@every 2s".toList⟩ exCronWorld (by decide)
  exact ⟨tr, tr2, h1, h2, h3, h6⟩

namespace Worker

/-- C23.  Let the cron expression of the event parse to a schedule whose `Next`
returns an instant after the one it is given, and let `handleReschedule` read
the clock at `env.cronNow`.  Then every update of the Job row and every insert
into B that it issues carries a `next_fire_at` strictly later than
`env.cronNow`; when the Job update succeeds, the Job store afterwards holds a
row of the job and every row of the job has a `next_fire_at` strictly later
than `env.cronNow`; and when the insert into B succeeds too, B holds a row of
the job with such a `next_fire_at`. -/
theorem reschedule_next_fire_at_in_future (env : WorkerEnv) (ev : JobExecutionEvent) (w : World)
    (next : Time → Time) (hp : env.cronParse ev.CronSchedule = some next)
    (hnext : NextInstantAfter next) :
    (∃ tr, (handleReschedule env ev w).log = w.log ++ tr ∧ tr ≠ [] ∧
      (∀ id t s ok, Effect.jobsReschedule id t s ok ∈ tr → env.cronNow < t) ∧
      (∀ s t id st ok, Effect.queueInsert s t id st ok ∈ tr → env.cronNow < t)) ∧
    (env.jobsUpdateOk = true →
      (∃ j ∈ (handleReschedule env ev w).jobs, j.job_id = ev.JobID) ∧
      (∀ j ∈ (handleReschedule env ev w).jobs, j.job_id = ev.JobID →
        j.next_fire_at = next env.cronNow ∧ env.cronNow < j.next_fire_at)) ∧
    (env.jobsUpdateOk = true → env.queueInsertOk = true →
      ∃ row ∈ (handleReschedule env ev w).queue,
        row.job_id = ev.JobID ∧ row.next_fire_at = next env.cronNow ∧
          env.cronNow < row.next_fire_at) := by
  obtain ⟨hlog, -, hjobs, hqueue⟩ := handleReschedule_eq env ev w
  rw [hp] at hjobs hqueue
  simp only at hjobs hqueue
  refine ⟨⟨rescheduleCalls env ev, hlog, ?_, ?_, ?_⟩, ?_, ?_⟩
  · unfold rescheduleCalls
    rw [hp]
    simp only
    split <;> simp
  · intro id t s ok h
    obtain ⟨next2, hp2, h | ⟨-, h⟩⟩ := mem_rescheduleCalls h
    · rw [hp] at hp2
      cases hp2
      cases h
      exact hnext _
    · cases h
  · intro s t id st ok h
    obtain ⟨next2, hp2, h | ⟨-, h⟩⟩ := mem_rescheduleCalls h
    · cases h
    · rw [hp] at hp2
      cases hp2
      cases h
      exact hnext _
  · intro hj
    rw [hjobs, hj, if_pos rfl]
    refine ⟨exists_mem_updateJob _ _ _ (fun _ => rfl), ?_⟩
    intro j hmem hid
    obtain ⟨x, hx⟩ := mem_updateJob_of_id hmem hid
    rw [hx]
    exact ⟨rfl, hnext _⟩
  · intro hj hq
    rw [hqueue, if_pos ⟨hj, hq⟩]
    obtain ⟨row, hrow, hkey⟩ := exists_mem_insertQueue ((env.rand % 1024 : Nat) : Int)
      (next env.cronNow) ev.JobID none w.queue
    simp only [QueueRow.key, Prod.mk.injEq] at hkey
    exact ⟨row, hrow, hkey.2.2, hkey.2.1, by rw [hkey.2.1]; exact hnext _⟩

/-- C23 at the example recurring job, rescheduled at second 9 by a schedule
that means "two seconds from now": the Job row then carries second 11. -/
theorem reschedule_next_fire_at_in_future_witness :
    NextInstantAfter (fun t => t + 2000000000) ∧
      ∀ j ∈ (handleReschedule exCronWorkerEnv
          ⟨"j1".toList, "r1".toList, [], "test".toList, [], "u".toList, "5".toList,
            "@every 2s".toList⟩ exCronWorld).jobs,
        j.job_id = "j1".toList →
          j.next_fire_at = 11000000000 ∧ exCronWorkerEnv.cronNow < j.next_fire_at :=
  ⟨fun now => Int.lt_add_of_pos_right now (by decide),
    ((reschedule_next_fire_at_in_future exCronWorkerEnv
      ⟨"j1".toList, "r1".toList, [], "test".toList, [], "u".toList, "5".toList,
        "@every 2s".toList⟩ exCronWorld (fun t => t + 2000000000) rfl
      (fun now => Int.lt_add_of_pos_right now (by decide))).2.1 rfl).2⟩

end Worker

namespace Coordinator

theorem balanceShards_eq (n : Nat) (etcd : List (Str × Str)) :
    balanceShards n etcd = (etcd, []) := by
  induction n with
  | zero => rfl
  | succ n ih =>
    unfold balanceShards balanceTick
    simp only [ih, List.append_nil]

end Coordinator

namespace Picker

theorem scanned_foldl (tl : TimeLib) (env : Nat → ScanEnv) (l : List Nat) :
    ∀ (w : World) (acc : List Int),
      (l.foldl (fun acc s => (scanShard tl (env s) (s : Int) acc.1, acc.2 ++ [(s : Int)]))
        (w, acc)).2 = acc ++ l.map (fun s : Nat => (s : Int)) := by
  induction l with
  | nil => intro w acc; simp
  | cons s l ih =>
    intro w acc
    rw [List.foldl_cons, ih]
    simp

theorem mem_range_cast (n : Nat) (s : Int) (h0 : 0 ≤ s) (h1 : s < (n : Int)) :
    s ∈ (List.range n).map (fun s : Nat => (s : Int)) := by
  have hlt : s.toNat < n := by omega
  have hmap := List.mem_map_of_mem (fun s : Nat => (s : Int)) (List.mem_range.mpr hlt)
  simp only [Int.toNat_of_nonneg h0] at hmap
  exact hmap

/-- The shards that one tick of `runPickerLoop` scans. -/
theorem runPickerTick_scanned (tl : TimeLib) (env : Nat → ScanEnv) (w : World) :
    (runPickerTick tl env w).2 = (List.range 1024).map (fun s : Nat => (s : Int)) := by
  unfold runPickerTick
  rw [scanned_foldl]
  exact List.nil_append _

end Picker

/-- C24 as stated fails: in the example Etcd store a live picker is registered
under `/scheduler/pickers/`.  After three ticks of `balanceShards` the
coordinator has made no call on the store and there is no key under
`/scheduler/assignments/`, so no shard id belongs to an assignment. -/
theorem no_assignment_written :
    Coordinator.keysUnder "/scheduler/pickers/".toList exEtcd = ["/scheduler/pickers/p1".toList] ∧
      (Coordinator.balanceShards 3 exEtcd).2 = [] ∧
      Coordinator.keysUnder "/scheduler/assignments/".toList
        (Coordinator.balanceShards 3 exEtcd).1 = [] := by
  refine ⟨by decide, by decide, by decide⟩

/-- C24, amended.  Any number of ticks of `balanceShards` makes no call on Etcd
and leaves its keys as they were, so the coordinator writes no assignment.  The
shard space is covered all the same: one tick of `runPickerLoop` scans every
shard id in [0, 1024). -/
theorem shards_covered_by_every_picker (n : Nat) (etcd : List (Str × Str)) (tl : TimeLib)
    (env : Nat → Picker.ScanEnv) (w : World) (s : Int) (h0 : 0 ≤ s) (h1 : s < 1024) :
    Coordinator.balanceShards n etcd = (etcd, []) ∧ s ∈ (Picker.runPickerTick tl env w).2 := by
  refine ⟨Coordinator.balanceShards_eq n etcd, ?_⟩
  rw [Picker.runPickerTick_scanned]
  exact Picker.mem_range_cast 1024 s h0 h1

/-- The amended C24 at the example store and at the last shard, 1023. -/
theorem shards_covered_by_every_picker_witness :
    (0 : Int) ≤ 1023 ∧ (1023 : Int) < 1024 ∧
      Coordinator.balanceShards 3 exEtcd = (exEtcd, []) ∧
      (1023 : Int) ∈ (Picker.runPickerTick secondsCodec (fun _ => exScanEnv) exWorld).2 :=
  ⟨by decide, by decide,
    shards_covered_by_every_picker 3 exEtcd secondsCodec (fun _ => exScanEnv) exWorld 1023
      (by decide) (by decide)⟩

namespace Worker

theorem handleReschedule_blobs (env : WorkerEnv) (ev : JobExecutionEvent) (w : World)
    (b : List (Str × Str)) :
    handleReschedule env ev { w with blobs := b } =
      { handleReschedule env ev w with blobs := b } := by
  unfold handleReschedule
  rcases env.cronParse ev.CronSchedule with _ | next
  · rfl
  · simp only
    cases env.jobsUpdateOk <;> cases env.queueInsertOk <;> rfl

theorem updateJobStatus_blobs (env : WorkerEnv) (jobID userID status : Str) (w : World)
    (b : List (Str × Str)) :
    updateJobStatus env jobID userID status { w with blobs := b } =
      { updateJobStatus env jobID userID status w with blobs := b } := by
  unfold updateJobStatus
  cases env.jobsUpdateOk
  · rfl
  · cases env.userSelectOk
    · rfl
    · simp only [Bool.not_true, Bool.false_eq_true, if_false, if_true, World.emit]
      generalize List.find? (fun u : UserJob => decide (u.user_id = userID) &&
        decide (u.job_id = jobID)) w.userJobs = found
      cases found
      · rfl
      · cases env.userUpdateOk <;> rfl

/-- The part of `processMessage` after the payload is resolved does not read
the blob store. -/
theorem executeAndRecord_blobs (tl : TimeLib) (env : WorkerEnv) (msg : Message)
    (ev : JobExecutionEvent) (w : World) (b : List (Str × Str)) :
    executeAndRecord tl env msg ev { w with blobs := b } =
      { executeAndRecord tl env msg ev w with blobs := b } := by
  unfold executeAndRecord
  simp only
  cases env.runInsertOk
  · rfl
  · simp only [Bool.not_true, Bool.false_eq_true, if_false, World.emit]
    split
    · have h := handleReschedule_blobs env ev
        ⟨w.jobs, w.userJobs, w.queue,
          insertRun (runRecord tl env ev (execute env ev.Payload)) w.runs, w.blobs,
          w.log ++ execCalls ev.Payload ++
            [Effect.runInsert (runRecord tl env ev (execute env ev.Payload)) true]⟩ b
      simp only at h
      rw [h]
    · have h := updateJobStatus_blobs env ev.JobID ev.UserID (execute env ev.Payload).jobStatus
        ⟨w.jobs, w.userJobs, w.queue,
          insertRun (runRecord tl env ev (execute env ev.Payload)) w.runs, w.blobs,
          w.log ++ execCalls ev.Payload ++
            [Effect.runInsert (runRecord tl env ev (execute env ev.Payload)) true]⟩ b
      simp only at h
      rw [h]

end Worker
/-- C25 as stated fails: the example submission carries the 14 bytes
`s3:payloads/j9`, which are stored inline and do not begin with `cmd:`.  The
worker takes the payload of the dispatch event for a blob reference and
downloads the blob: in two worlds that differ in the blob store only, the runs
recorded have different outputs, `Success: one` and `Success: two`, and
neither output contains the submitted payload. -/
theorem inline_reference_reads_blob_store :
    Ingestion.decodeJobRequest exRefRequest.body =
        some ⟨"p".toList, "s3:payloads/j9".toList, [], [], 0⟩ ∧
      "s3:payloads/j9".toList.length ≤ 1024 ∧
      hasPrefix "s3:payloads/j9".toList "cmd:".toList = false ∧
      (Ingestion.submitHandler secondsCodec exSubmitEnv exRefRequest exEmptyWorld).1.jobs =
        [Ingestion.jobRow exSubmitEnv ⟨"p".toList, "s3:payloads/j9".toList, [], [], 0⟩ "u".toList
          7500000000] ∧
      (Ingestion.submitHandler secondsCodec exSubmitEnv exRefRequest exEmptyWorld).1.blobs = [] ∧
      ((Worker.processMessage secondsCodec exWorkerEnv exRefMessage exBlobWorldOne).runs.map
        (fun run => (run.status, run.output))) =
          [("COMPLETED".toList, "Success: one".toList)] ∧
      ((Worker.processMessage secondsCodec exWorkerEnv exRefMessage exBlobWorldTwo).runs.map
        (fun run => (run.status, run.output))) =
          [("COMPLETED".toList, "Success: two".toList)] := by
  refine ⟨by decide, by decide, by decide, by decide, by decide, by decide, by decide⟩

/-- C25, amended.  Let `submitHandler` insert the Job row `j` for a submission
whose payload is at most 1024 bytes and begins neither with `cmd:` nor with
`s3:`, and let the worker process the dispatch event that a scan publishes for
`j`.  Then the worker does not read the blob store: processing in a world with
another blob store gives the same world but for the blob store, so the same
run table.  The run record it composes has status COMPLETED and output
`Success: ` followed by the submitted payload, which the output thus
contains. -/
theorem inline_payload_run_ignores_blob_store (tl : TimeLib) (senv : Ingestion.SubmitEnv)
    (r : Ingestion.HttpRequest) (w0 : World) (req : Ingestion.JobRequest) (j : Job) (ok : Bool)
    (cand : Picker.Candidate) (ce : Picker.CandEnv)
    (wenv : Worker.WorkerEnv) (msg : Worker.Message) (w : World) (blobs2 : List (Str × Str))
    (hm : r.method = "POST".toList) (hd : Ingestion.decodeJobRequest r.body = some req)
    (hl : req.Payload.length ≤ 1024)
    (hcmd : hasPrefix req.Payload "cmd:".toList = false)
    (hs3 : hasPrefix req.Payload "s3:".toList = false)
    (hj : Effect.jobsInsert j ok ∈ (Ingestion.submitHandler tl senv r w0).1.log)
    (hnew : Effect.jobsInsert j ok ∉ w0.log)
    (hb : msg.Body = some (.object (Picker.dispatchEvent tl cand ce j))) :
    Worker.processMessage tl wenv msg { w with blobs := blobs2 } =
        { Worker.processMessage tl wenv msg w with blobs := blobs2 } ∧
      (Worker.processMessage tl wenv msg { w with blobs := blobs2 }).runs =
        (Worker.processMessage tl wenv msg w).runs ∧
      ∃ run rest,
        (Worker.processMessage tl wenv msg w).log =
          w.log ++ Effect.runInsert run wenv.runInsertOk :: rest ∧
        (Worker.processMessage tl wenv msg { w with blobs := blobs2 }).log =
          w.log ++ Effect.runInsert run wenv.runInsertOk :: rest ∧
        run.status = "COMPLETED".toList ∧ run.output = "Success: ".toList ++ req.Payload ∧
        req.Payload <:+: run.output ∧
        (wenv.runInsertOk = true → run ∈ (Worker.processMessage tl wenv msg w).runs) := by
  have hjrow : j.payload = req.Payload := by
    rw [(Ingestion.submitHandler_log tl senv r w0 req hm hd).1] at hj
    rcases List.mem_append.mp hj with hj | hj
    · exact absurd hj hnew
    · obtain ⟨nf, -, -, hp⟩ := Ingestion.mem_submitCalls_persist hj
        (fun _ _ _ h => Effect.noConfusion h)
      obtain ⟨hrow, -⟩ := Ingestion.mem_persistCalls_jobsInsert hp
      rw [hrow]
      show Ingestion.storedPayload senv.jobID req.Payload = req.Payload
      unfold Ingestion.storedPayload
      rw [if_neg (by omega)]
  have hdec := Worker.decode_dispatchEvent tl cand ce j
  have hres : ∀ blobs, Worker.resolvePayload wenv blobs
      ⟨cand.ID, ce.runID, "STARTED".toList, j.payload, j.project_id, j.user_id,
        tl.format ce.stamp, j.cron_schedule⟩ = some req.Payload := by
    intro blobs
    unfold Worker.resolvePayload
    simp only
    rw [hjrow, if_neg (by rw [hs3]; decide)]
  have hfetch : Worker.fetchCalls
      ⟨cand.ID, ce.runID, "STARTED".toList, j.payload, j.project_id, j.user_id,
        tl.format ce.stamp, j.cron_schedule⟩ = [] := by
    unfold Worker.fetchCalls
    simp only
    rw [hjrow, if_neg (by rw [hs3]; decide)]
  have h1 := @Worker.processMessage_of_resolved tl wenv msg w _ _ req.Payload hb hdec
    (hres w.blobs)
  have h2 := @Worker.processMessage_of_resolved tl wenv msg { w with blobs := blobs2 } _ _
    req.Payload hb hdec (hres blobs2)
  rw [hfetch] at h1 h2
  have h1e : Worker.processMessage tl wenv msg w =
      Worker.executeAndRecord tl wenv msg
        ⟨cand.ID, ce.runID, "STARTED".toList, req.Payload, j.project_id, j.user_id,
          tl.format ce.stamp, j.cron_schedule⟩ w := by
    rw [h1]
    simp only [List.append_nil]
  have h2e : Worker.processMessage tl wenv msg { w with blobs := blobs2 } =
      Worker.executeAndRecord tl wenv msg
        ⟨cand.ID, ce.runID, "STARTED".toList, req.Payload, j.project_id, j.user_id,
          tl.format ce.stamp, j.cron_schedule⟩ { w with blobs := blobs2 } := by
    rw [h2]
    simp only [List.append_nil]
  have heq : Worker.processMessage tl wenv msg { w with blobs := blobs2 } =
      { Worker.processMessage tl wenv msg w with blobs := blobs2 } := by
    rw [h1e, h2e]
    exact Worker.executeAndRecord_blobs tl wenv msg _ w blobs2
  obtain ⟨rest, hlog, -, -⟩ := Worker.executeAndRecord_log tl wenv msg
    ⟨cand.ID, ce.runID, "STARTED".toList, req.Payload, j.project_id, j.user_id,
      tl.format ce.stamp, j.cron_schedule⟩ w
  have hexec : Worker.execCalls req.Payload = [] := by
    unfold Worker.execCalls
    rw [if_neg (by rw [hcmd]; decide)]
  have hecho := Worker.execute_echo wenv req.Payload hcmd
  have hlogw : (Worker.processMessage tl wenv msg w).log =
      w.log ++ Effect.runInsert (Worker.runRecord tl wenv
        ⟨cand.ID, ce.runID, "STARTED".toList, req.Payload, j.project_id, j.user_id,
          tl.format ce.stamp, j.cron_schedule⟩ (Worker.execute wenv req.Payload))
        wenv.runInsertOk :: rest := by
    rw [h1e, hlog]
    simp only
    rw [hexec, List.append_nil]
  refine ⟨heq, by rw [heq], _, rest, hlogw, by rw [heq]; exact hlogw, ?_, ?_, ?_, ?_⟩
  · show (Worker.execute wenv req.Payload).jobStatus = _
    rw [hecho]
  · show (Worker.execute wenv req.Payload).jobOutput = _
    rw [hecho]
  · show req.Payload <:+: (Worker.execute wenv req.Payload).jobOutput
    rw [hecho]
    exact (List.suffix_append _ _).isInfix
  · intro hr
    rw [h1e]
    exact Worker.mem_executeAndRecord_runs tl wenv msg _ _ hr

/-- The amended C25 at the example submission with payload `test`: the worker
records the same run whether the blob store holds `one` or `two` under
`payloads/j9`. -/
theorem inline_payload_run_ignores_blob_store_witness :
    "test".toList.length ≤ 1024 ∧ hasPrefix "test".toList "cmd:".toList = false ∧
      hasPrefix "test".toList "s3:".toList = false ∧
      (Worker.processMessage secondsCodec exWorkerEnv exInlineMessage
          { exBlobWorldOne with blobs := [("payloads/j9".toList, "two".toList)] }).runs =
        (Worker.processMessage secondsCodec exWorkerEnv exInlineMessage exBlobWorldOne).runs :=
  ⟨by decide, by decide, by decide,
    (inline_payload_run_ignores_blob_store secondsCodec exSubmitEnv exRequest exEmptyWorld
      ⟨"p".toList, "test".toList, [], [], 0⟩
      (Ingestion.jobRow exSubmitEnv ⟨"p".toList, "test".toList, [], [], 0⟩ "u".toList 7500000000)
      true ⟨"j9".toList, 7500000000⟩ (exScanEnv.cand 0) exWorkerEnv exInlineMessage exBlobWorldOne
      [("payloads/j9".toList, "two".toList)]
      rfl (by decide) (by decide) (by decide) (by decide) (by decide) (by decide) rfl).2.1⟩

namespace Worker

/-- C26.  Let a dispatch event decode from the message with a payload that
resolves, and let its `cron_schedule` be non-empty but not parse.  Then
`handleReschedule` returns the world it is given, without a call.  When the run
insert succeeds, `processMessage` leaves the Job store, the user index and B
as they were, so the Job keeps its status and gains no row in B, the run
record is in the run table, and the calls made after the blob download and the
shell command (if any) are the run insert followed by the delete of the bus
message. -/
theorem unparsable_cron_is_acknowledged (tl : TimeLib) (env : WorkerEnv) (msg : Message)
    (w : World) (body : Body) (ev : JobExecutionEvent) (payload : Str)
    (hb : msg.Body = some body) (hd : decodeJobExecutionEvent body = some ev)
    (hres : resolvePayload env w.blobs ev = some payload)
    (hc : ev.CronSchedule ≠ []) (hp : env.cronParse ev.CronSchedule = none)
    (hr : env.runInsertOk = true) :
    (∀ w2, handleReschedule env { ev with Payload := payload } w2 = w2) ∧
      (processMessage tl env msg w).jobs = w.jobs ∧
      (processMessage tl env msg w).userJobs = w.userJobs ∧
      (processMessage tl env msg w).queue = w.queue ∧
      runRecord tl env { ev with Payload := payload } (execute env payload) ∈
        (processMessage tl env msg w).runs ∧
      (processMessage tl env msg w).log =
        w.log ++ fetchCalls ev ++ execCalls payload ++
          [Effect.runInsert (runRecord tl env { ev with Payload := payload } (execute env payload))
              true,
            Effect.sqsDelete msg.ReceiptHandle env.sqsDeleteOk] := by
  have hre : ∀ w2, handleReschedule env { ev with Payload := payload } w2 = w2 := by
    intro w2
    unfold handleReschedule
    simp only [hp]
  have hrun := mem_executeAndRecord_runs tl env msg { ev with Payload := payload }
    { w with log := w.log ++ fetchCalls ev } hr
  rw [processMessage_of_resolved hb hd hres]
  refine ⟨hre, ?_, ?_, ?_, hrun, ?_⟩ <;>
  · unfold executeAndRecord
    simp only [hr, Bool.not_true, Bool.false_eq_true, if_false]
    rw [if_pos hc, hre]
    simp [World.emit]

/-- C26 at the example recurring job, processed by a worker whose cron library
rejects the expression: the Job store and B are as before and the message is
deleted after the run insert. -/
theorem unparsable_cron_is_acknowledged_witness :
    exWorkerEnv.cronParse "@every 2s".toList = none ∧
      (processMessage secondsCodec exWorkerEnv exCronMessage exCronWorld).jobs = exCronWorld.jobs ∧
      (processMessage secondsCodec exWorkerEnv exCronMessage exCronWorld).queue = [] ∧
      (processMessage secondsCodec exWorkerEnv exCronMessage exCronWorld).log =
        [Effect.runInsert ⟨"j1".toList, "r1".toList, "u".toList, "COMPLETED".toList, 5000000000,
            9000000000, "Success: test".toList, "w1".toList, []⟩ true,
          Effect.sqsDelete "h1".toList true] :=
  ⟨rfl,
    (unparsable_cron_is_acknowledged secondsCodec exWorkerEnv exCronMessage exCronWorld
      (.object (Picker.dispatchEvent secondsCodec ⟨"j1".toList, 1000000000⟩
        (exScanEnv.cand 0) exCronJob))
      ⟨"j1".toList, "r1".toList, "STARTED".toList, "test".toList, "p".toList, "u".toList,
        "5".toList, "@every 2s".toList⟩
      "test".toList rfl (by decide) (by decide) (by decide) rfl rfl).2.1,
    (unparsable_cron_is_acknowledged secondsCodec exWorkerEnv exCronMessage exCronWorld
      (.object (Picker.dispatchEvent secondsCodec ⟨"j1".toList, 1000000000⟩
        (exScanEnv.cand 0) exCronJob))
      ⟨"j1".toList, "r1".toList, "STARTED".toList, "test".toList, "p".toList, "u".toList,
        "5".toList, "@every 2s".toList⟩
      "test".toList rfl (by decide) (by decide) (by decide) rfl rfl).2.2.2.1,
    (unparsable_cron_is_acknowledged secondsCodec exWorkerEnv exCronMessage exCronWorld
      (.object (Picker.dispatchEvent secondsCodec ⟨"j1".toList, 1000000000⟩
        (exScanEnv.cand 0) exCronJob))
      ⟨"j1".toList, "r1".toList, "STARTED".toList, "test".toList, "p".toList, "u".toList,
        "5".toList, "@every 2s".toList⟩
      "test".toList rfl (by decide) (by decide) (by decide) rfl rfl).2.2.2.2.2⟩

end Worker

/-- The result of `strings.Split(s, ",")` is never the empty list. -/
theorem splitComma_ne_nil (s : Str) : splitComma s ≠ [] := by
  cases s with
  | nil => simp [splitComma]
  | cons c cs =>
    unfold splitComma
    split
    · simp
    · split <;> simp

/-- The test `len(scyllaHosts) == 0` of the picker never holds: the host list
is what `strings.Split` returns, whatever the environment. -/
theorem Picker.scyllaHosts_eq_split (environ : Str → Option Str) :
    Picker.scyllaHosts environ = splitComma (getenv environ "SCYLLA_HOSTS".toList) := by
  unfold Picker.scyllaHosts
  simp only
  rw [if_neg]
  intro h
  exact splitComma_ne_nil _ (List.length_eq_zero.mp h)

/-- C27, the code at the failing inputs.  In an environment where the host-list
variables are unset, and in one where they are set to the empty text, the host
list that picker, worker and writer pass to the Scylla client and the endpoint
list that picker and coordinator pass to the Etcd client consist of one empty
host name; they are not the built-in defaults.  Ingress, which also tests
whether the first piece is empty, passes the default. -/
theorem unset_host_list_is_not_defaulted :
    Picker.scyllaHosts exNoEnviron = [[]] ∧ Worker.scyllaHosts exNoEnviron = [[]] ∧
      Writer.scyllaHosts exNoEnviron = [[]] ∧ Picker.etcdEndpoints exNoEnviron = [[]] ∧
      Coordinator.etcdEndpoints exNoEnviron = [[]] ∧
      Picker.scyllaHosts exEmptyEnviron = [[]] ∧ Worker.scyllaHosts exEmptyEnviron = [[]] ∧
      Writer.scyllaHosts exEmptyEnviron = [[]] ∧ Picker.etcdEndpoints exEmptyEnviron = [[]] ∧
      Coordinator.etcdEndpoints exEmptyEnviron = [[]] ∧
      Ingestion.scyllaHosts exNoEnviron = ["scheduler-scylla".toList] ∧
      Ingestion.scyllaHosts exEmptyEnviron = ["scheduler-scylla".toList] := by
  refine ⟨?_, ?_, ?_, ?_, ?_, ?_, ?_, ?_, ?_, ?_, ?_, ?_⟩ <;> decide

namespace Ingestion

set_option maxRecDepth 8000 in
/-- C28, the code at a failing input.  The example request is a `POST` whose
payload is 1025 bytes and whose `next_fire_at` is the text `soon`; the upload
succeeds.  The handler answers 400 for the malformed `next_fire_at`, and writes
no Job row, no user-index row and no submission event, but the blob store now
holds the payload under `payloads/j9`: the upload came before the check. -/
theorem rejected_submission_leaves_blob :
    (submitHandler secondsCodec exSubmitEnv exLargeBadTimeRequest exEmptyWorld).2 =
        ⟨400, .text "Invalid next_fire_at format (RFC3339 required)".toList⟩ ∧
      (submitHandler secondsCodec exSubmitEnv exLargeBadTimeRequest exEmptyWorld).1.blobs =
        [("payloads/j9".toList, List.replicate 1025 'A')] ∧
      (submitHandler secondsCodec exSubmitEnv exLargeBadTimeRequest exEmptyWorld).1.blobs ≠
        exEmptyWorld.blobs ∧
      (submitHandler secondsCodec exSubmitEnv exLargeBadTimeRequest exEmptyWorld).1.jobs = [] ∧
      (submitHandler secondsCodec exSubmitEnv exLargeBadTimeRequest exEmptyWorld).1.userJobs = [] ∧
      (submitHandler secondsCodec exSubmitEnv exLargeBadTimeRequest exEmptyWorld).1.log =
        [Effect.s3Put "payloads/j9".toList (List.replicate 1025 'A') true] := by
  have hlen : (List.replicate 1025 'A').length > 1024 := by
    rw [List.length_replicate]; decide
  have h := submitHandler_post secondsCodec exSubmitEnv exLargeBadTimeRequest exEmptyWorld
    ⟨"p".toList, List.replicate 1025 'A', [], "soon".toList, 0⟩ rfl rfl
  have hfire : fireTime secondsCodec exSubmitEnv
      ⟨"p".toList, List.replicate 1025 'A', [], "soon".toList, 0⟩ = none := by decide
  rw [if_neg (fun hc => Bool.noConfusion hc.2), hfire] at h
  simp only at h
  rw [h]
  unfold afterOffload
  rw [if_pos hlen]
  refine ⟨rfl, rfl, ?_, rfl, rfl, rfl⟩
  intro hc
  cases hc

end Ingestion

namespace Worker

/-- C29.  In `handleReschedule` the insert into B comes only after a
successful update of the Job row.  When the Job update fails, B is left as it
was and no insert into B is issued.  Whenever an insert into B is among the
calls `tr` of `handleReschedule`, the calls are exactly the successful Job
update followed by that insert, both with the same shard id and
`next_fire_at`, and the Job store afterwards holds a row of the job, every row
of the job carrying that shard id and `next_fire_at`. -/
theorem queue_insert_follows_job_update (env : WorkerEnv) (ev : JobExecutionEvent) (w : World) :
    ∃ tr, (handleReschedule env ev w).log = w.log ++ tr ∧
      (env.jobsUpdateOk = false →
        (handleReschedule env ev w).queue = w.queue ∧
          ∀ s t id st ok, Effect.queueInsert s t id st ok ∉ tr) ∧
      (∀ s t id st ok, Effect.queueInsert s t id st ok ∈ tr →
        tr = [Effect.jobsReschedule id t s true, Effect.queueInsert s t id st ok] ∧
        id = ev.JobID ∧
        (∃ j ∈ (handleReschedule env ev w).jobs, j.job_id = id) ∧
        (∀ j ∈ (handleReschedule env ev w).jobs, j.job_id = id →
          j.shard_id = s ∧ j.next_fire_at = t)) := by
  obtain ⟨hlog, -, hjobs, hqueue⟩ := handleReschedule_eq env ev w
  refine ⟨rescheduleCalls env ev, hlog, ?_, ?_⟩
  · intro hj
    constructor
    · rw [hqueue]
      rcases env.cronParse ev.CronSchedule with _ | next
      · rfl
      · simp only
        rw [if_neg (fun h => by rw [hj] at h; exact Bool.noConfusion h.1)]
    · intro s t id st ok h
      obtain ⟨next, -, h | ⟨hj2, -⟩⟩ := mem_rescheduleCalls h
      · cases h
      · rw [hj] at hj2; cases hj2
  · intro s t id st ok h
    obtain ⟨next, hp, h2 | ⟨hj, h2⟩⟩ := mem_rescheduleCalls h
    · cases h2
    · cases h2
      rw [hjobs, hp]
      simp only
      rw [hj, if_pos rfl]
      refine ⟨?_, trivial, exists_mem_updateJob _ _ _ (fun _ => rfl), ?_⟩
      · unfold rescheduleCalls
        rw [hp]
        simp only
        rw [hj, if_pos rfl]
      · intro j hmem hid
        obtain ⟨x, hx⟩ := mem_updateJob_of_id hmem hid
        rw [hx]
        exact ⟨rfl, rfl⟩

/-- C29 at the example recurring job: with a failing Job update B stays empty,
and with a successful one the Job row carries the second 11 and the shard 7 of
the row inserted into B. -/
theorem queue_insert_follows_job_update_witness :
    (handleReschedule exCronWorkerEnvNoUpdate
        ⟨"j1".toList, "r1".toList, [], "test".toList, [], "u".toList, "5".toList,
          "@every 2s".toList⟩ exCronWorld).queue = [] ∧
      (handleReschedule exCronWorkerEnv
        ⟨"j1".toList, "r1".toList, [], "test".toList, [], "u".toList, "5".toList,
          "@every 2s".toList⟩ exCronWorld).log =
        [Effect.jobsReschedule "j1".toList 11000000000 7 true,
          Effect.queueInsert 7 11000000000 "j1".toList none true] ∧
      ∃ tr, (handleReschedule exCronWorkerEnv
          ⟨"j1".toList, "r1".toList, [], "test".toList, [], "u".toList, "5".toList,
            "@every 2s".toList⟩ exCronWorld).log = exCronWorld.log ++ tr ∧
        (∀ s t id st ok, Effect.queueInsert s t id st ok ∈ tr →
          tr = [Effect.jobsReschedule id t s true, Effect.queueInsert s t id st ok]) := by
  refine ⟨by decide, by decide, ?_⟩
  obtain ⟨tr, hlog, -, h⟩ := queue_insert_follows_job_update exCronWorkerEnv
    ⟨"j1".toList, "r1".toList, [], "test".toList, [], "u".toList, "5".toList,
      "@every 2s".toList⟩ exCronWorld
  exact ⟨tr, hlog, fun s t id st ok hm => (h s t id st ok hm).1⟩

/-- C30.  Let a dispatch event decode from the message with a payload that
resolves and a non-empty `cron_schedule` that parses.  Whatever the outcome of
the run, `processMessage` issues no update of the Job status alone (the call
that writes COMPLETED or FAILED).  When the run insert, the Job update and the
insert into B succeed, the run record, COMPLETED or FAILED, is in the run
table; the Job store holds a row of the job and every row of the job has status
PENDING and the `next_fire_at` that the schedule gives for the time of the
reschedule; and B holds a row with that `next_fire_at` for the job. -/
theorem reschedule_ignores_run_outcome (tl : TimeLib) (env : WorkerEnv) (msg : Message)
    (w : World) (body : Body) (ev : JobExecutionEvent) (payload : Str) (next : Time → Time)
    (hb : msg.Body = some body) (hd : decodeJobExecutionEvent body = some ev)
    (hres : resolvePayload env w.blobs ev = some payload)
    (hc : ev.CronSchedule ≠ []) (hp : env.cronParse ev.CronSchedule = some next) :
    (∀ id st ok, Effect.jobsUpdateStatus id st ok ∈ (processMessage tl env msg w).log →
        Effect.jobsUpdateStatus id st ok ∈ w.log) ∧
      (env.runInsertOk = true → env.jobsUpdateOk = true → env.queueInsertOk = true →
        runRecord tl env { ev with Payload := payload } (execute env payload) ∈
          (processMessage tl env msg w).runs ∧
        ((execute env payload).jobStatus = "COMPLETED".toList ∨
          (execute env payload).jobStatus = "FAILED".toList) ∧
        (∃ j ∈ (processMessage tl env msg w).jobs, j.job_id = ev.JobID) ∧
        (∀ j ∈ (processMessage tl env msg w).jobs, j.job_id = ev.JobID →
          j.status = "PENDING".toList ∧ j.next_fire_at = next env.cronNow) ∧
        (∃ row ∈ (processMessage tl env msg w).queue,
          row.job_id = ev.JobID ∧ row.next_fire_at = next env.cronNow)) := by
  have hproc := @processMessage_of_resolved tl env msg w body ev payload hb hd hres
  constructor
  · intro id st ok h
    rw [hproc] at h
    unfold executeAndRecord at h
    simp only at h
    cases hr : env.runInsertOk
    · rw [hr] at h
      simp only [Bool.not_false, if_true, World.emit, List.mem_append, List.mem_singleton] at h
      rcases h with ((h | h) | h) | h
      · exact h
      · cases mem_fetchCalls h
      · cases mem_execCalls h
      · cases h
    · rw [hr] at h
      simp only [Bool.not_true, Bool.false_eq_true, if_false, World.emit] at h
      rw [if_pos hc] at h
      simp only [List.mem_append, List.mem_singleton] at h
      rcases h with h | h
      · rw [(handleReschedule_eq env _ _).1] at h
        simp only [List.mem_append, List.mem_singleton] at h
        rcases h with (((h | h) | h) | h) | h
        · exact h
        · cases mem_fetchCalls h
        · cases mem_execCalls h
        · cases h
        · obtain ⟨_, -, h | ⟨-, h⟩⟩ := mem_rescheduleCalls h <;> cases h
      · cases h
  · intro hr hj hq
    rw [hproc]
    refine ⟨mem_executeAndRecord_runs tl env msg _ _ hr, execute_status env payload, ?_⟩
    rw [@executeAndRecord_rescheduled tl env msg { ev with Payload := payload }
      { w with log := w.log ++ fetchCalls ev } next hc hp hr hj hq]
    simp only
    refine ⟨exists_mem_updateJob _ _ _ (fun _ => rfl), ?_, ?_⟩
    · intro j hmem hid
      obtain ⟨x, hx⟩ := mem_updateJob_of_id hmem hid
      rw [hx]
      exact ⟨rfl, rfl⟩
    · obtain ⟨row, hrow, hkey⟩ := exists_mem_insertQueue ((env.rand % 1024 : Nat) : Int)
        (next env.cronNow) ev.JobID none w.queue
      simp only [QueueRow.key, Prod.mk.injEq] at hkey
      exact ⟨row, hrow, hkey.2.2, hkey.2.1⟩

/-- C30 at the example recurring job with the command `exit 3`, which fails:
the run is FAILED, the Job row is PENDING with `next_fire_at` at second 11, and
B holds the row of the next firing. -/
theorem reschedule_ignores_run_outcome_witness :
    ((processMessage secondsCodec exShellCronWorkerEnv exFailingCronMessage exCronWorld).runs.map
        Run.status) = ["FAILED".toList] ∧
      (∀ j ∈ (processMessage secondsCodec exShellCronWorkerEnv exFailingCronMessage
          exCronWorld).jobs,
        j.job_id = "j1".toList → j.status = "PENDING".toList ∧ j.next_fire_at = 11000000000) ∧
      (processMessage secondsCodec exShellCronWorkerEnv exFailingCronMessage exCronWorld).queue =
        [⟨7, 11000000000, "j1".toList, none⟩] :=
  ⟨by decide,
    ((reschedule_ignores_run_outcome secondsCodec exShellCronWorkerEnv exFailingCronMessage
      exCronWorld
      (.object [("job_id".toList, .str "j1".toList), ("run_id".toList, .str "r2".toList),
        ("payload".toList, .str "cmd:exit 3".toList), ("user_id".toList, .str "u".toList),
        ("executed_at".toList, .str "5".toList),
        ("cron_schedule".toList, .str "@every 2s".toList)])
      ⟨"j1".toList, "r2".toList, [], "cmd:exit 3".toList, [], "u".toList, "5".toList,
        "@every 2s".toList⟩
      "cmd:exit 3".toList (fun t => t + 2000000000) rfl (by decide) (by decide) (by decide)
      rfl).2 rfl rfl rfl).2.2.2.1,
    by decide⟩

end Worker

namespace Picker

theorem not_mem_range_cast_of_neg (n : Nat) (s : Int) (hs : s < 0) :
    s ∉ (List.range n).map (fun k : Nat => (k : Int)) := by
  intro h
  obtain ⟨k, -, hk⟩ := List.mem_map.mp h
  omega

end Picker

/-- C22, the code at a failing input.  The example submission is made on a host
whose clock stands one nanosecond before the Unix epoch.  The handler answers
201, and the shard id that it writes to the Job row and to the submission event
is -1, which is not in [0, 1024): the remainder of a negative count of
nanoseconds is negative.  No tick of `runPickerLoop` scans shard -1, so the
job is never dispatched. -/
theorem submission_shard_id_negative :
    exSubmitEnvEarly.now = -1 ∧
      (Ingestion.submitHandler secondsCodec exSubmitEnvEarly exRequest exEmptyWorld).2.code = 201 ∧
      ((Ingestion.submitHandler secondsCodec exSubmitEnvEarly exRequest exEmptyWorld).1.jobs.map
        Job.shard_id) = [-1] ∧
      (∃ ev, Effect.kafkaPublish "j9".toList ev true ∈
          (Ingestion.submitHandler secondsCodec exSubmitEnvEarly exRequest exEmptyWorld).1.log ∧
        ev.lookup "shard_id".toList = some (.num (-1))) ∧
      ¬ ((0 : Int) ≤ -1 ∧ (-1 : Int) < 1024) ∧
      (∀ (env : Nat → Picker.ScanEnv) (w : World),
        (-1 : Int) ∉ (Picker.runPickerTick secondsCodec env w).2) := by
  refine ⟨rfl, by decide, by decide, ?_, by decide, ?_⟩
  · exact ⟨Ingestion.submissionEvent secondsCodec "j9".toList
      ⟨"p".toList, "test".toList, [], [], 0⟩ "u".toList 7500000000 (-1) (-1) "test".toList,
      by decide, by decide⟩
  · intro env w
    rw [Picker.runPickerTick_scanned]
    exact Picker.not_mem_range_cast_of_neg 1024 (-1) (by decide)

end Scheduler
